import Mathlib

/-!
# API testing playground: request execution and collaboration engine

A shallow embedding of the parts of the playground that its contract talks
about:

* the assertion engine, `runTests` of `src/components/TestsPanel.jsx`;
* the request executor, `executeRequest` of `src/store/useStore.js`, with its
  environment-variable substitution step, and the `execute_request` tool of
  `mcp-server/index.js`;
* the collaboration relay, the socket handlers of `server/index.js`, and the
  `PUT` routes of its document store;
* the row edits and the Send button of `src/components/RequestPanel.jsx`.

JavaScript values are embedded as the inductive type `JsVal`; a JavaScript
exception is the `error` case of `Except`, `undefined` is a constructor of
`JsVal` (or `none` where only a string or a number can be present).  Strings
are Lean strings, processed as lists of characters.
-/

namespace Playground

/-! ## JavaScript values -/

/-- A JavaScript value as it can occur in a response body or a relayed payload.
`num text` is the finite number whose string form, `Number::toString`, is
`text`: `1`, `-2.5`, `1e+21`.  Both `JSON.stringify` and `String` write a
finite number in that form, and no other operation of the embedding reads a
number of a body, so a number is kept as its string form.  `obj` lists the own
properties in enumeration order. -/
inductive JsVal where
  | undefined
  | null
  | bool (b : Bool)
  | num (text : String)
  | str (s : String)
  | arr (xs : List JsVal)
  | obj (ps : List (String × JsVal))

/-- The double quote character. -/
def dquote : Char := Char.ofNat 34

/-- The backslash character. -/
def backslash : Char := Char.ofNat 92

/-- The opening brace. -/
def lbrace : Char := Char.ofNat 123

/-- The closing brace. -/
def rbrace : Char := Char.ofNat 125

/-- The dollar sign. -/
def dollar : Char := Char.ofNat 36

/-- Lower-case hexadecimal digit of a number below sixteen. -/
def hexDigit (n : Nat) : Char :=
  if n < 10 then Char.ofNat (48 + n) else Char.ofNat (87 + n)

/-- One character of `QuoteJSONString`: the quote and the backslash are
escaped, control characters get their short escape or `\u00xx`. -/
def quoteChar (c : Char) : List Char :=
  if c = dquote then [backslash, dquote]
  else if c = backslash then [backslash, backslash]
  else if c.toNat = 8 then [backslash, 'b']
  else if c.toNat = 9 then [backslash, 't']
  else if c.toNat = 10 then [backslash, 'n']
  else if c.toNat = 12 then [backslash, 'f']
  else if c.toNat = 13 then [backslash, 'r']
  else if c.toNat < 32 then
    [backslash, 'u', '0', '0', hexDigit (c.toNat / 16), hexDigit (c.toNat % 16)]
  else [c]

/-- `QuoteJSONString` of ECMAScript: the text between double quotes, escaped. -/
def quoteJSONString (s : String) : String :=
  String.mk (dquote :: (s.data.flatMap quoteChar ++ [dquote]))

/-- Decimal rendering of an integral number, `Number::toString` of a status
code or of a time in milliseconds. -/
def numberToString (n : Int) : String := toString n

mutual
/-- `JSON.stringify(v)` without indentation; `none` is the result `undefined`. -/
def jsonStringify : JsVal → Option String
  | .undefined => none
  | .null => some "null"
  | .bool b => some (if b then "true" else "false")
  | .num text => some text
  | .str s => some (quoteJSONString s)
  | .arr xs => some ("[" ++ ",".intercalate (stringifyElems xs) ++ "]")
  | .obj ps => some ("\x7b" ++ ",".intercalate (stringifyProps ps) ++ "\x7d")
/-- The serialised elements of an array: `undefined` is written `null`. -/
def stringifyElems : List JsVal → List String
  | [] => []
  | x :: xs => (jsonStringify x).getD "null" :: stringifyElems xs
/-- The serialised properties of an object: a property whose value is
`undefined` is left out. -/
def stringifyProps : List (String × JsVal) → List String
  | [] => []
  | (k, v) :: ps =>
    match jsonStringify v with
    | some s => (quoteJSONString k ++ ":" ++ s) :: stringifyProps ps
    | none => stringifyProps ps
end

/-- The message of the TypeError `String` raises on an object that has no
callable `toString` and no `valueOf` returning a primitive. -/
def primitiveMessage : String := "Cannot convert object to primitive value"

mutual
/-- `String(v)`, also the conversion a template literal applies to `v`; the
`error` case is the TypeError it raises.  An object is converted by its
`toString`: the inherited one gives `[object Object]`; an own property
`toString` hides it and, as no value of a body is callable, the conversion
then raises (the `valueOf` tried next is not callable or returns the object).
An array is converted by joining the string forms of its elements. -/
def jsToString : JsVal → Except String String
  | .undefined => .ok "undefined"
  | .null => .ok "null"
  | .bool b => .ok (if b then "true" else "false")
  | .num text => .ok text
  | .str s => .ok s
  | .arr xs =>
    match joinElems xs with
    | .ok pieces => .ok (",".intercalate pieces)
    | .error msg => .error msg
  | .obj ps =>
    if ps.any (fun p => p.1 = "toString") then .error primitiveMessage
    else .ok "[object Object]"
/-- The pieces `Array.prototype.join` puts between commas, from left to
right: `undefined` and `null` elements are empty. -/
def joinElems : List JsVal → Except String (List String)
  | [] => .ok []
  | .undefined :: xs =>
    match joinElems xs with
    | .ok pieces => .ok ("" :: pieces)
    | .error msg => .error msg
  | .null :: xs =>
    match joinElems xs with
    | .ok pieces => .ok ("" :: pieces)
    | .error msg => .error msg
  | x :: xs =>
    match jsToString x with
    | .error msg => .error msg
    | .ok piece =>
      match joinElems xs with
      | .ok pieces => .ok (piece :: pieces)
      | .error msg => .error msg
end

/-! ## String helpers -/

/-- `s.includes(sub)` on character lists: `sub` occurs contiguously in `s`. -/
def includesChars : List Char → List Char → Bool
  | [], sub => sub.isEmpty
  | c :: cs, sub => sub.isPrefixOf (c :: cs) || includesChars cs sub

/-- `s.includes(sub)`. -/
def includes (s sub : String) : Bool := includesChars s.data sub.data

/-- `path.split('.')` on character lists; the result is never empty. -/
def splitDot : List Char → List (List Char)
  | [] => [[]]
  | c :: cs =>
    match splitDot cs with
    | [] => if c = '.' then [[], []] else [[c]]
    | p :: ps => if c = '.' then [] :: p :: ps else (c :: p) :: ps

/-- `path.split('.')`. -/
def split (path : String) : List String := (splitDot path.data).map String.mk

/-- `s.toLowerCase()` on the ASCII letters, the letters of method names and
header fields; other characters are kept (the lower-casing of letters
outside ASCII is not part of the embedding). -/
def toLowerCase (s : String) : String := String.mk (s.data.map Char.toLower)

/-- The white space `parseInt` skips: `StrWhiteSpaceChar` of ECMAScript. -/
def isStrWhiteSpace (c : Char) : Bool :=
  let n := c.toNat
  n = 9 || n = 10 || n = 11 || n = 12 || n = 13 || n = 32 || n = 160 || n = 5760
    || (8192 ≤ n && n ≤ 8202) || n = 8232 || n = 8233 || n = 8239 || n = 8287
    || n = 12288 || n = 65279

/-- Value of a character as a digit in the given radix, if it is one. -/
def digitValue (radix : Nat) (c : Char) : Option Nat :=
  let n := c.toNat
  let v := if 48 ≤ n && n ≤ 57 then n - 48
    else if 97 ≤ n && n ≤ 122 then n - 87
    else if 65 ≤ n && n ≤ 90 then n - 55
    else 36
  if v < radix then some v else none

/-- The longest run of leading digits in the radix, as digit values. -/
def leadingDigits (radix : Nat) : List Char → List Nat
  | [] => []
  | c :: cs =>
    match digitValue radix c with
    | some v => v :: leadingDigits radix cs
    | none => []

/-- The number a non-empty run of digits denotes; `none` (NaN) for no digit. -/
def digitsValue (radix : Nat) (ds : List Nat) : Option Nat :=
  if ds.isEmpty then none else some (ds.foldl (fun acc d => acc * radix + d) 0)

/-- `parseInt` after the white space and the sign: a `0x` or `0X` opener
selects radix sixteen. -/
def parseUnsigned : List Char → Option Nat
  | '0' :: 'x' :: cs => digitsValue 16 (leadingDigits 16 cs)
  | '0' :: 'X' :: cs => digitsValue 16 (leadingDigits 16 cs)
  | cs => digitsValue 10 (leadingDigits 10 cs)

/-- `parseInt` after the white space. -/
def parseSigned : List Char → Option Int
  | '-' :: cs => (parseUnsigned cs).map (fun n => - (n : Int))
  | '+' :: cs => (parseUnsigned cs).map (fun n => (n : Int))
  | cs => (parseUnsigned cs).map (fun n => (n : Int))

/-- `parseInt(s)` with no radix argument; `none` is NaN. -/
def parseInt (s : String) : Option Int :=
  parseSigned (s.data.dropWhile isStrWhiteSpace)

/-- Rendering of a `parseInt` result in a template literal. -/
def optNumberToString : Option Int → String
  | some n => numberToString n
  | none => "NaN"

/-! ## Property access and `getNestedValue` -/

/-- The number a run of decimal digits denotes. -/
def decimalValue (ds : List Char) : Nat :=
  ds.foldl (fun acc c => acc * 10 + (c.toNat - 48)) 0

/-- The array index a property key denotes: the key is the canonical decimal
rendering of a natural number, that is a non-empty run of digits that does
not start with `0` unless it is `0` itself. -/
def arrayIndex (key : String) : Option Nat :=
  match key.data with
  | [] => none
  | c :: cs =>
    if (c :: cs).all Char.isDigit && (c ≠ '0' || cs.isEmpty) then some (decimalValue (c :: cs))
    else none

/-- Number of UTF-16 code units of a character. -/
def utf16Units (c : Char) : Nat := if c.toNat < 65536 then 1 else 2

/-- Length of a string in UTF-16 code units: the `length` of a JavaScript string. -/
def utf16Length (s : String) : Nat := (s.data.map utf16Units).sum

/-- The UTF-16 code unit at an index, as a one-character string when it is a
character of the basic plane; a surrogate half is rendered as U+FFFD. -/
def codeUnitAt : List Char → Nat → Option String
  | [], _ => none
  | c :: _, 0 =>
    if c.toNat < 65536 then some (String.singleton c) else some (String.singleton (Char.ofNat 65533))
  | c :: cs, i + 1 =>
    if c.toNat < 65536 then codeUnitAt cs i
    else match i with
      | 0 => some (String.singleton (Char.ofNat 65533))
      | j + 1 => codeUnitAt cs j

/-- First property of the list with the given key. -/
def lookupProp (key : String) : List (String × JsVal) → Option JsVal
  | [] => none
  | (k, v) :: ps => if k = key then some v else lookupProp key ps

/-- The read `current?.[key]` on own properties: `undefined` and `null` give
`undefined`; objects are read by key, arrays and strings by index or `length`.
Members inherited from a prototype (`constructor`, `toString`, the methods of
arrays and strings) are functions of the platform and not part of the
embedding: the read of such a name that is no own property is outside it.
`objectPrototypeMembers` and `numberPrototypeMembers` below list these names
for objects, booleans and numbers. -/
def getProp (current : JsVal) (key : String) : JsVal :=
  match current with
  | .undefined => .undefined
  | .null => .undefined
  | .bool _ => .undefined
  | .num _ => .undefined
  | .str s =>
    if key = "length" then .num (toString (utf16Length s))
    else match arrayIndex key with
      | some i => match codeUnitAt s.data i with
        | some c => .str c
        | none => .undefined
      | none => .undefined
  | .arr xs =>
    if key = "length" then .num (toString xs.length)
    else match arrayIndex key with
      | some i => (xs.get? i).getD .undefined
      | none => .undefined
  | .obj ps => (lookupProp key ps).getD .undefined

/-- The members every object inherits from `Object.prototype`; a boolean
inherits members of these names too. -/
def objectPrototypeMembers : List String :=
  ["constructor", "hasOwnProperty", "isPrototypeOf", "propertyIsEnumerable", "toLocaleString",
   "toString", "valueOf", "__proto__", "__defineGetter__", "__defineSetter__",
   "__lookupGetter__", "__lookupSetter__"]

/-- The members a number inherits, from `Number.prototype` and from
`Object.prototype`. -/
def numberPrototypeMembers : List String :=
  ["toExponential", "toFixed", "toPrecision"] ++ objectPrototypeMembers

/-- `getNestedValue(obj, path)`:
`path.split('.').reduce((current, key) => current?.[key], obj)`. -/
def getNestedValue (obj : JsVal) (path : String) : JsVal :=
  (split path).foldl getProp obj

/-! ## Assertion engine: `runTests` -/

/-- A test of a request, as `addTest` creates it. -/
structure Test where
  id : String
  type : String
  field : String
  operator : String
  value : String
  enabled : Bool
  deriving DecidableEq

/-- The response held by the store: `responseData` of `executeRequest`, or its
error response, which has no `headers` member (`none`). -/
structure Response where
  status : Int
  statusText : String
  headers : Option (List (String × String))
  data : JsVal
  time : Int
  size : Nat

/-- A result of `runTests`: the test's own members with `passed` and `message`. -/
structure TestResult where
  test : Test
  passed : Bool
  message : String
  deriving DecidableEq

/-- The message of the TypeError raised by reading a member of `undefined`. -/
def undefinedReadMessage (member : String) : String :=
  "Cannot read properties of undefined (reading '" ++ member ++ "')"

/-- The members a header object inherits whose names are in lower case:
`constructor` and `__proto__` of every object, and `set`, `get`, `has`,
`delete`, `clear`, `normalize` and `concat` of the header class of axios.  A
read by a lower-cased key can meet no other inherited member. -/
def headerObjectMembers : List String :=
  ["constructor", "__proto__", "set", "get", "has", "delete", "clear", "normalize", "concat"]

/-- The `switch` of `runTests` for one test: the pair `(passed, message)`, or
the message of the exception the branch raises.  In the `header` branch the
read `response.headers[key]` finds a header of that name or a member the
header object inherits, a function or the prototype, and neither is
`undefined`. -/
def evalCheck (test : Test) (response : Response) : Except String (Bool × String) :=
  if test.type = "status" then
    let passed := decide (some response.status = parseInt test.value)
    .ok (passed,
      if passed then "Status is " ++ test.value
      else "Expected " ++ test.value ++ ", got " ++ numberToString response.status)
  else if test.type = "header" then
    let key := toLowerCase test.field
    let passed :=
      match response.headers with
      | none => false
      | some hs => (hs.find? (fun h => h.1 = key)).isSome || headerObjectMembers.contains key
    .ok (passed,
      if passed then "Header '" ++ test.field ++ "' exists"
      else "Header '" ++ test.field ++ "' not found")
  else if test.type = "body" then
    match jsonStringify response.data with
    | none => .error (undefinedReadMessage "includes")
    | some bodyString =>
      let passed := includes bodyString test.value
      .ok (passed,
        if passed then "Body contains '" ++ test.value ++ "'"
        else "Body does not contain '" ++ test.value ++ "'")
  else if test.type = "json" then
    let value := getNestedValue response.data test.field
    match jsToString value with
    | .error msg => .error msg
    | .ok text =>
      let passed := decide (text = test.value)
      .ok (passed,
        if passed then test.field ++ " equals " ++ test.value
        else "Expected " ++ test.value ++ ", got " ++ text)
  else if test.type = "time" then
    let maxTime := parseInt test.value
    let passed := match maxTime with
      | some m => decide (response.time ≤ m)
      | none => false
    .ok (passed,
      if passed then
        "Response time (" ++ numberToString response.time ++ "ms) is under "
          ++ optNumberToString maxTime ++ "ms"
      else
        "Response time (" ++ numberToString response.time ++ "ms) exceeds "
          ++ optNumberToString maxTime ++ "ms")
  else .ok (false, "Unknown test type")

/-- The body of the `map` callback of `runTests`: the `try`/`catch` around the
`switch`, and the result `{ ...test, passed, message }`. -/
def runTest (response : Response) (test : Test) : TestResult :=
  match evalCheck test response with
  | .ok (passed, message) => { test := test, passed := passed, message := message }
  | .error msg => { test := test, passed := false, message := "Error: " ++ msg }

/-- The results `runTests` computes for a present response:
`tests.filter(t => t.enabled).map(...)`. -/
def evaluate (tests : List Test) (response : Response) : List TestResult :=
  (tests.filter (fun t => t.enabled)).map (runTest response)

/-- `runTests`: nothing is computed without a response (`none`), otherwise the
results of `evaluate` become the panel's `testResults`. -/
def runTests (tests : List Test) (response : Option Response) : Option (List TestResult) :=
  match response with
  | none => none
  | some r => some (evaluate tests r)

/-! ## Variable resolver: the substitution step of `executeRequest` -/

/-- A key/value row with its check box: an environment variable, a header or
a query parameter. -/
structure Variable where
  key : String
  value : String
  enabled : Bool
  deriving DecidableEq

/-- An environment of the store; `vars` is its member `variables`. -/
structure Environment where
  id : String
  name : String
  vars : List Variable
  deriving DecidableEq

/-- One item of a compiled pattern: a literal character, or the wild card a
dot in the key becomes. -/
inductive PatItem where
  | lit (c : Char)
  | any
  deriving DecidableEq

/-- `SyntaxCharacter` of the regular expression grammar:
`^ $ \ . * + ? ( ) [ ] { } |`. -/
def isSyntaxChar (c : Char) : Bool :=
  [94, 36, 92, 46, 42, 43, 63, 40, 41, 91, 93, 123, 125, 124].contains c.toNat

/-- The text between the inner braces reads as a braced quantifier: digits,
digits and a comma, or digits, a comma and digits.  The pattern built from
such a key repeats the opening brace instead of naming a placeholder. -/
def isQuantifierBody (k : List Char) : Bool :=
  let ds := k.takeWhile Char.isDigit
  let rest := k.dropWhile Char.isDigit
  !ds.isEmpty && (rest.isEmpty || (rest.head? = some ',' && rest.tail.all Char.isDigit))

/-- The pattern items of the characters of a key: a dot is the wild card, any
other syntax character puts the key outside the embedded fragment (`none`). -/
def keyItems : List Char → Option (List PatItem)
  | [] => some []
  | c :: cs =>
    if c = '.' then (keyItems cs).map (fun items => PatItem.any :: items)
    else if isSyntaxChar c then none
    else (keyItems cs).map (fun items => PatItem.lit c :: items)

/-- The regular expression `new RegExp("{{" + key + "}}", 'g')` for the keys
whose pattern is a fixed sequence of literal characters and wild cards.  For
most keys it is two opening braces, the key, two closing braces.  For a key
of decimal digits `n` the inner braces are the quantifier `{n}` of the first
brace: the pattern is the opening brace `n` times and one closing brace.
`none` for every other key (the expression is a different one, or a
SyntaxError). -/
def compilePattern (key : String) : Option (List PatItem) :=
  if isQuantifierBody key.data then
    if key.data.all Char.isDigit then
      some (List.replicate (decimalValue key.data) (PatItem.lit lbrace) ++ [PatItem.lit rbrace])
    else none
  else (keyItems key.data).map
    (fun items => PatItem.lit lbrace :: PatItem.lit lbrace :: (items ++ [PatItem.lit rbrace, PatItem.lit rbrace]))

/-- `LineTerminator`: the characters a dot does not match. -/
def isLineTerminator (c : Char) : Bool :=
  c.toNat = 10 || c.toNat = 13 || c.toNat = 8232 || c.toNat = 8233

/-- One pattern item against one character. -/
def matchItem : PatItem → Char → Bool
  | .lit a, c => a = c
  | .any, c => !isLineTerminator c

/-- The pattern matches at the start of the text. -/
def matchPrefix : List PatItem → List Char → Bool
  | [], _ => true
  | _ :: _, [] => false
  | p :: ps, c :: cs => matchItem p c && matchPrefix ps cs

/-- `GetSubstitution` of ECMAScript for a match without capture groups: in
the replacement text `$$` is a dollar sign, `$&` the matched text, a dollar
and a backtick the text before the match, a dollar and an apostrophe the text
after it; any other character, a lone dollar included, stands for itself. -/
def getSubstitution (matched before after : List Char) : List Char → List Char
  | [] => []
  | [c] => [c]
  | c :: d :: rest =>
    if c = dollar then
      if d = dollar then dollar :: getSubstitution matched before after rest
      else if d = '&' then matched ++ getSubstitution matched before after rest
      else if d = Char.ofNat 96 then before ++ getSubstitution matched before after rest
      else if d = Char.ofNat 39 then after ++ getSubstitution matched before after rest
      else c :: getSubstitution matched before after (d :: rest)
    else c :: getSubstitution matched before after (d :: rest)

/-- The scan of a global replace: `skip` characters of the current match are
still to be passed over, `before` is the text already scanned.  The matches
are the leftmost ones, one after the other, none overlapping. -/
def replaceScan (pat : List PatItem) (value : List Char) : Nat → List Char → List Char → List Char
  | _, _, [] => []
  | skip + 1, before, c :: cs => replaceScan pat value skip (before ++ [c]) cs
  | 0, before, c :: cs =>
    if matchPrefix pat (c :: cs) then
      getSubstitution ((c :: cs).take pat.length) before ((c :: cs).drop pat.length) value
        ++ replaceScan pat value (pat.length - 1) (before ++ [c]) cs
    else c :: replaceScan pat value 0 (before ++ [c]) cs

/-- `subject.replace(pattern, value)` for a compiled global pattern. -/
def replaceAll (pat : List PatItem) (value subject : List Char) : List Char :=
  replaceScan pat value 0 [] subject

/-- A character outside the basic plane: two UTF-16 code units, which a wild
card does not match as one. -/
def isAstral (c : Char) : Bool := 65536 ≤ c.toNat

/-- The replace of the substitution step,
`url.replace(new RegExp("{{" + key + "}}", 'g'), value)`, on the embedded
fragment: `none` when the key is outside it, or when a wild card meets a text
with a character outside the basic plane. -/
def regexReplace (key value url : String) : Option String :=
  match compilePattern key with
  | none => none
  | some pat =>
    if pat.contains PatItem.any && url.data.any isAstral then none
    else some (String.mk (replaceAll pat value.data url.data))

/-- The loop `env.variables.forEach(v => { if (v.enabled) url = url.replace(...) })`
over a replace operation that may fail. -/
def applyVariables {m : Type → Type} [Monad m] (replace : String → String → String → m String) :
    String → List Variable → m String
  | url, [] => pure url
  | url, v :: vs =>
    if v.enabled then replace v.key v.value url >>= fun next => applyVariables replace next vs
    else applyVariables replace url vs

/-- The resolver: the variables of an environment applied to a template, in
list order, on the embedded fragment of patterns. -/
def resolve (template : String) (vars : List Variable) : Option String :=
  applyVariables regexReplace template vars

/-! ## Request executor: `executeRequest` of the store -/

/-- A request of a collection, as the server stores it (`body` is a string,
`''` when absent). -/
structure Request where
  id : String
  collection_id : String
  name : String
  method : String
  url : String
  headers : List Variable
  params : List Variable
  body : String
  body_type : String
  tests : List Test
  deriving DecidableEq

/-- The assignment `headers[key] = value` on an object kept as the list of its
own properties: a present key gets the new value, a new key is added at the
end, and the key `__proto__` creates no property. -/
def setHeader (hs : List (String × String)) (key value : String) : List (String × String) :=
  if key = "__proto__" then hs
  else if hs.any (fun p => p.1 = key) then hs.map (fun p => if p.1 = key then (key, value) else p)
  else hs ++ [(key, value)]

/-- The header object of the call:
`headers.forEach(h => { if (h.enabled) headers[h.key] = h.value })`. -/
def buildHeaders (headers : List Variable) : List (String × String) :=
  headers.foldl (fun hs h => if h.enabled then setHeader hs h.key h.value else hs) []

/-- The pairs appended to `URLSearchParams`:
`params.forEach(p => { if (p.enabled) params.append(p.key, p.value) })`. -/
def buildParams (params : List Variable) : List (String × String) :=
  (params.filter (fun p => p.enabled)).map (fun p => (p.key, p.value))

/-- Upper-case hexadecimal digit of a number below sixteen. -/
def upperHexDigit (n : Nat) : Char :=
  if n < 10 then Char.ofNat (48 + n) else Char.ofNat (55 + n)

/-- One byte of the `application/x-www-form-urlencoded` serialiser: letters,
digits and `* - . _` are kept, a space is a plus sign, any other byte is
percent-encoded. -/
def urlencodedByte (b : Nat) : List Char :=
  if b = 32 then ['+']
  else if b = 42 || b = 45 || b = 46 || b = 95 || (48 ≤ b && b ≤ 57) || (65 ≤ b && b ≤ 90)
      || (97 ≤ b && b ≤ 122) then [Char.ofNat b]
  else ['%', upperHexDigit (b / 16), upperHexDigit (b % 16)]

/-- The serialiser applied to the UTF-8 bytes of a string. -/
def urlencode (s : String) : String :=
  String.mk ((s.data.flatMap String.utf8EncodeChar).flatMap (fun b => urlencodedByte b.toNat))

/-- `URLSearchParams.prototype.toString`: `name=value` pairs joined by `&`. -/
def searchParamsToString (ps : List (String × String)) : String :=
  "&".intercalate (ps.map (fun p => urlencode p.1 ++ "=" ++ urlencode p.2))

/-- The URL of the call: the query string, when it is not empty, is appended
after `?`, or after `&` when the URL has a `?` already. -/
def appendQuery (url : String) (params : List (String × String)) : String :=
  let query := searchParamsToString params
  if query = "" then url
  else url ++ (if includes url "?" then "&" else "?") ++ query

/-- The operations of the language the executor calls and the embedding keeps
abstract: the replace of the substitution step (an exception is the message
of the SyntaxError of `new RegExp`), and `JSON.parse` (`none` is its
SyntaxError). -/
structure Platform where
  replace : String → String → String → Except String String
  jsonParse : String → Option JsVal

/-- The configuration object handed to `axios`; `data` is `none` when the
member is not set.  `validateStatus: () => true` is the rule that a reply with
any status resolves the call. -/
structure AxiosConfig where
  method : String
  url : String
  headers : List (String × String)
  data : Option JsVal

/-- What a resolved call gives back. -/
structure AxiosReply where
  status : Int
  statusText : String
  headers : List (String × String)
  data : JsVal

/-- The summary posted to the history endpoint. -/
structure HistoryEntry where
  request_id : String
  method : String
  url : String
  status : Int
  response_time : Int
  response_body : Option String
  response_headers : List (String × String)

/-- The world outside the store during one execution: the two readings of the
clock, the outcome of the outbound call and of the history post (an exception
is the message of the rejection). -/
structure World where
  startTime : Int
  endTime : Int
  outbound : AxiosConfig → Except String AxiosReply
  history : HistoryEntry → Except String Unit

/-- The members of the store `executeRequest` reads and sets. -/
structure Store where
  selectedRequest : Option Request
  selectedEnvironment : Option String
  environments : List Environment
  response : Option Response
  loading : Bool

/-- The URL after the environment step: the variables of the selected
environment, when there is one and it is found, are applied to the URL. -/
def resolveUrl (P : Platform) (s : Store) (url : String) : Except String String :=
  match s.selectedEnvironment with
  | none => .ok url
  | some envId =>
    match s.environments.find? (fun e => e.id = envId) with
    | none => .ok url
    | some env => applyVariables P.replace url env.vars

/-- The `data` member of the configuration: set for `post`, `put` and `patch`;
a `json` body is parsed (`body || '{}'`), and sent as the raw string when the
parse fails; a body of another type is sent as it is. -/
def requestData (P : Platform) (req : Request) : Option JsVal :=
  if ["post", "put", "patch"].contains (toLowerCase req.method) then
    if req.body_type = "json" then
      match P.jsonParse (if req.body = "" then "\x7b\x7d" else req.body) with
      | some v => some v
      | none => some (.str req.body)
    else some (.str req.body)
  else none

/-- The configuration `executeRequest` builds, or the exception of the
substitution step. -/
def buildConfig (P : Platform) (s : Store) (req : Request) : Except String AxiosConfig :=
  match resolveUrl P s req.url with
  | .error msg => .error msg
  | .ok url =>
    .ok { method := toLowerCase req.method
          url := appendQuery url (buildParams req.params)
          headers := buildHeaders req.headers
          data := requestData P req }

/-- The object `responseData`; reading `length` of the serialised body raises
when the body serialises to `undefined`. -/
def responseData (W : World) (reply : AxiosReply) : Except String Response :=
  match jsonStringify reply.data with
  | none => .error (undefinedReadMessage "length")
  | some text =>
    .ok { status := reply.status
          statusText := reply.statusText
          headers := some reply.headers
          data := reply.data
          time := W.endTime - W.startTime
          size := utf16Length text }

/-- The summary of a completed call. -/
def historyEntry (W : World) (req : Request) (config : AxiosConfig) (reply : AxiosReply) :
    HistoryEntry :=
  { request_id := req.id
    method := req.method
    url := config.url
    status := reply.status
    response_time := W.endTime - W.startTime
    response_body := jsonStringify reply.data
    response_headers := reply.headers }

/-- The response the `catch` block builds from the message of the exception. -/
def errorResponse (msg : String) : Response :=
  { status := 0
    statusText := "Error"
    headers := none
    data := .obj [("error", .str msg)]
    time := 0
    size := 0 }

/-- The `catch` block: `set({ response: {...}, loading: false })`. -/
def catchError (s : Store) (msg : String) : Store :=
  { s with response := some (errorResponse msg), loading := false }

/-- What one call of `executeRequest` leaves behind: the store, the response
set at the end of the `try` block before the history post (when that line is
reached), the outbound call issued and the summary posted to the history
endpoint (when they are). -/
structure Run where
  store : Store
  shown : Option Response
  sent : Option AxiosConfig
  recorded : Option HistoryEntry

/-- `executeRequest`: nothing happens without a selected request; otherwise
`loading` is set, and the `try` block builds the configuration from the
members read at the start, awaits the outbound call, sets the response and
awaits the history post; an exception raised anywhere in the block is handled
by `catchError`. -/
def executeRequest (P : Platform) (W : World) (s : Store) : Run :=
  match s.selectedRequest with
  | none => { store := s, shown := none, sent := none, recorded := none }
  | some req =>
    let s1 : Store := { s with loading := true }
    match buildConfig P s req with
    | .error msg => { store := catchError s1 msg, shown := none, sent := none, recorded := none }
    | .ok config =>
      match W.outbound config with
      | .error msg =>
        { store := catchError s1 msg, shown := none, sent := some config, recorded := none }
      | .ok reply =>
        match responseData W reply with
        | .error msg =>
          { store := catchError s1 msg, shown := none, sent := some config, recorded := none }
        | .ok response =>
          let s2 : Store := { s1 with response := some response, loading := false }
          let entry := historyEntry W req config reply
          match W.history entry with
          | .error msg =>
            { store := catchError s2 msg, shown := some response, sent := some config,
              recorded := some entry }
          | .ok _ =>
            { store := s2, shown := some response, sent := some config, recorded := some entry }

/-! ## The `execute_request` tool of the MCP server -/

/-- The configuration the tool builds from a stored request: the enabled
headers, and for `post`, `put` and `patch` with a non-empty body the parsed
body, or the raw string when the parse fails. -/
def mcpConfig (P : Platform) (request : Request) : AxiosConfig :=
  let method := toLowerCase request.method
  { method := method
    url := request.url
    headers := buildHeaders request.headers
    data :=
      if ["post", "put", "patch"].contains method && request.body ≠ "" then
        match P.jsonParse request.body with
        | some v => some v
        | none => some (.str request.body)
      else none }

/-! ## Collaboration relay: the socket handlers of the server -/

/-- An entry of a session's set: `{ id: socket.id, username }`. -/
structure User where
  id : String
  username : String
  deriving DecidableEq

/-- The state of the relay: `joined` is the room membership socket.io keeps,
as pairs of a room and a connection in joining order; `sessions` is the map
`collaborationSessions`, each set in insertion order (its entries are objects,
so two entries may have the same members). -/
structure Server where
  joined : List (String × String)
  sessions : List (String × List User)
  deriving DecidableEq

/-- A message emitted by a handler. -/
inductive Message where
  | userJoined (userId username : String) (users : List User)
  | userLeft (userId : String) (users : List User)
  | requestUpdated (userId : String) (data : JsVal)
  | cursorMoved (userId : String) (field position : JsVal)

/-- A message on its way to one connection. -/
structure Delivery where
  recipient : String
  message : Message

/-- The connections in a room. -/
def members (joined : List (String × String)) (room : String) : List String :=
  (joined.filter (fun p => p.1 = room)).map (fun p => p.2)

/-- `socket.join(room)`. -/
def socketJoin (joined : List (String × String)) (conn room : String) : List (String × String) :=
  if joined.contains (room, conn) then joined else joined ++ [(room, conn)]

/-- `socket.leave(room)`. -/
def socketLeave (joined : List (String × String)) (conn room : String) : List (String × String) :=
  joined.filter (fun p => !(p.1 = room && p.2 = conn))

/-- A closing connection leaves every room. -/
def socketLeaveAll (joined : List (String × String)) (conn : String) : List (String × String) :=
  joined.filter (fun p => p.2 ≠ conn)

/-- `io.to(room).emit(...)`: one delivery to each connection in the room. -/
def ioTo (joined : List (String × String)) (room : String) (msg : Message) : List Delivery :=
  (members joined room).map (fun c => { recipient := c, message := msg })

/-- `socket.to(room).emit(...)`: one delivery to each connection in the room
other than the socket itself. -/
def socketTo (joined : List (String × String)) (conn room : String) (msg : Message) :
    List Delivery :=
  ((members joined room).filter (fun c => c ≠ conn)).map
    (fun c => { recipient := c, message := msg })

/-- `collaborationSessions.get(requestId)`. -/
def sessionsGet (sessions : List (String × List User)) (requestId : String) : Option (List User) :=
  (sessions.find? (fun p => p.1 = requestId)).map (fun p => p.2)

/-- `collaborationSessions.has(requestId)`. -/
def sessionsHas (sessions : List (String × List User)) (requestId : String) : Bool :=
  sessions.any (fun p => p.1 = requestId)

/-- `collaborationSessions.set(requestId, users)`, also the effect of changing
the set held under `requestId` in place. -/
def sessionsSet (sessions : List (String × List User)) (requestId : String) (users : List User) :
    List (String × List User) :=
  if sessionsHas sessions requestId then
    sessions.map (fun p => if p.1 = requestId then (requestId, users) else p)
  else sessions ++ [(requestId, users)]

/-- `collaborationSessions.delete(requestId)`. -/
def sessionsDelete (sessions : List (String × List User)) (requestId : String) :
    List (String × List User) :=
  sessions.filter (fun p => p.1 ≠ requestId)

/-- A new connection: socket.io puts the socket in the room named by its id. -/
def connect (s : Server) (conn : String) : Server × List Delivery :=
  ({ s with joined := socketJoin s.joined conn conn }, [])

/-- The `join-session` handler. -/
def joinSession (s : Server) (conn requestId username : String) : Server × List Delivery :=
  let joined := socketJoin s.joined conn requestId
  let sessions0 :=
    if sessionsHas s.sessions requestId then s.sessions else sessionsSet s.sessions requestId []
  let users := (sessionsGet sessions0 requestId).getD [] ++ [{ id := conn, username := username }]
  ({ joined := joined, sessions := sessionsSet sessions0 requestId users },
    ioTo joined requestId (.userJoined conn username users))

/-- The `leave-session` handler. -/
def leaveSession (s : Server) (conn requestId : String) : Server × List Delivery :=
  let joined := socketLeave s.joined conn requestId
  let sessions :=
    match sessionsGet s.sessions requestId with
    | none => s.sessions
    | some users =>
      let remaining := users.filter (fun u => u.id ≠ conn)
      if remaining.length = 0 then sessionsDelete s.sessions requestId
      else sessionsSet s.sessions requestId remaining
  ({ joined := joined, sessions := sessions },
    ioTo joined requestId (.userLeft conn ((sessionsGet sessions requestId).getD [])))

/-- The `request-update` handler. -/
def requestUpdate (s : Server) (conn requestId : String) (data : JsVal) : Server × List Delivery :=
  (s, socketTo s.joined conn requestId (.requestUpdated conn data))

/-- The `cursor-position` handler. -/
def cursorPosition (s : Server) (conn requestId : String) (field position : JsVal) :
    Server × List Delivery :=
  (s, socketTo s.joined conn requestId (.cursorMoved conn field position))

/-- The inner loop of the `disconnect` handler over one set: each entry of the
connection is deleted in turn, and the set as it is right after each deletion
is what the message emitted then carries. -/
def disconnectRosters (conn : String) : List User → List User → List (List User)
  | _, [] => []
  | kept, u :: rest =>
    if u.id = conn then (kept ++ rest) :: disconnectRosters conn kept rest
    else disconnectRosters conn (kept ++ [u]) rest

/-- The `disconnect` handler; the socket has left its rooms when it runs. -/
def disconnect (s : Server) (conn : String) : Server × List Delivery :=
  let joined := socketLeaveAll s.joined conn
  let deliveries := s.sessions.flatMap (fun p =>
    (disconnectRosters conn [] p.2).flatMap (fun users => ioTo joined p.1 (.userLeft conn users)))
  let sessions := (s.sessions.map (fun p => (p.1, p.2.filter (fun u => u.id ≠ conn)))).filter
    (fun p => p.2.length ≠ 0)
  ({ joined := joined, sessions := sessions }, deliveries)

/-- What a connection can do. -/
inductive Event where
  | connect (conn : String)
  | join (conn requestId username : String)
  | leave (conn requestId : String)
  | update (conn requestId : String) (data : JsVal)
  | cursor (conn requestId : String) (field position : JsVal)
  | disconnect (conn : String)

/-- The handler of an event. -/
def step (s : Server) : Event → Server × List Delivery
  | .connect conn => connect s conn
  | .join conn requestId username => joinSession s conn requestId username
  | .leave conn requestId => leaveSession s conn requestId
  | .update conn requestId data => requestUpdate s conn requestId data
  | .cursor conn requestId field position => cursorPosition s conn requestId field position
  | .disconnect conn => disconnect s conn

/-- The relay before any connection. -/
def Server.empty : Server := { joined := [], sessions := [] }

/-- The state after a sequence of events. -/
def runEvents (s : Server) (events : List Event) : Server :=
  events.foldl (fun st e => (step st e).1) s

/-! ## Templates as pieces: the terms the resolver's contract is stated in -/

/-- A piece of a template: a run of text, or a placeholder with its name. -/
inductive Seg where
  | text (t : List Char)
  | hole (name : List Char)
  deriving DecidableEq

/-- The characters of the placeholder of a name: two opening braces, the name,
two closing braces. -/
def placeholder (name : List Char) : List Char :=
  lbrace :: lbrace :: (name ++ [rbrace, rbrace])

/-- The characters of a template given by its pieces. -/
def render : List Seg → List Char
  | [] => []
  | .text t :: segs => t ++ render segs
  | .hole name :: segs => placeholder name ++ render segs

/-- A well-formed piece: a text has no opening brace, a placeholder name has no
brace at all, so that the placeholders of a rendered template are exactly its
`hole` pieces. -/
def Seg.wellFormed : Seg → Bool
  | .text t => t.all (fun c => c ≠ lbrace)
  | .hole name => name.all (fun c => c ≠ lbrace && c ≠ rbrace)

/-- A key whose pattern is the literal placeholder: no syntax character of
regular expressions in it, and not the body of a braced quantifier. -/
def plainKey (key : List Char) : Bool :=
  key.all (fun c => !isSyntaxChar c) && !isQuantifierBody key

/-- A variable whose value is given by its pieces. -/
structure SegVariable where
  key : List Char
  value : List Seg
  enabled : Bool
  deriving DecidableEq

/-- The variable of the store a `SegVariable` stands for. -/
def SegVariable.toVariable (v : SegVariable) : Variable :=
  { key := String.mk v.key, value := String.mk (render v.value), enabled := v.enabled }

/-- A well-formed variable: a plain key, a value of well-formed pieces, and no
dollar sign in the value. -/
def SegVariable.wellFormed (v : SegVariable) : Bool :=
  plainKey v.key && v.value.all Seg.wellFormed && (render v.value).all (fun c => c ≠ dollar)

/-- The pieces after one variable is applied: each placeholder of the key
becomes the pieces of the value. -/
def substSeg (key : List Char) (value : List Seg) (segs : List Seg) : List Seg :=
  segs.flatMap (fun seg => if seg = Seg.hole key then value else [seg])

/-- The pieces after the enabled variables are applied one after the other,
in list order, each to the pieces the ones before it have left. -/
def substituteAll (vars : List SegVariable) (segs : List Seg) : List Seg :=
  vars.foldl (fun acc v => if v.enabled then substSeg v.key v.value acc else acc) segs

/-- The first enabled variable with a key. -/
def firstEnabled (vars : List SegVariable) (key : List Char) : Option SegVariable :=
  vars.find? (fun v => v.enabled && v.key = key)

/-- The pieces a piece stands for when every placeholder takes the value of
the first enabled variable with its name, and stays when there is none. -/
def substFirst (vars : List SegVariable) : Seg → List Seg
  | .text t => [.text t]
  | .hole name =>
    match firstEnabled vars name with
    | some v => v.value
    | none => [.hole name]

/-- The compiled pattern of a plain key: the characters of its placeholder. -/
def litPattern (key : List Char) : List PatItem := (placeholder key).map PatItem.lit

/-- The values are final: no enabled variable has, in its value, a placeholder
whose name is the key of an enabled variable later in the list. -/
def valuesFinal : List SegVariable → Bool
  | [] => true
  | v :: post =>
    (!v.enabled || post.all (fun w => !w.enabled || !v.value.contains (Seg.hole w.key)))
      && valuesFinal post

/-- The characters a piece stands for when every placeholder takes the value
of the first enabled variable with its name, and stays when there is none. -/
def fillPiece (vars : List SegVariable) : Seg → List Char
  | .text t => t
  | .hole name =>
    match firstEnabled vars name with
    | some v => render v.value
    | none => placeholder name

/-! ## Concrete platforms and worlds for the worked examples -/

/-- A stand-in for `JSON.parse` in the worked examples: it agrees with
`JSON.parse` on the text of the empty object and on every text that is not
JSON, the only texts it is applied to. -/
def parseEmptyObject (text : String) : Option JsVal :=
  if text = "\x7b\x7d" then some (.obj []) else none

/-- The platform of the worked examples: the replace of the embedded fragment
(the examples use no key outside it) and `parseEmptyObject`. -/
def examplePlatform : Platform :=
  { replace := fun key value url =>
      match regexReplace key value url with
      | some next => .ok next
      | none => .error "Invalid regular expression"
    jsonParse := parseEmptyObject }

/-- A store with one selected request and no selected environment. -/
def exampleStore (req : Request) : Store :=
  { selectedRequest := some req, selectedEnvironment := none, environments := [],
    response := none, loading := false }

/-- A `json` request of the worked examples, without headers and parameters. -/
def exampleRequest (method url body : String) : Request :=
  { id := "r1", collection_id := "c1", name := "example", method := method, url := url,
    headers := [], params := [], body := body, body_type := "json", tests := [] }

/-- A world whose outbound call is rejected: the host does not resolve. -/
def unreachableWorld : World :=
  { startTime := 1000, endTime := 1042,
    outbound := fun _ => .error "getaddrinfo ENOTFOUND nowhere.invalid",
    history := fun _ => .ok () }

/-- A world whose outbound call is answered with status 404 and whose history
post is rejected. -/
def historyDownWorld : World :=
  { startTime := 1000, endTime := 1042,
    outbound := fun _ =>
      .ok { status := 404, statusText := "Not Found", headers := [],
            data := .obj [("message", .str "no such user")] },
    history := fun _ => .error "Network Error" }

/-! ## An invariant of the relay -/

/-- Every entry of every session names a connection that is in the session's
room. -/
def rosterInRoom (s : Server) : Prop :=
  ∀ p ∈ s.sessions, ∀ u ∈ p.2, (p.1, u.id) ∈ s.joined

/-- Every session of the map has at least one entry. -/
def roomsActive (s : Server) : Prop :=
  ∀ p ∈ s.sessions, p.2 ≠ []

/-! ## Paths of a `json` test: the terms its contract is stated in -/

/-- The value a list of keys leads to when every step is the read of a present
key of an object: the path resolves key by key through nested objects. -/
def walkObjects : JsVal → List String → Option JsVal
  | v, [] => some v
  | .obj ps, key :: keys =>
    match ps.find? (fun p => p.1 = key) with
    | some p => walkObjects p.2 keys
    | none => none
  | _, _ :: _ => none

/-- The path runs into nothing: a step asks an object for a key it neither has
nor inherits, or is taken from `undefined` or `null`, or from a boolean or a
number with a key they do not inherit.  A step from an array or a string is
not of this kind (it is read as an index, as `length` or as a method), nor is
the read of an inherited member such as `constructor`. -/
def hitsNothing : JsVal → List String → Bool
  | _, [] => false
  | .obj ps, key :: keys =>
    match ps.find? (fun p => p.1 = key) with
    | some p => hitsNothing p.2 keys
    | none => !objectPrototypeMembers.contains key
  | .bool _, key :: _ => !objectPrototypeMembers.contains key
  | .num _, key :: _ => !numberPrototypeMembers.contains key
  | .undefined, _ :: _ => true
  | .null, _ :: _ => true
  | .arr _, _ :: _ => false
  | .str _, _ :: _ => false

/-! ## Sizes, the Send button and one more world -/

/-- Length of a string in bytes of its UTF-8 encoding. -/
def byteLength (s : String) : Nat := s.utf8ByteSize

/-- The Send button of the request panel, `onClick={executeRequest}
disabled={loading}`: a click while `loading` is set starts nothing (`none`). -/
def sendButton (P : Platform) (W : World) (s : Store) : Option Run :=
  if s.loading then none else some (executeRequest P W s)

/-- The store while the history post of an execution is awaited: the `set`
before the post has put the response in the store and cleared `loading`;
`none` when the execution posts nothing. -/
def storeDuringHistoryPost (P : Platform) (W : World) (s : Store) : Option Store :=
  match (executeRequest P W s).recorded, (executeRequest P W s).shown with
  | some _, some response => some { s with response := some response, loading := false }
  | _, _ => none

/-- A world whose outbound call is answered with status 200 and a body, and
whose history post succeeds. -/
def answeringWorld (data : JsVal) : World :=
  { startTime := 1000, endTime := 1042,
    outbound := fun _ => .ok { status := 200, statusText := "OK", headers := [], data := data },
    history := fun _ => .ok () }

/-! ## The request panel: rows of parameters and headers -/

/-- The member of a row an edit writes, with the new content: the pair
`(field, value)` passed to `updateParam` and `updateHeader`. -/
inductive RowEdit where
  | key (text : String)
  | value (text : String)
  | enabled (checked : Bool)
  deriving DecidableEq

/-- The assignment `row[field] = value`. -/
def setRowField (row : Variable) : RowEdit → Variable
  | .key text => { row with key := text }
  | .value text => { row with value := text }
  | .enabled checked => { row with enabled := checked }

/-- The rows after `rows[index][field] = value`; the index is one of the rows
rendered, a list without that index is left as it is. -/
def updateRow : List Variable → Nat → RowEdit → List Variable
  | [], _, _ => []
  | row :: rows, 0, edit => setRowField row edit :: rows
  | row :: rows, index + 1, edit => row :: updateRow rows index edit

/-- `updateParam(index, field, value)`: the parameters handed to `handleUpdate`. -/
def updateParam (params : List Variable) (index : Nat) (edit : RowEdit) : List Variable :=
  updateRow params index edit

/-- `updateHeader(index, field, value)`: the headers handed to `handleUpdate`. -/
def updateHeader (headers : List Variable) (index : Nat) (edit : RowEdit) : List Variable :=
  updateRow headers index edit

/-- The `onChange` of the Value input of the parameter at `index`:
`updateParam(index, 'key', e.target.value)`. -/
def paramValueInput (params : List Variable) (index : Nat) (typed : String) : List Variable :=
  updateParam params index (.key typed)

/-- The `onChange` of the Value input of the header at `index`:
`updateHeader(index, 'value', e.target.value)`. -/
def headerValueInput (headers : List Variable) (index : Nat) (typed : String) : List Variable :=
  updateHeader headers index (.value typed)

/-! ## The document store of the server: the `PUT` routes -/

/-- A stored collection. -/
structure Collection where
  id : String
  name : String
  created_at : String
  updated_at : String
  deriving DecidableEq

/-- A stored request: the members `executeRequest` reads, and the time stamps
(the member `auth` is not part of the embedding). -/
structure StoredRequest where
  request : Request
  created_at : String
  updated_at : String
  deriving DecidableEq

/-- A stored environment. -/
structure StoredEnvironment where
  environment : Environment
  created_at : String
  updated_at : String
  deriving DecidableEq

/-- The file of the server, without the history. -/
structure Database where
  collections : List Collection
  requests : List StoredRequest
  environments : List StoredEnvironment
  deriving DecidableEq

/-- The body of `PUT /api/requests/:id`; `none` is an absent member. -/
structure RequestUpdate where
  name : String
  method : String
  url : String
  headers : Option (List Variable)
  body : Option String
  body_type : Option String
  params : Option (List Variable)
  tests : Option (List Test)

/-- What `res.json(value)` sends: the status, which no route changes from 200,
and the value; `none` is `res.json(undefined)`, a reply without a body. -/
structure Reply (α : Type) where
  status : Nat
  body : Option α

/-- The list with its first element that satisfies `p` replaced: the effect of
changing the object `find` returns. -/
def updateFirst {α : Type} (p : α → Bool) (f : α → α) : List α → List α
  | [] => []
  | x :: xs => if p x then f x :: xs else x :: updateFirst p f xs

/-- `text || fallback` for a member that may be absent. -/
def orDefault (text : Option String) (fallback : String) : String :=
  match text with
  | none => fallback
  | some t => if t = "" then fallback else t

/-- `PUT /api/collections/:id`; `now` is `new Date().toISOString()`. -/
def putCollection (db : Database) (id name now : String) : Database × Reply Collection :=
  match db.collections.find? (fun c => c.id = id) with
  | some collection =>
    let updated : Collection := { collection with name := name, updated_at := now }
    ({ db with collections := updateFirst (fun c => c.id = id) (fun _ => updated) db.collections },
      { status := 200, body := some updated })
  | none => (db, { status := 200, body := none })

/-- `PUT /api/requests/:id`. -/
def putRequest (db : Database) (id : String) (u : RequestUpdate) (now : String) :
    Database × Reply StoredRequest :=
  match db.requests.find? (fun r => r.request.id = id) with
  | some stored =>
    let updated : StoredRequest :=
      { stored with
        request :=
          { stored.request with
            name := u.name, method := u.method, url := u.url
            headers := u.headers.getD []
            body := orDefault u.body ""
            body_type := orDefault u.body_type "json"
            params := u.params.getD []
            tests := u.tests.getD [] }
        updated_at := now }
    ({ db with requests := updateFirst (fun r => r.request.id = id) (fun _ => updated) db.requests },
      { status := 200, body := some updated })
  | none => (db, { status := 200, body := none })

/-- `PUT /api/environments/:id`. -/
def putEnvironment (db : Database) (id name : String) (vars : Option (List Variable))
    (now : String) : Database × Reply StoredEnvironment :=
  match db.environments.find? (fun e => e.environment.id = id) with
  | some stored =>
    let updated : StoredEnvironment :=
      { stored with
        environment := { stored.environment with name := name, vars := vars.getD [] }
        updated_at := now }
    ({ db with
       environments :=
         updateFirst (fun e => e.environment.id = id) (fun _ => updated) db.environments },
      { status := 200, body := some updated })
  | none => (db, { status := 200, body := none })

/-- A store with one collection of each kind of record, for the worked examples. -/
def exampleDatabase : Database :=
  { collections := [{ id := "c1", name := "Users", created_at := "t0", updated_at := "t0" }]
    requests := []
    environments := [] }

/-! # Theorems -/

/-! ## Assertion engine -/

theorem evaluate_cons (t : Test) (ts : List Test) (r : Response) :
    evaluate (t :: ts) r = (if t.enabled then [runTest r t] else []) ++ evaluate ts r := by
  cases h : t.enabled <;> simp [evaluate, List.filter_cons, h]

theorem evaluate_append (xs ys : List Test) (r : Response) :
    evaluate (xs ++ ys) r = evaluate xs r ++ evaluate ys r := by
  simp [evaluate, List.filter_append, List.map_append]

theorem runTest_test (r : Response) (t : Test) : (runTest r t).test = t := by
  unfold runTest
  cases evalCheck t r with
  | error msg => rfl
  | ok pm => rfl

theorem runTest_error (r : Response) (t : Test) (msg : String) (h : evalCheck t r = .error msg) :
    runTest r t = { test := t, passed := false, message := "Error: " ++ msg } := by
  simp [runTest, h]

/-- C1: `runTests` returns exactly one result for each enabled test, in the
order of the tests and carrying the test it belongs to (its id included), and
the result of a test does not depend on the other tests of the batch: the
results of `xs ++ ys` are the results of `xs` followed by those of `ys`.  A
test whose check raises gives `passed = false` with the error text, and the
tests after it are evaluated all the same; a `body` test on a response whose
data is `undefined` is such a test. -/
theorem evaluate_independent (xs ys : List Test) (r : Response) :
    evaluate (xs ++ ys) r = evaluate xs r ++ evaluate ys r
    ∧ (evaluate xs r).map (fun res => res.test) = xs.filter (fun t => t.enabled)
    ∧ (∀ t : Test, t.enabled = true →
        evaluate (xs ++ t :: ys) r = evaluate xs r ++ runTest r t :: evaluate ys r)
    ∧ (∀ (t : Test) (msg : String), evalCheck t r = .error msg →
        runTest r t = { test := t, passed := false, message := "Error: " ++ msg })
    ∧ (∀ id field operator value : String,
        evaluate (xs ++ { id := id, type := "body", field := field, operator := operator,
                          value := value, enabled := true } :: ys) { r with data := .undefined }
          = evaluate xs { r with data := .undefined }
            ++ { test := { id := id, type := "body", field := field, operator := operator,
                           value := value, enabled := true },
                 passed := false,
                 message := "Error: Cannot read properties of undefined (reading 'includes')" }
              :: evaluate ys { r with data := .undefined }) := by
  refine ⟨evaluate_append xs ys r, ?_, ?_, ?_, ?_⟩
  · simp only [evaluate, List.map_map]
    have : ((fun res : TestResult => res.test) ∘ runTest r) = id := by
      funext t; exact runTest_test r t
    rw [this, List.map_id]
  · intro t ht
    rw [evaluate_append, evaluate_cons, ht]; rfl
  · intro t msg h
    exact runTest_error r t msg h
  · intro id field operator value
    rw [evaluate_append, evaluate_cons]
    rfl

/-- The `passed` member of the result of a `status` test. -/
theorem runTest_status_passed (r : Response) (id field operator value : String) (enabled : Bool) :
    (runTest r { id := id, type := "status", field := field, operator := operator,
                 value := value, enabled := enabled }).passed
      = decide (some r.status = parseInt value) := by
  simp [runTest, evalCheck]

/-- C2: an enabled `status` test passes exactly when `parseInt` of its expected
value is the status of the response, and its result stands in the batch
between the results of the tests before it and after it, whatever they are.
A test expecting `404` passes on status 404 and fails when the status is 200. -/
theorem status_test_passes_iff (r : Response) (id field operator value : String)
    (pre post : List Test) :
    ((runTest r { id := id, type := "status", field := field, operator := operator,
                  value := value, enabled := true }).passed = true
        ↔ parseInt value = some r.status)
    ∧ (evaluate (pre ++ { id := id, type := "status", field := field, operator := operator,
                          value := value, enabled := true } :: post) r
        = evaluate pre r
          ++ runTest r { id := id, type := "status", field := field, operator := operator,
                         value := value, enabled := true } :: evaluate post r)
    ∧ (runTest { r with status := 404 }
        { id := id, type := "status", field := field, operator := operator,
          value := "404", enabled := true }).passed = true
    ∧ (runTest { r with status := 200 }
        { id := id, type := "status", field := field, operator := operator,
          value := "404", enabled := true }).passed = false := by
  refine ⟨?_, ?_, ?_, ?_⟩
  · rw [runTest_status_passed]
    simp [eq_comm]
  · rw [evaluate_append, evaluate_cons]; rfl
  · rw [runTest_status_passed]
    have h : parseInt "404" = some 404 := by decide
    simp [h]
  · rw [runTest_status_passed]
    have h : parseInt "404" = some 404 := by decide
    simp [h]

/-! ## Request executor -/

/-- With a selected request, `executeRequest` always ends with `loading` false. -/
theorem executeRequest_clears_loading (P : Platform) (W : World) (s : Store) (req : Request)
    (hreq : s.selectedRequest = some req) :
    (executeRequest P W s).store.loading = false := by
  unfold executeRequest
  rw [hreq]
  simp only
  cases buildConfig P s req with
  | error msg => rfl
  | ok config =>
    simp only
    cases W.outbound config with
    | error msg => rfl
    | ok reply =>
      simp only
      cases responseData W reply with
      | error msg => rfl
      | ok response =>
        simp only
        cases W.history (historyEntry W req config reply) <;> rfl

/-- C3: when the outbound call is rejected (a transport failure with message
`msg`), `executeRequest` does not raise: it ends with the response
`{ status: 0, statusText: 'Error', data: { error: msg }, time: 0, size: 0 }`
in the store and `loading` false; no response was set before, and nothing is
posted to the history. -/
theorem executeRequest_transport_failure (P : Platform) (W : World) (s : Store) (req : Request)
    (config : AxiosConfig) (msg : String)
    (hreq : s.selectedRequest = some req)
    (hconfig : buildConfig P s req = .ok config)
    (hfail : W.outbound config = .error msg) :
    executeRequest P W s =
      { store :=
          { s with
            response := some { status := 0, statusText := "Error", headers := none,
                               data := .obj [("error", .str msg)], time := 0, size := 0 }
            loading := false }
        shown := none
        sent := some config
        recorded := none } := by
  unfold executeRequest
  rw [hreq]
  simp only [hconfig, hfail]
  rfl

/-- C3 at an unreachable host: the response has status 0 and the message of the
rejection, and `loading` is false. -/
theorem executeRequest_transport_failure_witness :
    (executeRequest examplePlatform unreachableWorld
        (exampleStore (exampleRequest "GET" "http://nowhere.invalid/users" ""))).store.response
      = some { status := 0, statusText := "Error", headers := none,
               data := .obj [("error", .str "getaddrinfo ENOTFOUND nowhere.invalid")],
               time := 0, size := 0 }
    ∧ (executeRequest examplePlatform unreachableWorld
        (exampleStore (exampleRequest "GET" "http://nowhere.invalid/users" ""))).store.loading
      = false := by
  have h := executeRequest_transport_failure examplePlatform unreachableWorld
    (exampleStore (exampleRequest "GET" "http://nowhere.invalid/users" ""))
    (exampleRequest "GET" "http://nowhere.invalid/users" "")
    { method := "get", url := "http://nowhere.invalid/users", headers := [], data := none }
    "getaddrinfo ENOTFOUND nowhere.invalid" rfl rfl rfl
  rw [h]
  exact ⟨rfl, rfl⟩

/-- C4, at the failing input: the outbound call is answered with status 404,
the response with status 404 is set, then the history post is rejected and
the `catch` block replaces the response by the one with status 0. -/
theorem executeRequest_history_failure_overwrites :
    (executeRequest examplePlatform historyDownWorld
        (exampleStore (exampleRequest "GET" "http://api.test/users/7" ""))).shown
      = some { status := 404, statusText := "Not Found", headers := some [],
               data := .obj [("message", .str "no such user")], time := 42, size := 26 }
    ∧ (executeRequest examplePlatform historyDownWorld
        (exampleStore (exampleRequest "GET" "http://api.test/users/7" ""))).store.response
      = some { status := 0, statusText := "Error", headers := none,
               data := .obj [("error", .str "Network Error")], time := 0, size := 0 } := by
  exact ⟨rfl, rfl⟩

/-- When the reply serialises and the history post succeeds, the response of
the store is the reply with the elapsed time and the size. -/
theorem executeRequest_completed (P : Platform) (W : World) (s : Store) (req : Request)
    (config : AxiosConfig) (reply : AxiosReply) (text : String)
    (hreq : s.selectedRequest = some req)
    (hconfig : buildConfig P s req = .ok config)
    (hreply : W.outbound config = .ok reply)
    (htext : jsonStringify reply.data = some text)
    (hhistory : W.history (historyEntry W req config reply) = .ok ()) :
    (executeRequest P W s).store.response
      = some { status := reply.status, statusText := reply.statusText,
               headers := some reply.headers, data := reply.data,
               time := W.endTime - W.startTime, size := utf16Length text } := by
  unfold executeRequest
  rw [hreq]
  simp only [hconfig, hreply, responseData, htext, hhistory]

/-- The data of the call `executeRequest` issues is `requestData`. -/
theorem executeRequest_sent_data (P : Platform) (W : World) (s : Store) (req : Request)
    (config : AxiosConfig) (hreq : s.selectedRequest = some req)
    (hsent : (executeRequest P W s).sent = some config) :
    config.data = requestData P req := by
  unfold executeRequest at hsent
  rw [hreq] at hsent
  simp only at hsent
  cases hb : buildConfig P s req with
  | error msg => rw [hb] at hsent; simp at hsent
  | ok built =>
    have hdata : built.data = requestData P req := by
      unfold buildConfig at hb
      cases hu : resolveUrl P s req.url with
      | error msg => rw [hu] at hb; simp at hb
      | ok url =>
        rw [hu] at hb
        simp only [Except.ok.injEq] at hb
        rw [← hb]
    rw [hb] at hsent
    simp only at hsent
    cases ho : W.outbound built with
    | error msg =>
      rw [ho] at hsent
      simp only [Option.some.injEq] at hsent
      rw [← hsent]; exact hdata
    | ok reply =>
      rw [ho] at hsent
      simp only at hsent
      cases hr : responseData W reply with
      | error msg =>
        rw [hr] at hsent
        simp only [Option.some.injEq] at hsent
        rw [← hsent]; exact hdata
      | ok response =>
        rw [hr] at hsent
        simp only at hsent
        cases hh : W.history (historyEntry W req built reply) with
        | error msg =>
          rw [hh] at hsent
          simp only [Option.some.injEq] at hsent
          rw [← hsent]; exact hdata
        | ok u =>
          rw [hh] at hsent
          simp only [Option.some.injEq] at hsent
          rw [← hsent]; exact hdata

/-- C5, amended: for a request whose method is `post`, `put` or `patch` in any
letter case and whose body type is `json`: a non-empty body that does not
parse is sent as the raw string, by `executeRequest` and by the MCP tool; a
non-empty body that parses is sent as the parsed value; for an empty body
`executeRequest` sends what `JSON.parse('{}')` gives and the MCP tool sends no
data.  The data of the call `executeRequest` issues is the one computed by
`requestData`. -/
theorem json_body_parsed_or_raw (P : Platform) (req : Request)
    (hmethod : ["post", "put", "patch"].contains (toLowerCase req.method) = true)
    (htype : req.body_type = "json") :
    (req.body ≠ "" → P.jsonParse req.body = none →
        requestData P req = some (.str req.body) ∧ (mcpConfig P req).data = some (.str req.body))
    ∧ (req.body ≠ "" → ∀ v, P.jsonParse req.body = some v →
        requestData P req = some v ∧ (mcpConfig P req).data = some v)
    ∧ (req.body = "" →
        requestData P req = some ((P.jsonParse "\x7b\x7d").getD (.str ""))
          ∧ (mcpConfig P req).data = none)
    ∧ (∀ (W : World) (s : Store) (config : AxiosConfig), s.selectedRequest = some req →
        (executeRequest P W s).sent = some config → config.data = requestData P req) := by
  refine ⟨?_, ?_, ?_, ?_⟩
  · intro hb hp
    have hb2 : decide (req.body ≠ "") = true := by simpa using hb
    constructor
    · simp only [requestData, hmethod, htype, hb, hp, if_true, if_false]
    · simp only [mcpConfig, hmethod, hb2, hp, Bool.and_self, if_true]
  · intro hb v hp
    have hb2 : decide (req.body ≠ "") = true := by simpa using hb
    constructor
    · simp only [requestData, hmethod, htype, hb, hp, if_true, if_false]
    · simp only [mcpConfig, hmethod, hb2, hp, Bool.and_self, if_true]
  · intro hb
    constructor
    · simp only [requestData, hmethod, htype, hb, if_true]
      cases P.jsonParse "\x7b\x7d" <;> rfl
    · simp [mcpConfig, hb]
  · intro W s config hreq hsent
    exact executeRequest_sent_data P W s req config hreq hsent

/-- C5 at two requests: a `POST` whose body does not parse, a `Patch` whose
body is the empty object. -/
theorem json_body_parsed_or_raw_witness :
    requestData examplePlatform (exampleRequest "POST" "http://api.test/users" "\x7bname: 1")
      = some (.str "\x7bname: 1")
    ∧ requestData examplePlatform (exampleRequest "Patch" "http://api.test/users" "\x7b\x7d")
      = some (.obj []) :=
  ⟨((json_body_parsed_or_raw examplePlatform
      (exampleRequest "POST" "http://api.test/users" "\x7bname: 1") (by decide) rfl).1
      (by decide) rfl).1,
   ((json_body_parsed_or_raw examplePlatform
      (exampleRequest "Patch" "http://api.test/users" "\x7b\x7d") (by decide) rfl).2.1
      (by decide) (.obj []) rfl).1⟩

/-- C5 as first stated fails at the empty body: it does not parse, and what
`executeRequest` sends is the empty object, not the raw string; the MCP tool
sends no data. -/
theorem empty_json_body_counterexample :
    examplePlatform.jsonParse (exampleRequest "POST" "http://api.test/users" "").body = none
    ∧ requestData examplePlatform (exampleRequest "POST" "http://api.test/users" "")
      = some (.obj [])
    ∧ requestData examplePlatform (exampleRequest "POST" "http://api.test/users" "")
      ≠ some (.str (exampleRequest "POST" "http://api.test/users" "").body)
    ∧ (mcpConfig examplePlatform (exampleRequest "POST" "http://api.test/users" "")).data = none := by
  refine ⟨rfl, rfl, ?_, rfl⟩
  intro h
  have h2 : requestData examplePlatform (exampleRequest "POST" "http://api.test/users" "")
      = some (.obj []) := rfl
  rw [h2] at h
  cases h

/-! ## Variable resolver -/

/-! ### The scan of a global replace -/

theorem replaceScan_skip (pat : List PatItem) (v : List Char) (xs : List Char) :
    ∀ (before ys : List Char),
      replaceScan pat v xs.length before (xs ++ ys) = replaceScan pat v 0 (before ++ xs) ys := by
  induction xs with
  | nil => intro before ys; simp
  | cons x xs ih =>
    intro before ys
    show replaceScan pat v (xs.length + 1) before (x :: (xs ++ ys)) = _
    rw [replaceScan, ih]
    simp

theorem matchPrefix_lit (l s : List Char) :
    matchPrefix (l.map PatItem.lit) s = l.isPrefixOf s := by
  induction l generalizing s with
  | nil => simp [matchPrefix]
  | cons a l ih =>
    cases s with
    | nil => simp [matchPrefix]
    | cons c cs =>
      by_cases h : a = c <;> simp [matchPrefix, matchItem, ih, List.isPrefixOf, h]

theorem replaceScan_text (pat : List PatItem) (v : List Char) (t : List Char)
    (ht : ∀ c ∈ t, c ≠ lbrace) :
    ∀ (before rest : List Char),
      replaceScan (PatItem.lit lbrace :: pat) v 0 before (t ++ rest)
        = t ++ replaceScan (PatItem.lit lbrace :: pat) v 0 (before ++ t) rest := by
  induction t with
  | nil => intro before rest; simp
  | cons c t ih =>
    intro before rest
    have hc : c ≠ lbrace := ht c (by simp)
    have hm : matchPrefix (PatItem.lit lbrace :: pat) (c :: (t ++ rest)) = false := by
      simp [matchPrefix, matchItem, Ne.symm hc]
    show replaceScan (PatItem.lit lbrace :: pat) v 0 before (c :: (t ++ rest)) = _
    rw [replaceScan, hm, ih (fun d hd => ht d (by simp [hd]))]
    simp

theorem getSubstitution_plain (m b a : List Char) :
    ∀ v : List Char, (∀ c ∈ v, c ≠ dollar) → getSubstitution m b a v = v
  | [], _ => by simp [getSubstitution]
  | [c], _ => by simp [getSubstitution]
  | c :: d :: rest, h => by
    have hc : c ≠ dollar := h c (by simp)
    have ih := getSubstitution_plain m b a (d :: rest) (fun x hx => h x (by simp [hx]))
    rw [getSubstitution]
    simp [hc, ih]

theorem rbrace_ne_lbrace : rbrace ≠ lbrace := by decide

theorem key_eq_of_isPrefixOf (k : List Char) (hk : ∀ c ∈ k, c ≠ rbrace) :
    ∀ (n rest : List Char), (∀ c ∈ n, c ≠ rbrace) →
      (k ++ [rbrace, rbrace]).isPrefixOf (n ++ [rbrace, rbrace] ++ rest) = true → k = n := by
  induction k with
  | nil =>
    intro n rest hn h
    cases n with
    | nil => rfl
    | cons b n =>
      have hb : b ≠ rbrace := hn b (by simp)
      simp [List.isPrefixOf, Ne.symm hb] at h
  | cons a k ih =>
    intro n rest hn h
    have ha : a ≠ rbrace := hk a (by simp)
    cases n with
    | nil => simp [List.isPrefixOf, ha] at h
    | cons b n =>
      simp only [List.cons_append, List.isPrefixOf, Bool.and_eq_true, beq_iff_eq] at h
      obtain ⟨hab, h⟩ := h
      have := ih (fun c hc => hk c (by simp [hc])) n rest (fun c hc => hn c (by simp [hc]))
        (by simpa using h)
      rw [hab, this]

theorem replaceScan_hole_ne (k n v : List Char) (hk : ∀ c ∈ k, c ≠ rbrace)
    (hn : ∀ c ∈ n, c ≠ lbrace ∧ c ≠ rbrace) (hne : n ≠ k) (before rest : List Char) :
    replaceScan (litPattern k) v 0 before (placeholder n ++ rest)
      = placeholder n ++ replaceScan (litPattern k) v 0 (before ++ placeholder n) rest := by
  have hm0 : matchPrefix (litPattern k) (lbrace :: lbrace :: (n ++ [rbrace, rbrace] ++ rest)) = false := by
    rw [litPattern, matchPrefix_lit]
    cases h : (placeholder k).isPrefixOf (lbrace :: lbrace :: (n ++ [rbrace, rbrace] ++ rest)) with
    | false => rfl
    | true =>
      exfalso
      simp only [placeholder, List.isPrefixOf, beq_self_eq_true, Bool.true_and] at h
      exact hne (key_eq_of_isPrefixOf k hk n rest (fun c hc => (hn c hc).2) h).symm
  have hm1 : matchPrefix (litPattern k) (lbrace :: (n ++ [rbrace, rbrace] ++ rest)) = false := by
    rw [litPattern, matchPrefix_lit]
    cases n with
    | nil => simp [placeholder, List.isPrefixOf, Ne.symm rbrace_ne_lbrace]
    | cons b n =>
      have hb : b ≠ lbrace := (hn b (by simp)).1
      simp [placeholder, List.isPrefixOf, Ne.symm hb]
  have ht : ∀ c ∈ n ++ [rbrace, rbrace], c ≠ lbrace := by
    intro c hc
    simp only [List.mem_append, List.mem_cons, List.mem_singleton, List.not_mem_nil, or_false] at hc
    rcases hc with hc | hc | hc
    · exact (hn c hc).1
    · rw [hc]; exact rbrace_ne_lbrace
    · rw [hc]; exact rbrace_ne_lbrace
  have hpat : litPattern k = PatItem.lit lbrace :: (lbrace :: (k ++ [rbrace, rbrace])).map PatItem.lit := rfl
  show replaceScan (litPattern k) v 0 before (lbrace :: lbrace :: (n ++ [rbrace, rbrace] ++ rest)) = _
  rw [replaceScan, hm0]
  simp only [Bool.false_eq_true, if_false]
  rw [replaceScan, hm1]
  simp only [Bool.false_eq_true, if_false]
  rw [hpat, List.append_assoc, replaceScan_text _ v (n ++ [rbrace, rbrace]) ht]
  simp [placeholder]

theorem replaceScan_hole_eq (k v : List Char) (before rest : List Char) :
    replaceScan (litPattern k) v 0 before (placeholder k ++ rest)
      = getSubstitution (placeholder k) before rest v
        ++ replaceScan (litPattern k) v 0 (before ++ placeholder k) rest := by
  have hm : matchPrefix (litPattern k) (lbrace :: (lbrace :: (k ++ [rbrace, rbrace]) ++ rest)) = true := by
    rw [litPattern, matchPrefix_lit, List.isPrefixOf_iff_prefix]
    exact ⟨rest, by simp [placeholder]⟩
  have hlen : (litPattern k).length = (placeholder k).length := by simp [litPattern]
  show replaceScan (litPattern k) v 0 before (lbrace :: (lbrace :: (k ++ [rbrace, rbrace]) ++ rest)) = _
  rw [replaceScan, hm]
  simp only [if_true]
  have htake : List.take (litPattern k).length (lbrace :: (lbrace :: (k ++ [rbrace, rbrace]) ++ rest))
      = placeholder k := by
    rw [hlen]
    show List.take (placeholder k).length (placeholder k ++ rest) = _
    simp
  have hdrop : List.drop (litPattern k).length (lbrace :: (lbrace :: (k ++ [rbrace, rbrace]) ++ rest))
      = rest := by
    rw [hlen]
    show List.drop (placeholder k).length (placeholder k ++ rest) = _
    simp
  have hskip : (litPattern k).length - 1 = (lbrace :: (k ++ [rbrace, rbrace])).length := by
    simp [litPattern, placeholder]
  rw [htake, hdrop, hskip, replaceScan_skip]
  simp [placeholder]

theorem render_append (xs ys : List Seg) : render (xs ++ ys) = render xs ++ render ys := by
  induction xs with
  | nil => rfl
  | cons s xs ih => cases s <;> simp [render, ih]

theorem substSeg_cons (k : List Char) (v : List Seg) (seg : Seg) (segs : List Seg) :
    substSeg k v (seg :: segs) = (if seg = Seg.hole k then v else [seg]) ++ substSeg k v segs := by
  simp [substSeg, List.flatMap_cons]

theorem plainKey_syntaxFree (k : List Char) (h : plainKey k = true) :
    ∀ c ∈ k, isSyntaxChar c = false := by
  intro c hc
  simp only [plainKey, Bool.and_eq_true, List.all_eq_true] at h
  simpa using h.1 c hc

theorem plainKey_braces (k : List Char) (h : plainKey k = true) :
    ∀ c ∈ k, c ≠ lbrace ∧ c ≠ rbrace := by
  intro c hc
  have hs := plainKey_syntaxFree k h c hc
  constructor
  · intro e; rw [e] at hs; exact absurd hs (by decide)
  · intro e; rw [e] at hs; exact absurd hs (by decide)

theorem keyItems_plain (k : List Char) (h : ∀ c ∈ k, isSyntaxChar c = false) :
    keyItems k = some (k.map PatItem.lit) := by
  induction k with
  | nil => rfl
  | cons c k ih =>
    have hc : isSyntaxChar c = false := h c (by simp)
    have hdot : c ≠ '.' := by
      intro e; rw [e] at hc; exact absurd hc (by decide)
    rw [keyItems]
    simp [hdot, hc, ih (fun d hd => h d (by simp [hd]))]

theorem compilePattern_plain (k : List Char) (h : plainKey k = true) :
    compilePattern (String.mk k) = some (litPattern k) := by
  have hq : isQuantifierBody k = false := by
    simp only [plainKey, Bool.and_eq_true] at h
    simpa using h.2
  simp [compilePattern, hq, keyItems_plain k (plainKey_syntaxFree k h), litPattern, placeholder]

theorem litPattern_no_any (k : List Char) : PatItem.any ∉ litPattern k := by
  simp [litPattern]

theorem regexReplace_plain (k v s : List Char) (h : plainKey k = true) :
    regexReplace (String.mk k) (String.mk v) (String.mk s)
      = some (String.mk (replaceAll (litPattern k) v s)) := by
  simp [regexReplace, compilePattern_plain k h, litPattern_no_any k]

theorem replaceScan_render (k : List Char) (hk : ∀ c ∈ k, c ≠ rbrace) (value : List Seg)
    (hv : ∀ c ∈ render value, c ≠ dollar) (segs : List Seg)
    (hwf : ∀ seg ∈ segs, seg.wellFormed = true) :
    ∀ before : List Char,
      replaceScan (litPattern k) (render value) 0 before (render segs)
        = render (substSeg k value segs) := by
  induction segs with
  | nil => intro before; simp [render, substSeg, replaceScan]
  | cons seg segs ih =>
    intro before
    have ih := ih (fun s hs => hwf s (by simp [hs]))
    have hseg : seg.wellFormed = true := hwf seg (by simp)
    rw [substSeg_cons, render_append]
    cases seg with
    | text t =>
      have ht : ∀ c ∈ t, c ≠ lbrace := by
        intro c hc
        simp only [Seg.wellFormed, List.all_eq_true] at hseg
        simpa using hseg c hc
      have hpat : litPattern k
          = PatItem.lit lbrace :: (lbrace :: (k ++ [rbrace, rbrace])).map PatItem.lit := rfl
      show replaceScan (litPattern k) (render value) 0 before (t ++ render segs) = _
      rw [hpat, replaceScan_text _ _ t ht, ← hpat, ih]
      simp [render]
    | hole n =>
      have hn : ∀ c ∈ n, c ≠ lbrace ∧ c ≠ rbrace := by
        intro c hc
        simp only [Seg.wellFormed, List.all_eq_true] at hseg
        simpa using hseg c hc
      show replaceScan (litPattern k) (render value) 0 before (placeholder n ++ render segs) = _
      by_cases hnk : n = k
      · subst hnk
        rw [replaceScan_hole_eq, getSubstitution_plain _ _ _ _ hv, ih]
        simp
      · rw [replaceScan_hole_ne k n _ hk hn hnk, ih]
        simp [hnk, render]

theorem replaceScan_render_absent (k : List Char) (hk : ∀ c ∈ k, c ≠ rbrace) (w : List Char)
    (segs : List Seg) (hwf : ∀ seg ∈ segs, seg.wellFormed = true) (habs : Seg.hole k ∉ segs) :
    ∀ before : List Char, replaceScan (litPattern k) w 0 before (render segs) = render segs := by
  induction segs with
  | nil => intro before; simp [render, replaceScan]
  | cons seg segs ih =>
    intro before
    have ih := ih (fun s hs => hwf s (by simp [hs])) (fun hm => habs (by simp [hm]))
    have hseg : seg.wellFormed = true := hwf seg (by simp)
    cases seg with
    | text t =>
      have ht : ∀ c ∈ t, c ≠ lbrace := by
        intro c hc
        simp only [Seg.wellFormed, List.all_eq_true] at hseg
        simpa using hseg c hc
      have hpat : litPattern k
          = PatItem.lit lbrace :: (lbrace :: (k ++ [rbrace, rbrace])).map PatItem.lit := rfl
      show replaceScan (litPattern k) w 0 before (t ++ render segs) = _
      rw [hpat, replaceScan_text _ _ t ht, ← hpat, ih]
      simp [render]
    | hole n =>
      have hn : ∀ c ∈ n, c ≠ lbrace ∧ c ≠ rbrace := by
        intro c hc
        simp only [Seg.wellFormed, List.all_eq_true] at hseg
        simpa using hseg c hc
      have hnk : n ≠ k := by
        intro e; apply habs; simp [e]
      show replaceScan (litPattern k) w 0 before (placeholder n ++ render segs) = _
      rw [replaceScan_hole_ne k n _ hk hn hnk, ih]
      simp [render]

theorem substSeg_wellFormed (k : List Char) (value segs : List Seg)
    (hv : ∀ seg ∈ value, seg.wellFormed = true) (hs : ∀ seg ∈ segs, seg.wellFormed = true) :
    ∀ seg ∈ substSeg k value segs, seg.wellFormed = true := by
  intro seg hseg
  simp only [substSeg, List.mem_flatMap] at hseg
  obtain ⟨s, hs1, hs2⟩ := hseg
  by_cases h : s = Seg.hole k
  · simp only [h, if_true] at hs2; exact hv seg hs2
  · simp only [h, if_false, List.mem_singleton] at hs2; rw [hs2]; exact hs s hs1

theorem SegVariable.wellFormed_parts (v : SegVariable) (h : v.wellFormed = true) :
    plainKey v.key = true ∧ (∀ seg ∈ v.value, seg.wellFormed = true)
      ∧ (∀ c ∈ render v.value, c ≠ dollar) := by
  simp only [SegVariable.wellFormed, Bool.and_eq_true, List.all_eq_true] at h
  refine ⟨h.1.1, h.1.2, ?_⟩
  intro c hc
  simpa using h.2 c hc

theorem substituteAll_cons (v : SegVariable) (vars : List SegVariable) (segs : List Seg) :
    substituteAll (v :: vars) segs
      = substituteAll vars (if v.enabled then substSeg v.key v.value segs else segs) := by
  simp [substituteAll]

/-- On well-formed pieces the resolver is the substitution of the enabled
variables one after the other. -/
theorem resolve_render (vars : List SegVariable)
    (hv : ∀ v ∈ vars, v.enabled = true → v.wellFormed = true) :
    ∀ segs : List Seg, (∀ seg ∈ segs, seg.wellFormed = true) →
      resolve (String.mk (render segs)) (vars.map SegVariable.toVariable)
        = some (String.mk (render (substituteAll vars segs))) := by
  induction vars with
  | nil => intro segs _; rfl
  | cons v vars ih =>
    intro segs hs
    have ih := ih (fun w hw => hv w (by simp [hw]))
    rw [substituteAll_cons]
    cases he : v.enabled with
    | false =>
      have := ih segs hs
      simpa [resolve, applyVariables, SegVariable.toVariable, he] using this
    | true =>
      obtain ⟨hk, hval, hd⟩ := SegVariable.wellFormed_parts v (hv v (by simp) he)
      have hstep := regexReplace_plain v.key (render v.value) (render segs) hk
      rw [replaceAll, replaceScan_render v.key (fun c hc => (plainKey_braces v.key hk c hc).2)
        v.value hd segs hs] at hstep
      have := ih (substSeg v.key v.value segs) (substSeg_wellFormed v.key v.value segs hval hs)
      simpa [resolve, applyVariables, SegVariable.toVariable, he, hstep] using this

theorem render_flatMap (f : Seg → List Seg) (segs : List Seg) :
    render (segs.flatMap f) = segs.flatMap (fun seg => render (f seg)) := by
  induction segs with
  | nil => rfl
  | cons s segs ih => simp [List.flatMap_cons, render_append, ih]

theorem substSeg_absent (k : List Char) (value segs : List Seg) (h : Seg.hole k ∉ segs) :
    substSeg k value segs = segs := by
  induction segs with
  | nil => rfl
  | cons s segs ih =>
    have hs : s ≠ Seg.hole k := fun e => h (by simp [e])
    rw [substSeg_cons, ih (fun hm => h (by simp [hm]))]
    simp [hs]

theorem substSeg_append (k : List Char) (value xs ys : List Seg) :
    substSeg k value (xs ++ ys) = substSeg k value xs ++ substSeg k value ys := by
  simp [substSeg, List.flatMap_append]

theorem substituteAll_append_segs (vars : List SegVariable) :
    ∀ xs ys : List Seg,
      substituteAll vars (xs ++ ys) = substituteAll vars xs ++ substituteAll vars ys := by
  induction vars with
  | nil => intro xs ys; rfl
  | cons v vars ih =>
    intro xs ys
    simp only [substituteAll_cons]
    cases v.enabled with
    | false => simpa using ih xs ys
    | true => simp only [if_true, substSeg_append]; exact ih _ _

theorem substituteAll_nil_segs (vars : List SegVariable) : substituteAll vars [] = [] := by
  induction vars with
  | nil => rfl
  | cons v vars ih =>
    rw [substituteAll_cons]
    cases v.enabled <;> simpa [substSeg] using ih

theorem substituteAll_flatMap (vars : List SegVariable) (f : Seg → List Seg) (segs : List Seg) :
    substituteAll vars (segs.flatMap f) = segs.flatMap (fun seg => substituteAll vars (f seg)) := by
  induction segs with
  | nil => simpa using substituteAll_nil_segs vars
  | cons s segs ih => simp [List.flatMap_cons, substituteAll_append_segs, ih]

theorem substituteAll_append_vars (xs ys : List SegVariable) (segs : List Seg) :
    substituteAll (xs ++ ys) segs = substituteAll ys (substituteAll xs segs) := by
  simp [substituteAll, List.foldl_append]

theorem substituteAll_untouched (vars : List SegVariable) (value : List Seg)
    (h : ∀ w ∈ vars, w.enabled = true → Seg.hole w.key ∉ value) :
    substituteAll vars value = value := by
  induction vars with
  | nil => rfl
  | cons v vars ih =>
    rw [substituteAll_cons]
    cases he : v.enabled with
    | false => simpa using ih (fun w hw => h w (by simp [hw]))
    | true =>
      simp only [if_true]
      rw [substSeg_absent v.key v.value value (h v (by simp) he)]
      exact ih (fun w hw => h w (by simp [hw]))

theorem substituteAll_wellFormed (vars : List SegVariable)
    (hv : ∀ v ∈ vars, v.enabled = true → v.wellFormed = true) :
    ∀ segs : List Seg, (∀ seg ∈ segs, seg.wellFormed = true) →
      ∀ seg ∈ substituteAll vars segs, seg.wellFormed = true := by
  induction vars with
  | nil => intro segs hs; exact hs
  | cons v vars ih =>
    intro segs hs
    rw [substituteAll_cons]
    have ih := ih (fun w hw => hv w (by simp [hw]))
    cases he : v.enabled with
    | false => simpa using ih segs hs
    | true =>
      simp only [if_true]
      exact ih _ (substSeg_wellFormed v.key v.value segs
        (SegVariable.wellFormed_parts v (hv v (by simp) he)).2.1 hs)

theorem firstEnabled_cons (v : SegVariable) (vars : List SegVariable) (n : List Char) :
    firstEnabled (v :: vars) n
      = if v.enabled = true ∧ v.key = n then some v else firstEnabled vars n := by
  by_cases h : v.enabled = true ∧ v.key = n
  · simp [firstEnabled, List.find?_cons, h.1, h.2]
  · rw [if_neg h]
    have : (v.enabled && decide (v.key = n)) = false := by
      rcases Decidable.not_and_iff_or_not.mp h with h1 | h2
      · simp [h1]
      · simp [h2]
    simp [firstEnabled, List.find?_cons, this]

theorem substFirst_untouched (vars : List SegVariable) (value : List Seg)
    (h : ∀ w ∈ vars, w.enabled = true → Seg.hole w.key ∉ value) :
    ∀ seg ∈ value, substFirst vars seg = [seg] := by
  intro seg hseg
  cases seg with
  | text t => rfl
  | hole n =>
    have hnone : firstEnabled vars n = none := by
      simp only [firstEnabled, List.find?_eq_none]
      intro w hw hcond
      simp only [Bool.and_eq_true, decide_eq_true_eq] at hcond
      exact h w hw hcond.1 (by rw [hcond.2]; exact hseg)
    simp [substFirst, hnone]

theorem flatMap_untouched (f : Seg → List Seg) (value : List Seg)
    (h : ∀ seg ∈ value, f seg = [seg]) : value.flatMap f = value := by
  induction value with
  | nil => rfl
  | cons s value ih =>
    rw [List.flatMap_cons, h s (by simp), ih (fun seg hs => h seg (by simp [hs]))]
    rfl

theorem valuesFinal_cons (v : SegVariable) (post : List SegVariable)
    (h : valuesFinal (v :: post) = true) :
    (v.enabled = true → ∀ w ∈ post, w.enabled = true → Seg.hole w.key ∉ v.value)
      ∧ valuesFinal post = true := by
  simp only [valuesFinal, Bool.and_eq_true, Bool.or_eq_true, Bool.not_eq_true',
    List.all_eq_true] at h
  refine ⟨?_, h.2⟩
  intro he w hw hwe hmem
  rcases h.1 with h1 | h1
  · rw [he] at h1; exact absurd h1 (by simp)
  · rcases h1 w hw with h2 | h2
    · rw [hwe] at h2; exact absurd h2 (by simp)
    · have : v.value.contains (Seg.hole w.key) = true := by simpa using hmem
      rw [this] at h2; exact absurd h2 (by simp)

theorem substituteAll_eq_substFirst (vars : List SegVariable) (hf : valuesFinal vars = true) :
    ∀ segs : List Seg, substituteAll vars segs = segs.flatMap (substFirst vars) := by
  induction vars with
  | nil =>
    intro segs
    symm
    apply flatMap_untouched
    intro seg _
    cases seg <;> simp [substFirst, firstEnabled]
  | cons v post ih =>
    intro segs
    obtain ⟨hlater, hpost⟩ := valuesFinal_cons v post hf
    have ih := ih hpost
    rw [substituteAll_cons]
    cases he : v.enabled with
    | false =>
      simp only [Bool.false_eq_true, if_false]
      rw [ih]
      congr 1
      funext seg
      cases seg with
      | text t => rfl
      | hole n => simp [substFirst, firstEnabled_cons, he]
    | true =>
      simp only [if_true]
      rw [ih, substSeg, List.flatMap_assoc]
      congr 1
      funext seg
      by_cases hs : seg = Seg.hole v.key
      · subst hs
        simp only [if_true]
        rw [flatMap_untouched _ _ (substFirst_untouched post v.value (hlater he))]
        simp [substFirst, firstEnabled_cons, he]
      · simp only [hs, if_false, List.flatMap_cons, List.flatMap_nil, List.append_nil]
        cases seg with
        | text t => rfl
        | hole n =>
          have hne : v.key ≠ n := fun e => hs (by rw [e])
          simp [substFirst, firstEnabled_cons, hne]

theorem render_substFirst (vars : List SegVariable) (seg : Seg) :
    render (substFirst vars seg) = fillPiece vars seg := by
  cases seg with
  | text t => simp [substFirst, fillPiece, render]
  | hole n =>
    simp only [substFirst, fillPiece]
    cases firstEnabled vars n <;> simp [render]

theorem applyVariables_append (xs ys : List Variable) :
    ∀ url : String, resolve url (xs ++ ys) = (resolve url xs).bind (fun next => resolve next ys) := by
  induction xs with
  | nil => intro url; simp [resolve, applyVariables]
  | cons v xs ih =>
    intro url
    simp only [resolve, List.cons_append, applyVariables] at ih ⊢
    cases v.enabled with
    | false => simpa using ih url
    | true =>
      simp only [if_true]
      cases h : regexReplace v.key v.value url with
      | none => simp
      | some next => simpa using ih next

theorem substSeg_no_hole (k : List Char) (value segs : List Seg) (hv : Seg.hole k ∉ value) :
    Seg.hole k ∉ substSeg k value segs := by
  intro hm
  simp only [substSeg, List.mem_flatMap] at hm
  obtain ⟨s, _, hs2⟩ := hm
  by_cases h : s = Seg.hole k
  · simp only [h, if_true] at hs2; exact hv hs2
  · simp only [h, if_false, List.mem_singleton] at hs2; exact h hs2.symm

theorem substSeg_keeps_absent (k j : List Char) (value segs : List Seg)
    (hv : Seg.hole k ∉ value) (hs : Seg.hole k ∉ segs) : Seg.hole k ∉ substSeg j value segs := by
  intro hm
  simp only [substSeg, List.mem_flatMap] at hm
  obtain ⟨s, hs1, hs2⟩ := hm
  by_cases h : s = Seg.hole j
  · simp only [h, if_true] at hs2; exact hv hs2
  · simp only [h, if_false, List.mem_singleton] at hs2; rw [hs2] at hs; exact hs hs1

theorem substituteAll_keeps_absent (k : List Char) (vars : List SegVariable)
    (hv : ∀ u ∈ vars, u.enabled = true → Seg.hole k ∉ u.value) :
    ∀ segs : List Seg, Seg.hole k ∉ segs → Seg.hole k ∉ substituteAll vars segs := by
  induction vars with
  | nil => intro segs hs; exact hs
  | cons v vars ih =>
    intro segs hs
    rw [substituteAll_cons]
    have ih := ih (fun u hu => hv u (by simp [hu]))
    cases he : v.enabled with
    | false => simpa using ih segs hs
    | true =>
      simp only [if_true]
      exact ih _ (substSeg_keeps_absent k v.key v.value segs (hv v (by simp) he) hs)

/-- C6, amended: for a template given by well-formed pieces and variables whose
enabled members have a plain key and a well-formed value without a dollar
sign, and in which no value holds a placeholder of a variable enabled later
in the list, the resolver replaces every placeholder by the value of the
first enabled variable with its name (a placeholder with no such variable
stays), and keeps the text between the placeholders. -/
theorem resolve_fills_every_placeholder (segs : List Seg) (vars : List SegVariable)
    (hsegs : ∀ seg ∈ segs, seg.wellFormed = true)
    (hvars : ∀ v ∈ vars, v.enabled = true → v.wellFormed = true)
    (hfinal : valuesFinal vars = true) :
    resolve (String.mk (render segs)) (vars.map SegVariable.toVariable)
      = some (String.mk (segs.flatMap (fillPiece vars))) := by
  rw [resolve_render vars hvars segs hsegs, substituteAll_eq_substFirst vars hfinal,
    render_flatMap]
  simp only [render_substFirst]

/-- C6 at a template with three placeholders of two names. -/
theorem resolve_fills_every_placeholder_witness :
    resolve "\x7b\x7bhost\x7d\x7d/users/\x7b\x7bid\x7d\x7d?h=\x7b\x7bhost\x7d\x7d"
        [⟨"host", "api.test", true⟩, ⟨"id", "none", false⟩, ⟨"id", "42", true⟩]
      = some "api.test/users/42?h=api.test" :=
  resolve_fills_every_placeholder
    [.hole "host".data, .text "/users/".data, .hole "id".data, .text "?h=".data, .hole "host".data]
    [⟨"host".data, [.text "api.test".data], true⟩, ⟨"id".data, [.text "none".data], false⟩,
      ⟨"id".data, [.text "42".data], true⟩]
    (by decide) (by decide) (by decide)

/-- C6 as first stated fails when the value of `host` holds the placeholder of
`scheme`, a variable later in the list: the result is not the template with
the value of `host` in place of its placeholder. -/
theorem resolve_chained_counterexample :
    resolve "\x7b\x7bhost\x7d\x7d/users"
        [⟨"host", "\x7b\x7bscheme\x7d\x7dapi.test", true⟩, ⟨"scheme", "https://", true⟩]
      = some "https://api.test/users"
    ∧ resolve "\x7b\x7bhost\x7d\x7d/users"
        [⟨"host", "\x7b\x7bscheme\x7d\x7dapi.test", true⟩, ⟨"scheme", "https://", true⟩]
      ≠ some "\x7b\x7bscheme\x7d\x7dapi.test/users" := by
  decide

/-- C7, at the failing input: the only enabled variable has the key `api.host`;
the placeholder `{{api_host}}`, whose name is the key of no variable, is
replaced, because the dot of the key is read as a wild card. -/
theorem resolve_wildcard_key_replaces_other_name :
    resolve "\x7b\x7bapi_host\x7d\x7d/users" [⟨"api.host", "example.org", true⟩]
      = some "example.org/users" := by
  decide

/-- C8, amended: when `first` is an enabled variable and neither its value nor
the value of an enabled variable of `mid` holds a placeholder of its key, the
text after `first` is applied is the text the variables before it have left
with every placeholder of the key replaced by the value of `first`, no
placeholder of the key is left in it, and an enabled variable with the same
key after `mid` does not influence the result, whatever its value: with it
and without it the result is that text after the variables of `mid` and of
`post` are applied. -/
theorem later_duplicate_ignored (segs : List Seg) (pre mid post : List SegVariable)
    (first : SegVariable) (later : String)
    (hsegs : ∀ seg ∈ segs, seg.wellFormed = true)
    (hvars : ∀ v ∈ pre ++ first :: mid ++ post, v.enabled = true → v.wellFormed = true)
    (hfirst : first.enabled = true)
    (hfresh : ∀ u ∈ first :: mid, u.enabled = true → Seg.hole first.key ∉ u.value) :
    resolve (String.mk (render segs)) ((pre ++ [first]).map SegVariable.toVariable)
      = some (String.mk (render (substSeg first.key first.value (substituteAll pre segs))))
    ∧ Seg.hole first.key ∉ substSeg first.key first.value (substituteAll pre segs)
    ∧ resolve (String.mk (render segs))
        ((pre ++ first :: mid).map SegVariable.toVariable
          ++ ⟨String.mk first.key, later, true⟩ :: post.map SegVariable.toVariable)
      = some (String.mk (render (substituteAll post
          (substituteAll mid (substSeg first.key first.value (substituteAll pre segs))))))
    ∧ resolve (String.mk (render segs)) ((pre ++ first :: mid ++ post).map SegVariable.toVariable)
      = some (String.mk (render (substituteAll post
          (substituteAll mid (substSeg first.key first.value (substituteAll pre segs)))))) := by
  have hwfirst : first.wellFormed = true := hvars first (by simp) hfirst
  have hkey := (SegVariable.wellFormed_parts first hwfirst).1
  have hhead : ∀ v ∈ pre ++ first :: mid, v.enabled = true → v.wellFormed = true := by
    intro v hv
    apply hvars v
    simp only [List.mem_append, List.mem_cons] at hv ⊢
    rcases hv with h | h | h <;> simp [h]
  have hpre1 : ∀ v ∈ pre ++ [first], v.enabled = true → v.wellFormed = true := by
    intro v hv
    apply hvars v
    simp only [List.mem_append, List.mem_singleton] at hv
    rcases hv with h | h <;> simp [h]
  have hall : substituteAll (pre ++ first :: mid ++ post) segs
      = substituteAll post
          (substituteAll mid (substSeg first.key first.value (substituteAll pre segs))) := by
    have e : pre ++ first :: mid ++ post = pre ++ (first :: (mid ++ post)) := by simp
    rw [e, substituteAll_append_vars, substituteAll_cons, substituteAll_append_vars]
    simp only [hfirst, if_true]
  have hfull : resolve (String.mk (render segs))
      ((pre ++ first :: mid ++ post).map SegVariable.toVariable)
      = some (String.mk (render (substituteAll post
          (substituteAll mid (substSeg first.key first.value (substituteAll pre segs)))))) := by
    rw [resolve_render _ hvars segs hsegs, hall]
  have hno : Seg.hole first.key ∉ substSeg first.key first.value (substituteAll pre segs) :=
    substSeg_no_hole first.key first.value _ (hfresh first (by simp) hfirst)
  refine ⟨?_, hno, ?_, hfull⟩
  · rw [resolve_render _ hpre1 segs hsegs, substituteAll_append_vars]
    simp only [substituteAll_cons, hfirst, if_true]
    rfl
  · rw [← hfull]
    have habsent : Seg.hole first.key ∉ substituteAll (pre ++ first :: mid) segs := by
      rw [substituteAll_append_vars, substituteAll_cons]
      simp only [hfirst, if_true]
      apply substituteAll_keeps_absent first.key mid
        (fun u hu => hfresh u (by simp [hu]))
      exact hno
    have hwf := substituteAll_wellFormed (pre ++ first :: mid) hhead segs hsegs
    have hstep : regexReplace (String.mk first.key) later
        (String.mk (render (substituteAll (pre ++ first :: mid) segs)))
          = some (String.mk (render (substituteAll (pre ++ first :: mid) segs))) := by
      have := regexReplace_plain first.key later.data
        (render (substituteAll (pre ++ first :: mid) segs)) hkey
      rw [replaceAll, replaceScan_render_absent first.key
        (fun c hc => (plainKey_braces first.key hkey c hc).2) later.data _ hwf habsent] at this
      exact this
    have hsplit : (pre ++ first :: mid ++ post).map SegVariable.toVariable
        = (pre ++ first :: mid).map SegVariable.toVariable ++ post.map SegVariable.toVariable := by
      simp
    rw [hsplit, applyVariables_append, applyVariables_append, resolve_render _ hhead segs hsegs]
    simp only [Option.bind, resolve, applyVariables, if_true]
    rw [hstep]
    rfl

/-- C8 at two enabled variables with the key `host` and one between them: both
placeholders take the value of the first. -/
theorem later_duplicate_ignored_witness :
    resolve "\x7b\x7bhost\x7d\x7d/\x7b\x7bhost\x7d\x7d/v1"
        [⟨"host", "a.test", true⟩, ⟨"tag", "x", true⟩, ⟨"host", "b.test", true⟩]
      = some "a.test/a.test/v1" :=
  (later_duplicate_ignored
    [.hole "host".data, .text "/".data, .hole "host".data, .text "/v1".data]
    [] [⟨"tag".data, [.text "x".data], true⟩] []
    ⟨"host".data, [.text "a.test".data], true⟩ "b.test"
    (by decide) (by decide) (by decide) (by decide)).2.2.1

/-- C8 as first stated fails when a variable between the two brings the
placeholder back: the value of the second `host` is what the result shows. -/
theorem later_duplicate_counterexample :
    resolve "\x7b\x7bhost\x7d\x7d/\x7b\x7bbase\x7d\x7d"
        [⟨"host", "a.test", true⟩, ⟨"base", "\x7b\x7bhost\x7d\x7d/v1", true⟩,
          ⟨"host", "b.test", true⟩]
      = some "a.test/b.test/v1"
    ∧ resolve "\x7b\x7bhost\x7d\x7d/\x7b\x7bbase\x7d\x7d"
        [⟨"host", "a.test", true⟩, ⟨"base", "\x7b\x7bhost\x7d\x7d/v1", true⟩,
          ⟨"host", "c.test", true⟩]
      = some "a.test/c.test/v1" := by
  decide

/-- C9, amended: the value inserted for an enabled variable `v` is not scanned
again for `v` or for the variables before it, and is resolved by the
variables after it: wherever the variables before `v` have left a placeholder
of its key, the result holds what the resolver makes of the value with the
variables of `post`.  When no placeholder of the value is named by a variable
enabled later, the pieces of the value stand in the result as they are; when
`w` is the first later variable that is enabled and may name one, its
placeholders in the value are replaced by the value of `w`, and the outcome
is subject to the variables after `w`. -/
theorem inserted_value_final (segs : List Seg) (pre post : List SegVariable) (v : SegVariable)
    (hsegs : ∀ seg ∈ segs, seg.wellFormed = true)
    (hvars : ∀ u ∈ pre ++ v :: post, u.enabled = true → u.wellFormed = true)
    (he : v.enabled = true) :
    resolve (String.mk (render segs)) ((pre ++ v :: post).map SegVariable.toVariable)
      = some (String.mk (render ((substituteAll pre segs).flatMap
          (fun seg => if seg = Seg.hole v.key then substituteAll post v.value
            else substituteAll post [seg]))))
    ∧ resolve (String.mk (render v.value)) (post.map SegVariable.toVariable)
      = some (String.mk (render (substituteAll post v.value)))
    ∧ ((∀ w ∈ post, w.enabled = true → Seg.hole w.key ∉ v.value) →
        resolve (String.mk (render segs)) ((pre ++ v :: post).map SegVariable.toVariable)
          = some (String.mk (render ((substituteAll pre segs).flatMap
              (fun seg => if seg = Seg.hole v.key then v.value else substituteAll post [seg])))))
    ∧ (∀ (post1 post2 : List SegVariable) (w : SegVariable), post = post1 ++ w :: post2 →
        w.enabled = true →
        (∀ u ∈ post1, u.enabled = true → Seg.hole u.key ∉ v.value) →
        resolve (String.mk (render segs)) ((pre ++ v :: post).map SegVariable.toVariable)
          = some (String.mk (render ((substituteAll pre segs).flatMap
              (fun seg => if seg = Seg.hole v.key
                then substituteAll post2 (substSeg w.key w.value v.value)
                else substituteAll post [seg]))))) := by
  have hmain : resolve (String.mk (render segs)) ((pre ++ v :: post).map SegVariable.toVariable)
      = some (String.mk (render ((substituteAll pre segs).flatMap
          (fun seg => if seg = Seg.hole v.key then substituteAll post v.value
            else substituteAll post [seg])))) := by
    rw [resolve_render _ hvars segs hsegs, substituteAll_append_vars, substituteAll_cons]
    simp only [he, if_true]
    rw [substSeg, substituteAll_flatMap]
    have hfun : (fun seg => substituteAll post (if seg = Seg.hole v.key then v.value else [seg]))
        = (fun seg => if seg = Seg.hole v.key then substituteAll post v.value
            else substituteAll post [seg]) := by
      funext seg
      by_cases hs : seg = Seg.hole v.key
      · simp only [hs, if_true]
      · simp only [hs, if_false]
    rw [hfun]
  have hwv : v.wellFormed = true := hvars v (by simp) he
  have hvalue : ∀ seg ∈ v.value, seg.wellFormed = true := by
    have := (SegVariable.wellFormed_parts v hwv).2.1
    exact this
  have hpost : ∀ u ∈ post, u.enabled = true → u.wellFormed = true :=
    fun u hu => hvars u (by simp [hu])
  refine ⟨hmain, resolve_render post hpost v.value hvalue, ?_, ?_⟩
  · intro hlater
    rw [hmain, substituteAll_untouched post v.value hlater]
  · intro post1 post2 w hp hw h1
    rw [hmain]
    have e : substituteAll post v.value = substituteAll post2 (substSeg w.key w.value v.value) := by
      rw [hp, substituteAll_append_vars, substituteAll_untouched post1 v.value h1,
        substituteAll_cons]
      simp only [hw, if_true]
    rw [e]

/-- C9 with `b` before `a`, where the placeholder of `b` in the value of `a`
stays, and with `b` after `a`, where it is replaced. -/
theorem inserted_value_final_witness :
    resolve "\x7b\x7ba\x7d\x7d" [⟨"b", "x", true⟩, ⟨"a", "<\x7b\x7bb\x7d\x7d>", true⟩]
      = some "<\x7b\x7bb\x7d\x7d>"
    ∧ resolve "\x7b\x7ba\x7d\x7d/\x7b\x7bb\x7d\x7d"
        [⟨"a", "<\x7b\x7bb\x7d\x7d>", true⟩, ⟨"b", "x", true⟩]
      = some "<x>/x" :=
  ⟨(inserted_value_final [.hole "a".data] [⟨"b".data, [.text "x".data], true⟩] []
      ⟨"a".data, [.text "<".data, .hole "b".data, .text ">".data], true⟩
      (by decide) (by decide) (by decide)).2.2.1 (by decide),
   (inserted_value_final [.hole "a".data, .text "/".data, .hole "b".data] []
      [⟨"b".data, [.text "x".data], true⟩]
      ⟨"a".data, [.text "<".data, .hole "b".data, .text ">".data], true⟩
      (by decide) (by decide) (by decide)).2.2.2 [] [] ⟨"b".data, [.text "x".data], true⟩
      rfl rfl (by decide)⟩

/-- C9 as first stated fails with `b` after `a`: the placeholder of `b` in the
value of `a` is replaced in turn. -/
theorem inserted_value_rescanned_counterexample :
    resolve "\x7b\x7ba\x7d\x7d" [⟨"a", "<\x7b\x7bb\x7d\x7d>", true⟩, ⟨"b", "x", true⟩]
      = some "<x>"
    ∧ resolve "\x7b\x7ba\x7d\x7d" [⟨"a", "<\x7b\x7bb\x7d\x7d>", true⟩, ⟨"b", "x", true⟩]
      ≠ some "<\x7b\x7bb\x7d\x7d>" := by
  decide

theorem substSeg_keeps_other (k n : List Char) (value segs : List Seg) (hne : k ≠ n)
    (h : Seg.hole n ∈ segs) : Seg.hole n ∈ substSeg k value segs := by
  simp only [substSeg, List.mem_flatMap]
  refine ⟨Seg.hole n, h, ?_⟩
  have : Seg.hole n ≠ Seg.hole k := fun e => hne (by injection e with e; exact e.symm)
  simp [this]

/-- With plain keys a placeholder whose name is the key of no enabled variable
stays in the resolved template. -/
theorem resolve_keeps_unmatched (segs : List Seg) (vars : List SegVariable) (n : List Char)
    (hsegs : ∀ seg ∈ segs, seg.wellFormed = true)
    (hvars : ∀ v ∈ vars, v.enabled = true → v.wellFormed = true)
    (hn : ∀ v ∈ vars, v.enabled = true → v.key ≠ n)
    (hmem : Seg.hole n ∈ segs) :
    ∃ out : List Seg, resolve (String.mk (render segs)) (vars.map SegVariable.toVariable)
        = some (String.mk (render out)) ∧ Seg.hole n ∈ out := by
  refine ⟨substituteAll vars segs, resolve_render vars hvars segs hsegs, ?_⟩
  clear hvars hsegs
  induction vars generalizing segs with
  | nil => exact hmem
  | cons v vars ih =>
    rw [substituteAll_cons]
    cases he : v.enabled with
    | false => simpa using ih segs (fun w hw => hn w (by simp [hw])) hmem
    | true =>
      simp only [if_true]
      exact ih _ (fun w hw => hn w (by simp [hw]))
        (substSeg_keeps_other v.key n v.value segs (hn v (by simp) he) hmem)

/-! ## Collaboration relay -/

theorem mem_members (joined : List (String × String)) (room conn : String) :
    conn ∈ members joined room ↔ (room, conn) ∈ joined := by
  simp only [members, List.mem_map, List.mem_filter, decide_eq_true_eq]
  constructor
  · rintro ⟨p, ⟨hp, h1⟩, h2⟩
    have : p = (room, conn) := by
      cases p; simp_all
    rw [← this]; exact hp
  · intro h
    exact ⟨(room, conn), ⟨h, rfl⟩, rfl⟩

theorem mem_socketJoin (joined : List (String × String)) (conn room : String)
    (p : String × String) :
    p ∈ socketJoin joined conn room ↔ p ∈ joined ∨ p = (room, conn) := by
  unfold socketJoin
  by_cases h : joined.contains (room, conn) = true
  · rw [if_pos h]
    constructor
    · exact Or.inl
    · rintro (h1 | h1)
      · exact h1
      · rw [h1]; simpa using h
  · rw [if_neg h]
    simp

theorem sessionsGet_mem (sessions : List (String × List User)) (requestId : String)
    (users : List User) (h : sessionsGet sessions requestId = some users) :
    (requestId, users) ∈ sessions := by
  simp only [sessionsGet, Option.map_eq_some'] at h
  obtain ⟨p, hp, hu⟩ := h
  have hmem := List.mem_of_find?_eq_some hp
  have hkey := List.find?_some hp
  simp only [decide_eq_true_eq] at hkey
  have : p = (requestId, users) := by
    cases p; simp_all
  rw [← this]; exact hmem

theorem sessionsGet_none (sessions : List (String × List User)) (requestId : String)
    (h : sessionsGet sessions requestId = none) :
    ∀ p ∈ sessions, p.1 ≠ requestId := by
  simp only [sessionsGet, Option.map_eq_none', List.find?_eq_none, decide_eq_true_eq] at h
  exact h

theorem mem_sessionsSet (sessions : List (String × List User)) (requestId : String)
    (users : List User) (p : String × List User) (h : p ∈ sessionsSet sessions requestId users) :
    p = (requestId, users) ∨ (p ∈ sessions ∧ p.1 ≠ requestId) := by
  unfold sessionsSet at h
  by_cases hh : sessionsHas sessions requestId = true
  · rw [if_pos hh] at h
    simp only [List.mem_map] at h
    obtain ⟨q, hq, hp⟩ := h
    by_cases hk : q.1 = requestId
    · rw [if_pos hk] at hp; exact Or.inl hp.symm
    · rw [if_neg hk] at hp; rw [← hp]; exact Or.inr ⟨hq, hk⟩
  · rw [if_neg hh] at h
    simp only [List.mem_append, List.mem_singleton] at h
    rcases h with h | h
    · right
      refine ⟨h, ?_⟩
      intro hk
      apply hh
      simp only [sessionsHas, List.any_eq_true, decide_eq_true_eq]
      exact ⟨p, h, hk⟩
    · exact Or.inl h

theorem rosterInRoom_connect (s : Server) (conn : String) (h : rosterInRoom s) :
    rosterInRoom (connect s conn).1 := by
  intro p hp u hu
  exact (mem_socketJoin _ _ _ _).mpr (Or.inl (h p hp u hu))

theorem rosterInRoom_join (s : Server) (conn requestId username : String)
    (h : rosterInRoom s) : rosterInRoom (joinSession s conn requestId username).1 := by
  intro p hp u hu
  simp only [joinSession] at hp ⊢
  rw [mem_socketJoin]
  rcases mem_sessionsSet _ _ _ _ hp with hp1 | ⟨hp1, _⟩
  · rw [hp1] at hu ⊢
    simp only [List.mem_append, List.mem_singleton] at hu
    rcases hu with hu | hu
    · left
      cases hg : sessionsGet (if sessionsHas s.sessions requestId = true then s.sessions
          else sessionsSet s.sessions requestId []) requestId with
      | none => rw [hg] at hu; simp at hu
      | some users =>
        rw [hg] at hu
        simp only [Option.getD_some] at hu
        have hmem := sessionsGet_mem _ _ _ hg
        by_cases hh : sessionsHas s.sessions requestId = true
        · rw [if_pos hh] at hmem
          exact h _ hmem u hu
        · rw [if_neg hh] at hmem
          rcases mem_sessionsSet _ _ _ _ hmem with hm | ⟨hm, _⟩
          · simp only [Prod.mk.injEq, true_and] at hm
            rw [hm] at hu; simp at hu
          · exact h _ hm u hu
    · right; rw [hu]
  · left
    by_cases hh : sessionsHas s.sessions requestId = true
    · rw [if_pos hh] at hp1; exact h p hp1 u hu
    · rw [if_neg hh] at hp1
      rcases mem_sessionsSet _ _ _ _ hp1 with hm | ⟨hm, _⟩
      · rw [hm] at hu; simp at hu
      · exact h p hm u hu

theorem rosterInRoom_leave (s : Server) (conn requestId : String)
    (h : rosterInRoom s) : rosterInRoom (leaveSession s conn requestId).1 := by
  intro p hp u hu
  simp only [leaveSession] at hp ⊢
  simp only [socketLeave, List.mem_filter, Bool.not_eq_true', Bool.and_eq_false_imp,
    decide_eq_true_eq, decide_eq_false_iff_not]
  cases hg : sessionsGet s.sessions requestId with
  | none =>
    rw [hg] at hp
    simp only at hp
    refine ⟨h p hp u hu, ?_⟩
    intro hk
    exact absurd hk (sessionsGet_none _ _ hg p hp)
  | some users =>
    rw [hg] at hp
    simp only at hp
    have hfirst := sessionsGet_mem _ _ _ hg
    by_cases hz : (users.filter (fun u => u.id ≠ conn)).length = 0
    · rw [if_pos hz] at hp
      simp only [sessionsDelete, List.mem_filter, decide_eq_true_eq] at hp
      exact ⟨h p hp.1 u hu, fun hk => absurd hk (by simpa using hp.2)⟩
    · rw [if_neg hz] at hp
      rcases mem_sessionsSet _ _ _ _ hp with hp1 | ⟨hp1, hne⟩
      · rw [hp1] at hu ⊢
        simp only [List.mem_filter, decide_eq_true_eq] at hu
        exact ⟨h _ hfirst u hu.1, fun _ => by simpa using hu.2⟩
      · exact ⟨h p hp1 u hu, fun hk => absurd hk hne⟩

theorem rosterInRoom_disconnect (s : Server) (conn : String)
    (h : rosterInRoom s) : rosterInRoom (disconnect s conn).1 := by
  intro p hp u hu
  simp only [disconnect, List.mem_filter, List.mem_map] at hp
  obtain ⟨⟨q, hq, hpq⟩, _⟩ := hp
  rw [← hpq] at hu ⊢
  simp only [List.mem_filter, decide_eq_true_eq] at hu
  simp only [disconnect, socketLeaveAll, List.mem_filter, decide_eq_true_eq]
  exact ⟨h q hq u hu.1, by simpa using hu.2⟩

theorem rosterInRoom_step (s : Server) (e : Event) (h : rosterInRoom s) :
    rosterInRoom (step s e).1 := by
  cases e with
  | connect conn => exact rosterInRoom_connect s conn h
  | join conn requestId username => exact rosterInRoom_join s conn requestId username h
  | leave conn requestId => exact rosterInRoom_leave s conn requestId h
  | update conn requestId data => exact h
  | cursor conn requestId field position => exact h
  | disconnect conn => exact rosterInRoom_disconnect s conn h

/-- The invariant holds along every sequence of events. -/
theorem rosterInRoom_runEvents (events : List Event) :
    ∀ s : Server, rosterInRoom s → rosterInRoom (runEvents s events) := by
  induction events with
  | nil => intro s h; exact h
  | cons e events ih =>
    intro s h
    exact ih _ (rosterInRoom_step s e h)

theorem rosterInRoom_empty : rosterInRoom Server.empty := by
  intro p hp
  simp [Server.empty] at hp

theorem mem_socketTo (joined : List (String × String)) (conn room : String) (msg : Message)
    (d : Delivery) :
    d ∈ socketTo joined conn room msg
      ↔ d.recipient ∈ members joined room ∧ d.recipient ≠ conn ∧ d.message = msg := by
  simp only [socketTo, List.mem_map, List.mem_filter, decide_eq_true_eq]
  constructor
  · rintro ⟨c, ⟨hc, hne⟩, hd⟩
    rw [← hd]
    exact ⟨hc, hne, rfl⟩
  · rintro ⟨hc, hne, hm⟩
    refine ⟨d.recipient, ⟨hc, hne⟩, ?_⟩
    cases d
    simp_all

/-- C10: `request-update` and `cursor-position` change no state; their message
goes to exactly the connections in the room other than the sender, and it
carries the sender's id and the payload as received.  In every state
reachable from the empty relay each entry of the room's session other than
the sender is among the recipients.  With `c1`, `c2` and `c3` joined to `r`,
an update from `c1` is delivered to `c2` and `c3` only. -/
theorem edit_relayed_to_others (s : Server) (conn requestId : String)
    (data field position : JsVal) :
    (requestUpdate s conn requestId data).1 = s
    ∧ (cursorPosition s conn requestId field position).1 = s
    ∧ (∀ d : Delivery, d ∈ (requestUpdate s conn requestId data).2 ↔
        d.recipient ∈ members s.joined requestId ∧ d.recipient ≠ conn
          ∧ d.message = .requestUpdated conn data)
    ∧ (∀ d : Delivery, d ∈ (cursorPosition s conn requestId field position).2 ↔
        d.recipient ∈ members s.joined requestId ∧ d.recipient ≠ conn
          ∧ d.message = .cursorMoved conn field position)
    ∧ (∀ (events : List Event) (users : List User),
        sessionsGet (runEvents Server.empty events).sessions requestId = some users →
        ∀ u ∈ users, u.id ≠ conn →
          ({ recipient := u.id, message := .requestUpdated conn data } : Delivery)
              ∈ (requestUpdate (runEvents Server.empty events) conn requestId data).2
          ∧ ({ recipient := u.id, message := .cursorMoved conn field position } : Delivery)
              ∈ (cursorPosition (runEvents Server.empty events) conn requestId field position).2)
    ∧ (requestUpdate
          (runEvents Server.empty
            [.connect "c1", .connect "c2", .connect "c3", .join "c1" "r" "alice",
              .join "c2" "r" "bob", .join "c3" "r" "carol"])
          "c1" "r" data).2
        = [{ recipient := "c2", message := .requestUpdated "c1" data },
           { recipient := "c3", message := .requestUpdated "c1" data }] := by
  refine ⟨rfl, rfl, ?_, ?_, ?_, ?_⟩
  · intro d; exact mem_socketTo _ _ _ _ d
  · intro d; exact mem_socketTo _ _ _ _ d
  · intro events users hget u hu hne
    have hinv := rosterInRoom_runEvents events Server.empty rosterInRoom_empty
    have hroom : u.id ∈ members (runEvents Server.empty events).joined requestId :=
      (mem_members _ _ _).mpr (hinv _ (sessionsGet_mem _ _ _ hget) u hu)
    constructor
    · exact (mem_socketTo _ _ _ _ _).mpr ⟨hroom, hne, rfl⟩
    · exact (mem_socketTo _ _ _ _ _).mpr ⟨hroom, hne, rfl⟩
  · rfl

/-! ## Collaboration relay: join, leave and disconnect -/

theorem sessionsHas_iff (sessions : List (String × List User)) (requestId : String) :
    sessionsHas sessions requestId = true ↔ ∃ users, sessionsGet sessions requestId = some users := by
  induction sessions with
  | nil => simp [sessionsHas, sessionsGet]
  | cons p ps ih =>
    by_cases h : p.1 = requestId
    · simp [sessionsHas, sessionsGet, List.find?_cons, h]
    · simp only [sessionsHas, sessionsGet] at ih
      simp [sessionsHas, sessionsGet, List.find?_cons, h, ih]

theorem sessionsGet_eq_none_iff (sessions : List (String × List User)) (requestId : String) :
    sessionsGet sessions requestId = none ↔ sessionsHas sessions requestId = false := by
  cases hg : sessionsGet sessions requestId with
  | none =>
    cases hh : sessionsHas sessions requestId with
    | false => simp
    | true =>
      obtain ⟨users, hu⟩ := (sessionsHas_iff sessions requestId).mp hh
      rw [hg] at hu; cases hu
  | some users =>
    have : sessionsHas sessions requestId = true := (sessionsHas_iff _ _).mpr ⟨users, hg⟩
    simp [this]

theorem find_map_replace (requestId : String) (users : List User) :
    ∀ ps : List (String × List User), sessionsHas ps requestId = true →
      (ps.map (fun p => if p.1 = requestId then (requestId, users) else p)).find?
          (fun p => decide (p.1 = requestId)) = some (requestId, users) := by
  intro ps
  induction ps with
  | nil => intro hh; simp [sessionsHas] at hh
  | cons p ps ih =>
    intro hh
    by_cases h : p.1 = requestId
    · rw [List.map_cons, if_pos h, List.find?_cons]
      simp
    · have hps : sessionsHas ps requestId = true := by
        simpa [sessionsHas, h] using hh
      rw [List.map_cons, if_neg h, List.find?_cons]
      have hd : decide (p.1 = requestId) = false := by simpa using h
      rw [hd]
      exact ih hps

theorem sessionsGet_sessionsSet (sessions : List (String × List User)) (requestId : String)
    (users : List User) : sessionsGet (sessionsSet sessions requestId users) requestId = some users := by
  unfold sessionsSet
  by_cases hh : sessionsHas sessions requestId = true
  · rw [if_pos hh, sessionsGet, find_map_replace requestId users sessions hh]
    rfl
  · rw [if_neg hh]
    have hnone : ∀ p ∈ sessions, p.1 ≠ requestId := by
      intro p hp hk
      apply hh
      simp only [sessionsHas, List.any_eq_true, decide_eq_true_eq]
      exact ⟨p, hp, hk⟩
    have hfind : sessions.find? (fun p => decide (p.1 = requestId)) = none := by
      simp only [List.find?_eq_none, decide_eq_true_eq]
      exact hnone
    simp [sessionsGet, List.find?_append, hfind]

theorem sessionsGet_sessionsDelete (sessions : List (String × List User)) (requestId : String) :
    sessionsGet (sessionsDelete sessions requestId) requestId = none := by
  simp [sessionsGet, sessionsDelete, List.find?_eq_none]

theorem members_socketLeave (joined : List (String × String)) (conn room : String) :
    members (socketLeave joined conn room) room = (members joined room).filter (fun c => c ≠ conn) := by
  simp only [members, socketLeave, List.filter_map, List.filter_filter]
  congr 1
  apply List.filter_congr
  intro p _
  by_cases h1 : p.1 = room <;> by_cases h2 : p.2 = conn <;> simp [h1, h2]

theorem mem_ioTo (joined : List (String × String)) (room : String) (msg : Message)
    (d : Delivery) :
    d ∈ ioTo joined room msg ↔ d.recipient ∈ members joined room ∧ d.message = msg := by
  simp only [ioTo, List.mem_map]
  constructor
  · rintro ⟨c, hc, hd⟩
    rw [← hd]
    exact ⟨hc, rfl⟩
  · rintro ⟨hc, hm⟩
    refine ⟨d.recipient, hc, ?_⟩
    cases d
    simp_all

/-- C11: after `leave(r, c)` the session of `r` holds the entries it held before
without those of `c`, in the same order, and is deleted exactly when none is
left; the `user-left` message carries that list and is delivered to exactly
the connections that were in the room other than `c`; in every state the
relay can reach, each entry left in the list names a connection the message
is delivered to.  After `join(r, c1, alice)`, `join(r, c2, bob)`,
`leave(r, c1)` the session is `[(c2, bob)]`, that list is delivered to `c2`
alone, and the session is gone after `leave(r, c2)`. -/
theorem leave_removes_and_broadcasts (s : Server) (conn requestId : String) :
    sessionsGet (leaveSession s conn requestId).1.sessions requestId
      = (if ((sessionsGet s.sessions requestId).getD []).filter (fun u => u.id ≠ conn) = [] then none
         else some (((sessionsGet s.sessions requestId).getD []).filter (fun u => u.id ≠ conn)))
    ∧ (leaveSession s conn requestId).2
      = ioTo (socketLeave s.joined conn requestId) requestId
          (.userLeft conn (((sessionsGet s.sessions requestId).getD []).filter (fun u => u.id ≠ conn)))
    ∧ members (socketLeave s.joined conn requestId) requestId
      = (members s.joined requestId).filter (fun c => c ≠ conn)
    ∧ (∀ d : Delivery, d ∈ (leaveSession s conn requestId).2 ↔
        (d.recipient ∈ members s.joined requestId ∧ d.recipient ≠ conn)
          ∧ d.message = .userLeft conn
              (((sessionsGet s.sessions requestId).getD []).filter (fun u => u.id ≠ conn)))
    ∧ (∀ events : List Event, ∀ u ∈ ((sessionsGet (runEvents Server.empty events).sessions
          requestId).getD []).filter (fun u => u.id ≠ conn),
        ({ recipient := u.id,
           message := .userLeft conn
            (((sessionsGet (runEvents Server.empty events).sessions requestId).getD []).filter
              (fun u => u.id ≠ conn)) } : Delivery)
          ∈ (leaveSession (runEvents Server.empty events) conn requestId).2)
    ∧ sessionsGet
        (runEvents Server.empty
          [.connect "c1", .connect "c2", .join "c1" "r" "alice", .join "c2" "r" "bob",
            .leave "c1" "r"]).sessions "r"
      = some [{ id := "c2", username := "bob" }]
    ∧ (leaveSession
        (runEvents Server.empty
          [.connect "c1", .connect "c2", .join "c1" "r" "alice", .join "c2" "r" "bob"])
        "c1" "r").2
      = [{ recipient := "c2", message := .userLeft "c1" [{ id := "c2", username := "bob" }] }]
    ∧ sessionsHas
        (runEvents Server.empty
          [.connect "c1", .connect "c2", .join "c1" "r" "alice", .join "c2" "r" "bob",
            .leave "c1" "r", .leave "c2" "r"]).sessions "r"
      = false := by
  have hdel : ∀ s : Server, (leaveSession s conn requestId).2
      = ioTo (socketLeave s.joined conn requestId) requestId
          (.userLeft conn (((sessionsGet s.sessions requestId).getD []).filter
            (fun u => u.id ≠ conn))) := by
    intro s
    cases hg : sessionsGet s.sessions requestId with
    | none =>
      simp only [leaveSession, hg, Option.getD_none, List.filter_nil]
    | some users =>
      simp only [leaveSession, hg, Option.getD_some]
      by_cases hz : users.filter (fun u => u.id ≠ conn) = []
      · have hlen : (users.filter (fun u => u.id ≠ conn)).length = 0 := by rw [hz]; rfl
        rw [if_pos hlen, sessionsGet_sessionsDelete, hz]
        rfl
      · have hlen : ¬ (users.filter (fun u => u.id ≠ conn)).length = 0 :=
          fun h => hz (List.length_eq_zero.mp h)
        rw [if_neg hlen, sessionsGet_sessionsSet]
        rfl
  have hmem : ∀ (s : Server) (d : Delivery), d ∈ (leaveSession s conn requestId).2 ↔
        (d.recipient ∈ members s.joined requestId ∧ d.recipient ≠ conn)
          ∧ d.message = .userLeft conn
              (((sessionsGet s.sessions requestId).getD []).filter (fun u => u.id ≠ conn)) := by
    intro s d
    rw [hdel, mem_ioTo, members_socketLeave, List.mem_filter]
    simp
  refine ⟨?_, hdel s, members_socketLeave _ _ _, hmem s, ?_, by decide, rfl, by decide⟩
  · cases hg : sessionsGet s.sessions requestId with
    | none =>
      simp only [leaveSession, hg, Option.getD_none, List.filter_nil, if_true]
    | some users =>
      simp only [leaveSession, hg, Option.getD_some]
      by_cases hz : users.filter (fun u => u.id ≠ conn) = []
      · have hlen : (users.filter (fun u => u.id ≠ conn)).length = 0 := by rw [hz]; rfl
        rw [if_pos hlen, if_pos hz, sessionsGet_sessionsDelete]
      · have hlen : ¬ (users.filter (fun u => u.id ≠ conn)).length = 0 :=
          fun h => hz (List.length_eq_zero.mp h)
        rw [if_neg hlen, if_neg hz, sessionsGet_sessionsSet]
  · intro events u hu
    have hinv := rosterInRoom_runEvents events Server.empty rosterInRoom_empty
    rw [hmem]
    simp only [List.mem_filter, decide_eq_true_eq] at hu
    refine ⟨⟨?_, hu.2⟩, rfl⟩
    cases hg : sessionsGet (runEvents Server.empty events).sessions requestId with
    | none => rw [hg] at hu; simp at hu
    | some users =>
      rw [hg] at hu
      have hp := sessionsGet_mem _ _ _ hg
      exact (mem_members _ _ _).mpr (hinv _ hp u hu.1)

theorem roomsActive_join (s : Server) (conn requestId username : String)
    (h : roomsActive s) : roomsActive (joinSession s conn requestId username).1 := by
  intro p hp
  simp only [joinSession] at hp
  rcases mem_sessionsSet _ _ _ _ hp with hp1 | ⟨hp1, hne⟩
  · rw [hp1]; simp
  · by_cases hh : sessionsHas s.sessions requestId = true
    · rw [if_pos hh] at hp1; exact h p hp1
    · rw [if_neg hh] at hp1
      rcases mem_sessionsSet _ _ _ _ hp1 with hm | ⟨hm, _⟩
      · rw [hm] at hne; exact absurd rfl hne
      · exact h p hm

theorem roomsActive_leave (s : Server) (conn requestId : String)
    (h : roomsActive s) : roomsActive (leaveSession s conn requestId).1 := by
  intro p hp
  cases hg : sessionsGet s.sessions requestId with
  | none =>
    simp only [leaveSession, hg] at hp
    exact h p hp
  | some users =>
    simp only [leaveSession, hg] at hp
    by_cases hz : (users.filter (fun u => u.id ≠ conn)).length = 0
    · rw [if_pos hz] at hp
      simp only [sessionsDelete, List.mem_filter] at hp
      exact h p hp.1
    · rw [if_neg hz] at hp
      rcases mem_sessionsSet _ _ _ _ hp with hp1 | ⟨hp1, _⟩
      · rw [hp1]
        intro e
        apply hz
        have e2 : users.filter (fun u => u.id ≠ conn) = [] := e
        rw [e2]
        rfl
      · exact h p hp1

theorem roomsActive_disconnect (s : Server) (conn : String) :
    roomsActive (disconnect s conn).1 := by
  intro p hp
  simp only [disconnect, List.mem_filter] at hp
  intro e
  rw [e] at hp
  simp at hp

theorem roomsActive_step (s : Server) (e : Event) (h : roomsActive s) :
    roomsActive (step s e).1 := by
  cases e with
  | connect conn => exact h
  | join conn requestId username => exact roomsActive_join s conn requestId username h
  | leave conn requestId => exact roomsActive_leave s conn requestId h
  | update conn requestId data => exact h
  | cursor conn requestId field position => exact h
  | disconnect conn => exact roomsActive_disconnect s conn

/-- No session is empty along any sequence of events. -/
theorem roomsActive_runEvents (events : List Event) :
    ∀ s : Server, roomsActive s → roomsActive (runEvents s events) := by
  induction events with
  | nil => intro s h; exact h
  | cons e events ih =>
    intro s h
    exact ih _ (roomsActive_step s e h)

/-- C12: in every state reached from the empty relay by any sequence of
events, every session of the map has at least one entry: a room is in the
map exactly when it has a list of one or more participants. -/
theorem rooms_always_active (events : List Event) :
    roomsActive (runEvents Server.empty events)
    ∧ (∀ requestId : String,
        sessionsHas (runEvents Server.empty events).sessions requestId = true ↔
          ∃ users, sessionsGet (runEvents Server.empty events).sessions requestId = some users
            ∧ 1 ≤ users.length) := by
  have hinv : roomsActive (runEvents Server.empty events) :=
    roomsActive_runEvents events Server.empty (by intro p hp; simp [Server.empty] at hp)
  refine ⟨hinv, ?_⟩
  intro requestId
  rw [sessionsHas_iff]
  constructor
  · rintro ⟨users, hu⟩
    refine ⟨users, hu, ?_⟩
    have hne := hinv _ (sessionsGet_mem _ _ _ hu)
    exact List.length_pos.mpr hne
  · rintro ⟨users, hu, _⟩
    exact ⟨users, hu⟩

/-- C13: `join(r, c, name)` leaves under `r` the entries held before (none when
the room was absent) followed by `(c, name)`; the `user-joined` message
carries that full list and goes to every connection in the room, the joiner
and the former members included. -/
theorem join_adds_and_broadcasts (s : Server) (conn requestId username : String) :
    sessionsGet (joinSession s conn requestId username).1.sessions requestId
      = some ((sessionsGet s.sessions requestId).getD [] ++ [{ id := conn, username := username }])
    ∧ (joinSession s conn requestId username).2
      = ioTo (socketJoin s.joined conn requestId) requestId
          (.userJoined conn username
            ((sessionsGet s.sessions requestId).getD [] ++ [{ id := conn, username := username }]))
    ∧ (joinSession s conn requestId username).1.joined = socketJoin s.joined conn requestId
    ∧ conn ∈ members (socketJoin s.joined conn requestId) requestId
    ∧ (∀ c ∈ members s.joined requestId, c ∈ members (socketJoin s.joined conn requestId) requestId)
    ∧ (∀ d : Delivery, d ∈ (joinSession s conn requestId username).2 ↔
        d.recipient ∈ members (socketJoin s.joined conn requestId) requestId
          ∧ d.message = .userJoined conn username
              ((sessionsGet s.sessions requestId).getD []
                ++ [{ id := conn, username := username }])) := by
  have hroster : (sessionsGet (if sessionsHas s.sessions requestId = true then s.sessions
        else sessionsSet s.sessions requestId []) requestId).getD []
      = (sessionsGet s.sessions requestId).getD [] := by
    by_cases hh : sessionsHas s.sessions requestId = true
    · rw [if_pos hh]
    · rw [if_neg hh, sessionsGet_sessionsSet]
      have : sessionsGet s.sessions requestId = none :=
        (sessionsGet_eq_none_iff _ _).mpr (by simpa using hh)
      rw [this]
      rfl
  have hdel : (joinSession s conn requestId username).2
      = ioTo (socketJoin s.joined conn requestId) requestId
          (.userJoined conn username
            ((sessionsGet s.sessions requestId).getD [] ++ [{ id := conn, username := username }])) := by
    simp only [joinSession, hroster]
  refine ⟨?_, hdel, rfl, ?_, ?_, ?_⟩
  · simp only [joinSession, sessionsGet_sessionsSet, hroster]
  · exact (mem_members _ _ _).mpr ((mem_socketJoin _ _ _ _).mpr (Or.inr rfl))
  · intro c hc
    exact (mem_members _ _ _).mpr ((mem_socketJoin _ _ _ _).mpr
      (Or.inl ((mem_members _ _ _).mp hc)))
  · intro d
    rw [hdel]
    exact mem_ioTo _ _ _ d

theorem disconnectRosters_absent (conn : String) (users : List User)
    (h : ∀ u ∈ users, u.id ≠ conn) : ∀ kept : List User, disconnectRosters conn kept users = [] := by
  induction users with
  | nil => intro kept; rfl
  | cons u users ih =>
    intro kept
    have hu : u.id ≠ conn := h u (by simp)
    rw [disconnectRosters, if_neg hu]
    exact ih (fun w hw => h w (by simp [hw])) _

theorem filter_absent (conn : String) (users : List User) (h : ∀ u ∈ users, u.id ≠ conn) :
    users.filter (fun u => u.id ≠ conn) = users := by
  apply List.filter_eq_self.mpr
  intro u hu
  simpa using h u hu

theorem disconnect_sessions_clean (s : Server) (conn : String) :
    ∀ p ∈ (disconnect s conn).1.sessions, p.2 ≠ [] ∧ ∀ u ∈ p.2, u.id ≠ conn := by
  intro p hp
  simp only [disconnect, List.mem_filter, List.mem_map] at hp
  obtain ⟨⟨q, _, hpq⟩, hne⟩ := hp
  refine ⟨?_, ?_⟩
  · intro e; rw [e] at hne; simp at hne
  · intro u hu
    rw [← hpq] at hu
    simp only [List.mem_filter, decide_eq_true_eq] at hu
    exact hu.2

theorem map_filter_clean (conn : String) (sessions : List (String × List User))
    (h : ∀ p ∈ sessions, p.2 ≠ [] ∧ ∀ u ∈ p.2, u.id ≠ conn) :
    (sessions.map (fun p => (p.1, p.2.filter (fun u => u.id ≠ conn)))).filter
        (fun p => p.2.length ≠ 0) = sessions := by
  induction sessions with
  | nil => rfl
  | cons p ps ih =>
    have hp := h p (by simp)
    have hf : p.2.filter (fun u => u.id ≠ conn) = p.2 := filter_absent conn p.2 hp.2
    have hl : decide ((p.1, p.2).2.length ≠ 0) = true := by
      simpa using hp.1
    rw [List.map_cons, hf, List.filter_cons, hl, if_pos rfl, ih (fun q hq => h q (by simp [hq]))]

theorem flatMap_nil_of_forall {α β : Type} (f : α → List β) (l : List α)
    (h : ∀ a ∈ l, f a = []) : l.flatMap f = [] := by
  induction l with
  | nil => rfl
  | cons a l ih =>
    rw [List.flatMap_cons, h a (by simp), ih (fun b hb => h b (by simp [hb]))]
    rfl

/-- C14: the `disconnect` cleanup for `c` takes `c` out of every room and every
session, keeps exactly the sessions that still have an entry, with their
other entries, and is idempotent: run a second time it leaves the state as it
is and emits nothing. -/
theorem disconnect_idempotent (s : Server) (conn : String) :
    disconnect (disconnect s conn).1 conn = ((disconnect s conn).1, [])
    ∧ (∀ p : String × String, p ∈ (disconnect s conn).1.joined ↔ p ∈ s.joined ∧ p.2 ≠ conn)
    ∧ (∀ p : String × List User, p ∈ (disconnect s conn).1.sessions ↔
        ∃ q ∈ s.sessions, q.2.filter (fun u => u.id ≠ conn) ≠ []
          ∧ p = (q.1, q.2.filter (fun u => u.id ≠ conn)))
    ∧ (∀ p ∈ (disconnect s conn).1.sessions, ∀ u ∈ p.2, u.id ≠ conn) := by
  refine ⟨?_, ?_, ?_, ?_⟩
  · have hclean := disconnect_sessions_clean s conn
    have hj : socketLeaveAll (disconnect s conn).1.joined conn = (disconnect s conn).1.joined := by
      simp only [disconnect, socketLeaveAll, List.filter_filter, Bool.and_self]
    have hs : ((disconnect s conn).1.sessions.map
          (fun p => (p.1, p.2.filter (fun u => u.id ≠ conn)))).filter (fun p => p.2.length ≠ 0)
        = (disconnect s conn).1.sessions := map_filter_clean conn _ hclean
    have hd : (disconnect s conn).1.sessions.flatMap (fun p =>
          (disconnectRosters conn [] p.2).flatMap (fun users =>
            ioTo (socketLeaveAll (disconnect s conn).1.joined conn) p.1 (.userLeft conn users)))
        = [] := by
      apply flatMap_nil_of_forall
      intro p hp
      rw [disconnectRosters_absent conn p.2 (hclean p hp).2]
      rfl
    show ((⟨socketLeaveAll (disconnect s conn).1.joined conn, _⟩ : Server), _) = _
    rw [hd, hs, hj]
  · intro p
    simp only [disconnect, socketLeaveAll, List.mem_filter, decide_eq_true_eq]
  · intro p
    simp only [disconnect, List.mem_filter, List.mem_map]
    constructor
    · rintro ⟨⟨q, hq, hpq⟩, hne⟩
      refine ⟨q, hq, ?_, hpq.symm⟩
      rw [← hpq] at hne
      intro e
      rw [e] at hne
      simp at hne
    · rintro ⟨q, hq, hne, hpq⟩
      refine ⟨⟨q, hq, hpq.symm⟩, ?_⟩
      rw [hpq]
      simpa using hne
  · intro p hp
    exact (disconnect_sessions_clean s conn p hp).2

/-! ## Assertion engine: the header, body, json and time checks -/

theorem runTest_header_passed (r : Response) (id field operator value : String) (enabled : Bool) :
    (runTest r { id := id, type := "header", field := field, operator := operator,
                 value := value, enabled := enabled }).passed
      = (match r.headers with
         | none => false
         | some hs => (hs.find? (fun h => h.1 = toLowerCase field)).isSome
            || headerObjectMembers.contains (toLowerCase field)) := by
  cases hh : r.headers <;> simp [runTest, evalCheck, hh]

/-- Companion to C15: a `header` test passes exactly when the response has a
header map and either a key of the map equals the lower-cased field of the
test or the lower-cased field names a member the header object inherits.  On
a map whose keys are in lower case, as axios stores them, and for a field
that names no inherited member, that is the case exactly when a key equals
the field with letter case ignored on both sides. -/
theorem header_test_passes_iff (r : Response) (id field operator value : String)
    (enabled : Bool) :
    ((runTest r { id := id, type := "header", field := field, operator := operator,
                  value := value, enabled := enabled }).passed = true
        ↔ ∃ hs, r.headers = some hs
            ∧ ((∃ h ∈ hs, h.1 = toLowerCase field) ∨ toLowerCase field ∈ headerObjectMembers))
    ∧ (∀ hs, r.headers = some hs → (∀ h ∈ hs, toLowerCase h.1 = h.1) →
        toLowerCase field ∉ headerObjectMembers →
        ((runTest r { id := id, type := "header", field := field, operator := operator,
                      value := value, enabled := enabled }).passed = true
          ↔ ∃ h ∈ hs, toLowerCase h.1 = toLowerCase field)) := by
  have hmain : (runTest r ⟨id, "header", field, operator, value, enabled⟩).passed = true
        ↔ ∃ hs, r.headers = some hs
            ∧ ((∃ h ∈ hs, h.1 = toLowerCase field) ∨ toLowerCase field ∈ headerObjectMembers) := by
    rw [runTest_header_passed]
    cases hh : r.headers with
    | none => simp
    | some hs =>
      simp
  refine ⟨hmain, ?_⟩
  intro hs hh hlow hnot
  rw [hmain]
  constructor
  · rintro ⟨hs2, h2, hor⟩
    rw [hh] at h2
    cases h2
    rcases hor with ⟨h, hmem, hk⟩ | hin
    · exact ⟨h, hmem, by rw [hlow h hmem, hk]⟩
    · exact absurd hin hnot
  · rintro ⟨h, hmem, hk⟩
    exact ⟨hs, hh, Or.inl ⟨h, hmem, by rw [← hlow h hmem, hk]⟩⟩

/-- C15, at the failing input: the field names a member the header object
inherits.  On a response whose only header is `content-type`, the test for
the header `Constructor` passes, though no key of the header map equals that
field, whatever the letter case. -/
theorem header_inherited_member_passes :
    (runTest { status := 200, statusText := "OK",
               headers := some [("content-type", "application/json")],
               data := .null, time := 5, size := 4 }
        { id := "1", type := "header", field := "Constructor", operator := "equals",
          value := "", enabled := true })
      = { test := { id := "1", type := "header", field := "Constructor", operator := "equals",
                    value := "", enabled := true },
          passed := true, message := "Header 'Constructor' exists" }
    ∧ ∀ h ∈ [("content-type", "application/json")],
        toLowerCase h.1 ≠ toLowerCase "Constructor" := by
  decide

theorem includesChars_iff (sub : List Char) :
    ∀ s : List Char, includesChars s sub = true ↔ ∃ pre post, s = pre ++ sub ++ post := by
  intro s
  induction s with
  | nil =>
    simp only [includesChars, List.isEmpty_iff]
    constructor
    · intro h; exact ⟨[], [], by simp [h]⟩
    · rintro ⟨pre, post, h⟩
      have := congrArg List.length h
      simp only [List.length_nil, List.length_append] at this
      exact List.length_eq_zero.mp (by omega)
  | cons c cs ih =>
    simp only [includesChars, Bool.or_eq_true, List.isPrefixOf_iff_prefix, ih]
    constructor
    · rintro (⟨post, h⟩ | ⟨pre, post, h⟩)
      · exact ⟨[], post, by simp [h]⟩
      · exact ⟨c :: pre, post, by simp [h]⟩
    · rintro ⟨pre, post, h⟩
      cases pre with
      | nil => left; exact ⟨post, by simpa using h.symm⟩
      | cons a pre =>
        right
        simp only [List.cons_append, List.cons.injEq] at h
        exact ⟨pre, post, h.2⟩

/-- C16: on a response whose body serialises to `text`, a `body` test passes
exactly when its expected text occurs contiguously in `text`; the empty
expected text passes.  The serialisation is the compact one of
`JSON.stringify`: in a string the quote, the backslash and the control
characters are escaped, a number is written in its string form, `undefined`
is written `null` in an array and its property is left out of an object. -/
theorem body_test_passes_iff (r : Response) (id field operator value : String) (enabled : Bool)
    (text : String) (htext : jsonStringify r.data = some text) :
    ((runTest r { id := id, type := "body", field := field, operator := operator,
                  value := value, enabled := enabled }).passed = true
        ↔ ∃ pre post : List Char, text.data = pre ++ value.data ++ post)
    ∧ (runTest r { id := id, type := "body", field := field, operator := operator,
                   value := "", enabled := enabled }).passed = true
    ∧ jsonStringify (.obj [("msg", .str "a\"b\\c\nd\te\x01"), ("n", .num "1e+21"),
          ("half", .num "-0.5"), ("list", .arr [.null, .undefined, .bool true, .str ""]),
          ("skip", .undefined), ("in", .obj [("k", .arr [])])])
        = some ("\x7b\"msg\":\"a\\\"b\\\\c\\nd\\te\\u0001\",\"n\":1e+21,\"half\":-0.5,"
            ++ "\"list\":[null,null,true,\"\"],\"in\":\x7b\"k\":[]\x7d\x7d")
    ∧ jsonStringify (.arr [.str "\x08\x0c\r\x1f\x7f/é", .bool false, .obj [("a\"", .null)]])
        = some "[\"\\b\\f\\r\\u001f\x7f/é\",false,\x7b\"a\\\"\":null\x7d]" := by
  have hp : ∀ v : String,
      (runTest r ⟨id, "body", field, operator, v, enabled⟩).passed = includes text v := by
    intro v
    simp [runTest, evalCheck, htext]
  refine ⟨?_, ?_, ?_, ?_⟩
  · rw [hp, includes, includesChars_iff]
  · rw [hp, includes, includesChars_iff]
    exact ⟨[], text.data, rfl⟩
  · decide
  · decide

/-- C16 at a body whose string holds two quotes: the body serialises to
`\x7b"msg":"say \"hi\"","tags":[1,2.5]\x7d`, so the expected text `\"hi\"`
with its backslashes passes, the text `[1,2.5]` passes, and the text
`say "hi"` without backslashes fails. -/
theorem body_test_passes_iff_witness :
    jsonStringify (.obj [("msg", .str "say \"hi\""), ("tags", .arr [.num "1", .num "2.5"])])
      = some "\x7b\"msg\":\"say \\\"hi\\\"\",\"tags\":[1,2.5]\x7d"
    ∧ (runTest { status := 200, statusText := "OK", headers := some [],
                 data := .obj [("msg", .str "say \"hi\""), ("tags", .arr [.num "1", .num "2.5"])],
                 time := 5, size := 35 }
        { id := "1", type := "body", field := "", operator := "equals",
          value := "\\\"hi\\\"", enabled := true }).passed = true
    ∧ (runTest { status := 200, statusText := "OK", headers := some [],
                 data := .obj [("msg", .str "say \"hi\""), ("tags", .arr [.num "1", .num "2.5"])],
                 time := 5, size := 35 }
        { id := "1", type := "body", field := "", operator := "equals",
          value := "[1,2.5]", enabled := true }).passed = true
    ∧ (runTest { status := 200, statusText := "OK", headers := some [],
                 data := .obj [("msg", .str "say \"hi\""), ("tags", .arr [.num "1", .num "2.5"])],
                 time := 5, size := 35 }
        { id := "1", type := "body", field := "", operator := "equals",
          value := "say \"hi\"", enabled := true }).passed ≠ true :=
  ⟨by decide,
   (body_test_passes_iff
      { status := 200, statusText := "OK", headers := some [],
        data := .obj [("msg", .str "say \"hi\""), ("tags", .arr [.num "1", .num "2.5"])],
        time := 5, size := 35 }
      "1" "" "equals" "\\\"hi\\\"" true
      "\x7b\"msg\":\"say \\\"hi\\\"\",\"tags\":[1,2.5]\x7d" (by decide)).1.mpr
    ⟨"\x7b\"msg\":\"say ".data, "\",\"tags\":[1,2.5]\x7d".data, by decide⟩,
   (body_test_passes_iff
      { status := 200, statusText := "OK", headers := some [],
        data := .obj [("msg", .str "say \"hi\""), ("tags", .arr [.num "1", .num "2.5"])],
        time := 5, size := 35 }
      "1" "" "equals" "[1,2.5]" true
      "\x7b\"msg\":\"say \\\"hi\\\"\",\"tags\":[1,2.5]\x7d" (by decide)).1.mpr
    ⟨"\x7b\"msg\":\"say \\\"hi\\\"\",\"tags\":".data, "\x7d".data, by decide⟩,
   fun h => absurd ((includesChars_iff _ _).mpr ((body_test_passes_iff
      { status := 200, statusText := "OK", headers := some [],
        data := .obj [("msg", .str "say \"hi\""), ("tags", .arr [.num "1", .num "2.5"])],
        time := 5, size := 35 }
      "1" "" "equals" "say \"hi\"" true
      "\x7b\"msg\":\"say \\\"hi\\\"\",\"tags\":[1,2.5]\x7d" (by decide)).1.mp h)) (by decide)⟩

theorem runTest_json_passed (r : Response) (id field operator value : String) (enabled : Bool) :
    (runTest r { id := id, type := "json", field := field, operator := operator,
                 value := value, enabled := enabled }).passed
      = (match jsToString (getNestedValue r.data field) with
         | .ok text => decide (text = value)
         | .error _ => false) := by
  cases h : jsToString (getNestedValue r.data field) <;> simp [runTest, evalCheck, h]

theorem lookupProp_eq_find (key : String) (ps : List (String × JsVal)) :
    lookupProp key ps = (ps.find? (fun p => p.1 = key)).map (fun p => p.2) := by
  induction ps with
  | nil => rfl
  | cons p ps ih =>
    obtain ⟨k, v⟩ := p
    by_cases hk : k = key
    · simp [lookupProp, hk]
    · simp [lookupProp, hk, ih]

theorem getProp_obj (ps : List (String × JsVal)) (key : String) :
    getProp (.obj ps) key = (lookupProp key ps).getD .undefined := rfl

theorem foldl_getProp_walk (keys : List String) :
    ∀ (v leaf : JsVal), walkObjects v keys = some leaf → keys.foldl getProp v = leaf := by
  induction keys with
  | nil =>
    intro v leaf h
    simp only [walkObjects, Option.some.injEq] at h
    exact h
  | cons key keys ih =>
    intro v leaf h
    cases v with
    | obj ps =>
      simp only [walkObjects] at h
      cases hl : ps.find? (fun p => p.1 = key) with
      | none => rw [hl] at h; cases h
      | some p =>
        rw [hl] at h
        simp only [List.foldl_cons, getProp_obj, lookupProp_eq_find, hl, Option.map_some',
          Option.getD_some]
        exact ih p.2 leaf h
    | undefined => simp [walkObjects] at h
    | null => simp [walkObjects] at h
    | bool b => simp [walkObjects] at h
    | num n => simp [walkObjects] at h
    | str t => simp [walkObjects] at h
    | arr xs => simp [walkObjects] at h

/-- C17: when the path of a `json` test leads, key by key through nested
objects, to the value `leaf`, the test passes exactly when `String(leaf)` is
the expected text, character for character; when `String(leaf)` raises, the
test fails with the error as its message.  The string form of a number is
its own (`1e+21`, `0.5`), of an array the forms of its elements between
commas with `null` and `undefined` empty, of an object `[object Object]`;
on an object with an own property `toString` the conversion raises. -/
theorem json_test_passes_iff (r : Response) (id field operator value : String) (enabled : Bool)
    (leaf : JsVal) (hpath : walkObjects r.data (split field) = some leaf) :
    ((runTest r { id := id, type := "json", field := field, operator := operator,
                  value := value, enabled := enabled }).passed = true
        ↔ jsToString leaf = .ok value)
    ∧ (∀ msg, jsToString leaf = .error msg →
        runTest r { id := id, type := "json", field := field, operator := operator,
                    value := value, enabled := enabled }
          = { test := { id := id, type := "json", field := field, operator := operator,
                        value := value, enabled := enabled },
              passed := false, message := "Error: " ++ msg })
    ∧ jsToString (.num "1e+21") = .ok "1e+21"
    ∧ jsToString (.num "0.5") = .ok "0.5"
    ∧ jsToString (.str " a ") = .ok " a "
    ∧ jsToString (.bool false) = .ok "false"
    ∧ jsToString (.bool true) = .ok "true"
    ∧ jsToString .null = .ok "null"
    ∧ jsToString (.arr [.num "1", .null, .arr [.str "a", .undefined, .bool true]]) = .ok "1,,a,,true"
    ∧ jsToString (.obj [("a", .num "1")]) = .ok "[object Object]"
    ∧ jsToString (.obj [("a", .num "1"), ("toString", .str "x")]) = .error primitiveMessage
    ∧ jsToString (.arr [.num "1", .obj [("toString", .null)]]) = .error primitiveMessage := by
  have hval : getNestedValue r.data field = leaf := foldl_getProp_walk _ _ _ hpath
  refine ⟨?_, ?_, rfl, rfl, rfl, rfl, rfl, rfl, rfl, rfl, rfl, rfl⟩
  · rw [runTest_json_passed, hval]
    cases h : jsToString leaf with
    | error msg => simp
    | ok text => simp
  · intro msg h
    simp [runTest, evalCheck, hval, h]

/-- C17 on a body with several members, read through properties that are not
the first: at the leaf `1` the expected text `1` passes, `1.0` and ` 1` fail;
at the leaf `1e+21` the expected text `1e+21` passes; at a leaf that is an
object with an own `toString` the expected text `[object Object]` fails. -/
theorem json_test_passes_iff_witness :
    ((runTest { status := 200, statusText := "OK", headers := some [],
                data := .obj [("meta", .null), ("user", .obj [("name", .str "Ada"),
                  ("id", .num "1"), ("big", .num "1e+21"),
                  ("odd", .obj [("toString", .num "1")])])],
                time := 5, size := 75 }
        { id := "1", type := "json", field := "user.id", operator := "equals",
          value := "1", enabled := true }).passed = true)
    ∧ ((runTest { status := 200, statusText := "OK", headers := some [],
                  data := .obj [("meta", .null), ("user", .obj [("name", .str "Ada"),
                    ("id", .num "1"), ("big", .num "1e+21"),
                    ("odd", .obj [("toString", .num "1")])])],
                  time := 5, size := 75 }
        { id := "1", type := "json", field := "user.id", operator := "equals",
          value := "1.0", enabled := true }).passed ≠ true)
    ∧ ((runTest { status := 200, statusText := "OK", headers := some [],
                  data := .obj [("meta", .null), ("user", .obj [("name", .str "Ada"),
                    ("id", .num "1"), ("big", .num "1e+21"),
                    ("odd", .obj [("toString", .num "1")])])],
                  time := 5, size := 75 }
        { id := "1", type := "json", field := "user.id", operator := "equals",
          value := " 1", enabled := true }).passed ≠ true)
    ∧ ((runTest { status := 200, statusText := "OK", headers := some [],
                  data := .obj [("meta", .null), ("user", .obj [("name", .str "Ada"),
                    ("id", .num "1"), ("big", .num "1e+21"),
                    ("odd", .obj [("toString", .num "1")])])],
                  time := 5, size := 75 }
        { id := "1", type := "json", field := "user.big", operator := "equals",
          value := "1e+21", enabled := true }).passed = true)
    ∧ ((runTest { status := 200, statusText := "OK", headers := some [],
                  data := .obj [("meta", .null), ("user", .obj [("name", .str "Ada"),
                    ("id", .num "1"), ("big", .num "1e+21"),
                    ("odd", .obj [("toString", .num "1")])])],
                  time := 5, size := 75 }
        { id := "1", type := "json", field := "user.odd", operator := "equals",
          value := "[object Object]", enabled := true })
        = { test := { id := "1", type := "json", field := "user.odd", operator := "equals",
                      value := "[object Object]", enabled := true },
            passed := false, message := "Error: Cannot convert object to primitive value" }) :=
  ⟨(json_test_passes_iff
      { status := 200, statusText := "OK", headers := some [],
        data := .obj [("meta", .null), ("user", .obj [("name", .str "Ada"),
          ("id", .num "1"), ("big", .num "1e+21"), ("odd", .obj [("toString", .num "1")])])],
        time := 5, size := 75 }
      "1" "user.id" "equals" "1" true (.num "1") rfl).1.mpr rfl,
   fun h => absurd ((json_test_passes_iff
      { status := 200, statusText := "OK", headers := some [],
        data := .obj [("meta", .null), ("user", .obj [("name", .str "Ada"),
          ("id", .num "1"), ("big", .num "1e+21"), ("odd", .obj [("toString", .num "1")])])],
        time := 5, size := 75 }
      "1" "user.id" "equals" "1.0" true (.num "1") rfl).1.mp h) (by simp [jsToString]),
   fun h => absurd ((json_test_passes_iff
      { status := 200, statusText := "OK", headers := some [],
        data := .obj [("meta", .null), ("user", .obj [("name", .str "Ada"),
          ("id", .num "1"), ("big", .num "1e+21"), ("odd", .obj [("toString", .num "1")])])],
        time := 5, size := 75 }
      "1" "user.id" "equals" " 1" true (.num "1") rfl).1.mp h) (by simp [jsToString]),
   (json_test_passes_iff
      { status := 200, statusText := "OK", headers := some [],
        data := .obj [("meta", .null), ("user", .obj [("name", .str "Ada"),
          ("id", .num "1"), ("big", .num "1e+21"), ("odd", .obj [("toString", .num "1")])])],
        time := 5, size := 75 }
      "1" "user.big" "equals" "1e+21" true (.num "1e+21") rfl).1.mpr rfl,
   (json_test_passes_iff
      { status := 200, statusText := "OK", headers := some [],
        data := .obj [("meta", .null), ("user", .obj [("name", .str "Ada"),
          ("id", .num "1"), ("big", .num "1e+21"), ("odd", .obj [("toString", .num "1")])])],
        time := 5, size := 75 }
      "1" "user.odd" "equals" "[object Object]" true (.obj [("toString", .num "1")])
      rfl).2.1 primitiveMessage rfl⟩

theorem foldl_getProp_undefined (keys : List String) :
    keys.foldl getProp .undefined = .undefined := by
  induction keys with
  | nil => rfl
  | cons key keys ih => exact ih

theorem foldl_getProp_nothing (keys : List String) :
    ∀ v : JsVal, hitsNothing v keys = true → keys.foldl getProp v = .undefined := by
  induction keys with
  | nil => intro v h; simp [hitsNothing] at h
  | cons key keys ih =>
    intro v h
    cases v with
    | obj ps =>
      simp only [hitsNothing] at h
      simp only [List.foldl_cons, getProp_obj, lookupProp_eq_find]
      cases hl : ps.find? (fun p => p.1 = key) with
      | none => exact foldl_getProp_undefined keys
      | some p =>
        rw [hl] at h
        exact ih p.2 h
    | undefined => exact foldl_getProp_undefined keys
    | null => exact foldl_getProp_undefined keys
    | bool b => exact foldl_getProp_undefined keys
    | num n => exact foldl_getProp_undefined keys
    | str t => simp [hitsNothing] at h
    | arr xs => simp [hitsNothing] at h

/-- C18, amended: when the path of a `json` test asks an object for a key it
neither has nor inherits, or steps from `undefined` or `null`, or from a
boolean or a number with a key they do not inherit, the value read is
`undefined` and the test passes exactly when the expected text is
`undefined`: it fails, with the message `Expected …, got undefined`, for
every other expected text. -/
theorem json_test_unresolved (r : Response) (id field operator value : String) (enabled : Bool)
    (hpath : hitsNothing r.data (split field) = true) :
    getNestedValue r.data field = .undefined
    ∧ ((runTest r { id := id, type := "json", field := field, operator := operator,
                    value := value, enabled := enabled }).passed = true
        ↔ value = "undefined")
    ∧ (value ≠ "undefined" →
        runTest r { id := id, type := "json", field := field, operator := operator,
                    value := value, enabled := enabled }
          = { test := { id := id, type := "json", field := field, operator := operator,
                        value := value, enabled := enabled },
              passed := false, message := "Expected " ++ value ++ ", got undefined" }) := by
  have hval : getNestedValue r.data field = .undefined := foldl_getProp_nothing _ _ hpath
  refine ⟨hval, ?_, ?_⟩
  · rw [runTest_json_passed, hval]
    simp [jsToString, eq_comm]
  · intro hne
    have hne2 : ¬ ("undefined" = value) := fun h => hne h.symm
    simp [runTest, evalCheck, hval, jsToString, hne2]
    rw [String.append_assoc]
    rfl

/-- C18 at a path through a missing key, with the expected text `Ada`, and at
a path stepping from a number with the expected text `1`. -/
theorem json_test_unresolved_witness :
    ((runTest { status := 200, statusText := "OK", headers := some [],
                data := .obj [("meta", .null), ("user", .obj [("id", .num "1")])],
                time := 5, size := 29 }
        { id := "1", type := "json", field := "user.name.first", operator := "equals",
          value := "Ada", enabled := true }).passed ≠ true)
    ∧ ((runTest { status := 200, statusText := "OK", headers := some [],
                  data := .obj [("meta", .null), ("user", .obj [("id", .num "1")])],
                  time := 5, size := 29 }
        { id := "1", type := "json", field := "user.id.value", operator := "equals",
          value := "1", enabled := true })
        = { test := { id := "1", type := "json", field := "user.id.value", operator := "equals",
                      value := "1", enabled := true },
            passed := false, message := "Expected 1, got undefined" }) :=
  ⟨fun h => absurd ((json_test_unresolved
      { status := 200, statusText := "OK", headers := some [],
        data := .obj [("meta", .null), ("user", .obj [("id", .num "1")])], time := 5, size := 29 }
      "1" "user.name.first" "equals" "Ada" true (by decide)).2.1.mp h) (by decide),
   (json_test_unresolved
      { status := 200, statusText := "OK", headers := some [],
        data := .obj [("meta", .null), ("user", .obj [("id", .num "1")])], time := 5, size := 29 }
      "1" "user.id.value" "equals" "1" true (by decide)).2.2 (by decide)⟩

/-- C18 as first stated fails twice: a path with a missing key passes for the
expected text `undefined`, and a path stepping from a string reads its
`length` and passes for the expected text `3`. -/
theorem json_test_unresolved_counterexample :
    walkObjects (.obj [("user", .obj [("id", .num "1")])]) (split "user.name") = none
    ∧ (runTest { status := 200, statusText := "OK", headers := some [],
                 data := .obj [("user", .obj [("id", .num "1")])], time := 5, size := 17 }
        { id := "1", type := "json", field := "user.name", operator := "equals",
          value := "undefined", enabled := true }).passed = true
    ∧ walkObjects (.obj [("name", .str "Ada")]) (split "name.length") = none
    ∧ (runTest { status := 200, statusText := "OK", headers := some [],
                 data := .obj [("name", .str "Ada")], time := 5, size := 14 }
        { id := "1", type := "json", field := "name.length", operator := "equals",
          value := "3", enabled := true }).passed = true := by
  exact ⟨rfl, rfl, rfl, rfl⟩

theorem runTest_time_passed (r : Response) (id field operator value : String) (enabled : Bool) :
    (runTest r { id := id, type := "time", field := field, operator := operator,
                 value := value, enabled := enabled }).passed
      = (match parseInt value with
         | some m => decide (r.time ≤ m)
         | none => false) := by
  simp [runTest, evalCheck]

/-- C19: a `time` test passes exactly when `parseInt` of its expected text is a
number and the elapsed time is at most that number; a test that passes with
one bound passes with every bound at least as large.  With 120 ms elapsed the
bound `200` passes, the bound `100` and a text that is no number fail. -/
theorem time_test_passes_iff (r : Response) (id field operator value : String) (enabled : Bool) :
    ((runTest r { id := id, type := "time", field := field, operator := operator,
                  value := value, enabled := enabled }).passed = true
        ↔ ∃ m, parseInt value = some m ∧ r.time ≤ m)
    ∧ (∀ (wider : String) (b c : Int), parseInt value = some b → parseInt wider = some c →
        b ≤ c →
        (runTest r { id := id, type := "time", field := field, operator := operator,
                     value := value, enabled := enabled }).passed = true →
        (runTest r { id := id, type := "time", field := field, operator := operator,
                     value := wider, enabled := enabled }).passed = true)
    ∧ (runTest { r with time := 120 }
        { id := id, type := "time", field := field, operator := operator,
          value := "200", enabled := enabled }).passed = true
    ∧ (runTest { r with time := 120 }
        { id := id, type := "time", field := field, operator := operator,
          value := "100", enabled := enabled }).passed = false
    ∧ (runTest { r with time := 120 }
        { id := id, type := "time", field := field, operator := operator,
          value := "fast", enabled := enabled }).passed = false := by
  have hiff : ∀ v : String, (runTest r ⟨id, "time", field, operator, v, enabled⟩).passed = true
      ↔ ∃ m, parseInt v = some m ∧ r.time ≤ m := by
    intro v
    rw [runTest_time_passed]
    cases hp : parseInt v with
    | none => simp
    | some m => simp
  refine ⟨hiff value, ?_, ?_, ?_, ?_⟩
  · intro wider b c hb hc hbc hpass
    obtain ⟨m, hm, hle⟩ := (hiff value).mp hpass
    rw [hb] at hm
    cases hm
    exact (hiff wider).mpr ⟨c, hc, le_trans hle hbc⟩
  · rw [runTest_time_passed]
    have h : parseInt "200" = some 200 := by decide
    simp [h]
  · rw [runTest_time_passed]
    have h : parseInt "100" = some 100 := by decide
    simp [h]
  · rw [runTest_time_passed]
    have h : parseInt "fast" = none := by decide
    simp [h]

/-! ## Request executor: headers and query parameters -/

theorem setHeader_keys (hs : List (String × String)) (key value k : String) :
    (∃ p ∈ setHeader hs key value, p.1 = k)
      ↔ (∃ p ∈ hs, p.1 = k) ∨ (k = key ∧ key ≠ "__proto__") := by
  unfold setHeader
  by_cases hproto : key = "__proto__"
  · rw [if_pos hproto]
    constructor
    · exact Or.inl
    · rintro (h | ⟨_, h⟩)
      · exact h
      · exact absurd hproto h
  · rw [if_neg hproto]
    by_cases hany : hs.any (fun p => p.1 = key) = true
    · rw [if_pos hany]
      have hex : ∃ p ∈ hs, p.1 = key := by
        simpa using hany
      constructor
      · rintro ⟨p, hp, hk⟩
        left
        simp only [List.mem_map] at hp
        obtain ⟨q, hq, hqp⟩ := hp
        by_cases hqk : q.1 = key
        · rw [if_pos hqk] at hqp
          refine ⟨q, hq, ?_⟩
          rw [← hk, ← hqp]; exact hqk
        · rw [if_neg hqk] at hqp
          exact ⟨q, hq, by rw [← hk, ← hqp]⟩
      · rintro (⟨q, hq, hk⟩ | ⟨hk, _⟩)
        · by_cases hqk : q.1 = key
          · refine ⟨(key, value), ?_, ?_⟩
            · simp only [List.mem_map]
              exact ⟨q, hq, by rw [if_pos hqk]⟩
            · show key = k
              rw [← hqk, hk]
          · refine ⟨q, ?_, hk⟩
            simp only [List.mem_map]
            exact ⟨q, hq, by rw [if_neg hqk]⟩
        · obtain ⟨q, hq, hqk⟩ := hex
          refine ⟨(key, value), ?_, hk.symm⟩
          simp only [List.mem_map]
          exact ⟨q, hq, by rw [if_pos hqk]⟩
    · rw [if_neg hany]
      simp only [List.mem_append, List.mem_singleton]
      constructor
      · rintro ⟨p, hp | hp, hk⟩
        · exact Or.inl ⟨p, hp, hk⟩
        · right
          rw [hp] at hk
          exact ⟨hk.symm, hproto⟩
      · rintro (⟨p, hp, hk⟩ | ⟨hk, _⟩)
        · exact ⟨p, Or.inl hp, hk⟩
        · exact ⟨(key, value), Or.inr rfl, hk.symm⟩

theorem foldl_headers_keys (headers : List Variable) (k : String) (hk : k ≠ "__proto__") :
    ∀ acc : List (String × String),
      (∃ p ∈ headers.foldl (fun hs h => if h.enabled then setHeader hs h.key h.value else hs) acc,
          p.1 = k)
        ↔ (∃ p ∈ acc, p.1 = k) ∨ ∃ h ∈ headers, h.enabled = true ∧ h.key = k := by
  induction headers with
  | nil => intro acc; simp
  | cons h headers ih =>
    intro acc
    rw [List.foldl_cons, ih]
    cases he : h.enabled with
    | false =>
      simp [he]
    | true =>
      simp only [if_true, setHeader_keys, List.mem_cons, exists_eq_or_imp, he, true_and]
      constructor
      · rintro ((h1 | ⟨h1, _⟩) | h1)
        · exact Or.inl h1
        · exact Or.inr (Or.inl h1.symm)
        · exact Or.inr (Or.inr h1)
      · rintro (h1 | h1 | h1)
        · exact Or.inl (Or.inl h1)
        · exact Or.inl (Or.inr ⟨h1.symm, by rw [h1]; exact hk⟩)
        · exact Or.inr h1

theorem foldl_headers_filter (headers : List Variable) :
    ∀ acc : List (String × String),
      (headers.filter (fun h => h.enabled)).foldl
          (fun hs h => if h.enabled then setHeader hs h.key h.value else hs) acc
        = headers.foldl (fun hs h => if h.enabled then setHeader hs h.key h.value else hs) acc := by
  induction headers with
  | nil => intro acc; rfl
  | cons h headers ih =>
    intro acc
    cases he : h.enabled with
    | false => simp [List.filter_cons, he, ih]
    | true => simp [List.filter_cons, he, ih]

/-- The call `executeRequest` issues carries the configuration of `buildConfig`. -/
theorem executeRequest_sent_config (P : Platform) (W : World) (s : Store) (req : Request)
    (config : AxiosConfig) (hreq : s.selectedRequest = some req)
    (hsent : (executeRequest P W s).sent = some config) :
    buildConfig P s req = .ok config := by
  unfold executeRequest at hsent
  rw [hreq] at hsent
  simp only at hsent
  cases hb : buildConfig P s req with
  | error msg => rw [hb] at hsent; simp at hsent
  | ok built =>
    rw [hb] at hsent
    simp only at hsent
    cases ho : W.outbound built with
    | error msg =>
      rw [ho] at hsent
      simp only [Option.some.injEq] at hsent
      rw [hsent]
    | ok reply =>
      rw [ho] at hsent
      simp only at hsent
      cases hr : responseData W reply with
      | error msg =>
        rw [hr] at hsent
        simp only [Option.some.injEq] at hsent
        rw [hsent]
      | ok response =>
        rw [hr] at hsent
        simp only at hsent
        cases hh : W.history (historyEntry W req built reply) with
        | error msg =>
          rw [hh] at hsent
          simp only [Option.some.injEq] at hsent
          rw [hsent]
        | ok u =>
          rw [hh] at hsent
          simp only [Option.some.injEq] at hsent
          rw [hsent]

/-- For every key other than `__proto__`, the header map sent has the key
exactly when an enabled header has it; disabled headers and parameters do not
contribute; the query string is built from the enabled parameters in list
order; the call of `executeRequest` carries these headers and this query, the
MCP tool these headers and the stored URL. -/
theorem enabled_rows_sent (headers params : List Variable) :
    (∀ k : String, k ≠ "__proto__" →
        ((∃ p ∈ buildHeaders headers, p.1 = k) ↔ ∃ h ∈ headers, h.enabled = true ∧ h.key = k))
    ∧ buildHeaders headers = buildHeaders (headers.filter (fun h => h.enabled))
    ∧ buildParams params = buildParams (params.filter (fun p => p.enabled))
    ∧ buildParams params = (params.filter (fun p => p.enabled)).map (fun p => (p.key, p.value))
    ∧ (∀ (P : Platform) (W : World) (s : Store) (req : Request) (config : AxiosConfig),
        s.selectedRequest = some req → req.headers = headers → req.params = params →
        (executeRequest P W s).sent = some config →
          config.headers = buildHeaders headers
          ∧ ∃ url, resolveUrl P s req.url = .ok url
              ∧ config.url = appendQuery url (buildParams params))
    ∧ (∀ (P : Platform) (req : Request), req.headers = headers →
        (mcpConfig P req).headers = buildHeaders headers ∧ (mcpConfig P req).url = req.url) := by
  refine ⟨?_, ?_, ?_, rfl, ?_, ?_⟩
  · intro k hk
    rw [buildHeaders, foldl_headers_keys headers k hk]
    simp
  · rw [buildHeaders, buildHeaders, foldl_headers_filter]
  · simp [buildParams, List.filter_filter]
  · intro P W s req config hreq hh hp hsent
    have hb := executeRequest_sent_config P W s req config hreq hsent
    unfold buildConfig at hb
    cases hu : resolveUrl P s req.url with
    | error msg => rw [hu] at hb; simp at hb
    | ok url =>
      rw [hu] at hb
      simp only [Except.ok.injEq] at hb
      rw [← hb, ← hh, ← hp]
      exact ⟨rfl, url, rfl, rfl⟩
  · intro P req hh
    rw [← hh]
    exact ⟨rfl, rfl⟩

/-- C20, at the failing input: an enabled header with the key `__proto__` is not
in the header map sent, because the assignment to that key of an object
creates no property. -/
theorem proto_header_dropped :
    buildHeaders [{ key := "__proto__", value := "x", enabled := true },
                  { key := "Accept", value := "text/plain", enabled := true },
                  { key := "X-Debug", value := "1", enabled := false }]
      = [("Accept", "text/plain")] := by
  decide

/-! ## Collaboration relay: duplicate entries, absent rooms and other rooms -/

/-- C22, at the failing input: the same connection joins the same room twice
with the same name, and the session holds two entries for it, because each
`add` puts a new object in the set. -/
theorem join_twice_two_entries :
    sessionsGet
        (runEvents Server.empty
          [.connect "c1", .join "c1" "r" "alice", .join "c1" "r" "alice"]).sessions "r"
      = some [{ id := "c1", username := "alice" }, { id := "c1", username := "alice" }] := by
  decide

/-- C23: `leave(r, c)` for a resource without a session leaves the map of
sessions as it is and creates no session; the `user-left` message it emits
carries the empty list and goes to the connections socket.io has in the room
of that name. -/
theorem leave_absent_room (s : Server) (conn requestId : String)
    (habsent : sessionsGet s.sessions requestId = none) :
    (leaveSession s conn requestId).1.sessions = s.sessions
    ∧ sessionsHas (leaveSession s conn requestId).1.sessions requestId = false
    ∧ (leaveSession s conn requestId).2
      = ioTo (socketLeave s.joined conn requestId) requestId (.userLeft conn []) := by
  have hs : (leaveSession s conn requestId).1.sessions = s.sessions := by
    simp only [leaveSession, habsent]
  refine ⟨hs, ?_, ?_⟩
  · rw [hs]
    exact (sessionsGet_eq_none_iff _ _).mp habsent
  · simp only [leaveSession, habsent, Option.getD_none]

/-- C23 at a room that was never created: the sessions stay, nothing is
delivered. -/
theorem leave_absent_room_witness :
    (leaveSession
        (runEvents Server.empty [.connect "c1", .connect "c2", .join "c2" "r" "bob"])
        "c1" "gone").1.sessions
      = [("r", [{ id := "c2", username := "bob" }])]
    ∧ (leaveSession
        (runEvents Server.empty [.connect "c1", .connect "c2", .join "c2" "r" "bob"])
        "c1" "gone").2 = [] :=
  ⟨(leave_absent_room
      (runEvents Server.empty [.connect "c1", .connect "c2", .join "c2" "r" "bob"])
      "c1" "gone" (by decide)).1,
   (leave_absent_room
      (runEvents Server.empty [.connect "c1", .connect "c2", .join "c2" "r" "bob"])
      "c1" "gone" (by decide)).2.2⟩

theorem find_map_other (requestId other : String) (users : List User) (hne : other ≠ requestId) :
    ∀ ps : List (String × List User),
      (ps.map (fun p => if p.1 = requestId then (requestId, users) else p)).find?
          (fun p => decide (p.1 = other)) = ps.find? (fun p => decide (p.1 = other)) := by
  intro ps
  induction ps with
  | nil => rfl
  | cons p ps ih =>
    by_cases h : p.1 = requestId
    · have hd : decide (p.1 = other) = false := by
        simp only [decide_eq_false_iff_not]
        intro e; exact hne (by rw [← e, h])
      have hd2 : decide ((requestId, users).1 = other) = false := by
        simp only [decide_eq_false_iff_not]
        exact fun e => hne e.symm
      rw [List.map_cons, if_pos h, List.find?_cons, hd2, List.find?_cons, hd]
      exact ih
    · rw [List.map_cons, if_neg h, List.find?_cons, List.find?_cons, ih]

theorem sessionsGet_sessionsSet_ne (sessions : List (String × List User))
    (requestId other : String) (users : List User) (hne : other ≠ requestId) :
    sessionsGet (sessionsSet sessions requestId users) other = sessionsGet sessions other := by
  unfold sessionsSet
  by_cases hh : sessionsHas sessions requestId = true
  · rw [if_pos hh, sessionsGet, find_map_other requestId other users hne]
    rfl
  · rw [if_neg hh]
    have hd : decide ((requestId, users).1 = other) = false := by
      simp only [decide_eq_false_iff_not]
      exact fun e => hne e.symm
    simp only [sessionsGet, List.find?_append, List.find?_cons, hd, List.find?_nil]
    cases sessions.find? (fun p => decide (p.1 = other)) <;> rfl

theorem sessionsGet_sessionsDelete_ne (sessions : List (String × List User))
    (requestId other : String) (hne : other ≠ requestId) :
    sessionsGet (sessionsDelete sessions requestId) other = sessionsGet sessions other := by
  induction sessions with
  | nil => rfl
  | cons p ps ih =>
    simp only [sessionsGet, sessionsDelete] at ih ⊢
    by_cases h : p.1 = requestId
    · have hd : decide (p.1 ≠ requestId) = false := by simp [h]
      have hd2 : decide (p.1 = other) = false := by
        simp only [decide_eq_false_iff_not]
        intro e; exact hne (by rw [← e, h])
      rw [List.filter_cons, hd, List.find?_cons, hd2]
      exact ih
    · have hd : decide (p.1 ≠ requestId) = true := by simp [h]
      rw [List.filter_cons, hd]
      simp only [if_true, List.find?_cons]
      cases decide (p.1 = other) with
      | true => rfl
      | false => exact ih

theorem members_socketJoin_ne (joined : List (String × String)) (conn room other : String)
    (hne : other ≠ room) :
    members (socketJoin joined conn room) other = members joined other := by
  unfold socketJoin
  by_cases h : joined.contains (room, conn) = true
  · rw [if_pos h]
  · rw [if_neg h]
    have hd : decide ((room, conn).1 = other) = false := by
      simp only [decide_eq_false_iff_not]
      exact fun e => hne e.symm
    simp only [members, List.filter_append, List.filter_cons, hd, List.filter_nil,
      List.append_nil, Bool.false_eq_true, if_false]

theorem members_socketLeave_ne (joined : List (String × String)) (conn room other : String)
    (hne : other ≠ room) :
    members (socketLeave joined conn room) other = members joined other := by
  simp only [members, socketLeave, List.filter_filter]
  congr 1
  apply List.filter_congr
  intro p _
  by_cases h1 : p.1 = other
  · have h2 : p.1 ≠ room := fun e => hne (by rw [← h1, e])
    simp [h1, h2, hne]
  · simp [h1]

/-- C29: `join(r, c, name)` and `leave(r, c)` leave the session and the room of
every other resource as they are; `request-update` and `cursor-position`
leave the whole state as it is. -/
theorem other_rooms_unchanged (s : Server) (conn requestId other username : String)
    (data field position : JsVal) (hne : other ≠ requestId) :
    sessionsGet (joinSession s conn requestId username).1.sessions other
      = sessionsGet s.sessions other
    ∧ members (joinSession s conn requestId username).1.joined other = members s.joined other
    ∧ sessionsGet (leaveSession s conn requestId).1.sessions other = sessionsGet s.sessions other
    ∧ members (leaveSession s conn requestId).1.joined other = members s.joined other
    ∧ (requestUpdate s conn requestId data).1 = s
    ∧ (cursorPosition s conn requestId field position).1 = s := by
  refine ⟨?_, ?_, ?_, ?_, rfl, rfl⟩
  · simp only [joinSession]
    rw [sessionsGet_sessionsSet_ne _ _ _ _ hne]
    by_cases hh : sessionsHas s.sessions requestId = true
    · rw [if_pos hh]
    · rw [if_neg hh, sessionsGet_sessionsSet_ne _ _ _ _ hne]
  · exact members_socketJoin_ne _ _ _ _ hne
  · cases hg : sessionsGet s.sessions requestId with
    | none => simp only [leaveSession, hg]
    | some users =>
      simp only [leaveSession, hg]
      by_cases hz : (users.filter (fun u => u.id ≠ conn)).length = 0
      · rw [if_pos hz, sessionsGet_sessionsDelete_ne _ _ _ hne]
      · rw [if_neg hz, sessionsGet_sessionsSet_ne _ _ _ _ hne]
  · exact members_socketLeave_ne _ _ _ _ hne

/-- C29 at the rooms `a` and `b`: joining or leaving `b` keeps the session of `a`. -/
theorem other_rooms_unchanged_witness :
    sessionsGet
        (joinSession (runEvents Server.empty [.connect "c1", .join "c1" "a" "alice"])
          "c2" "b" "bob").1.sessions "a"
      = some [{ id := "c1", username := "alice" }]
    ∧ sessionsGet
        (leaveSession (runEvents Server.empty [.connect "c1", .join "c1" "a" "alice"])
          "c1" "b").1.sessions "a"
      = some [{ id := "c1", username := "alice" }] :=
  ⟨(other_rooms_unchanged (runEvents Server.empty [.connect "c1", .join "c1" "a" "alice"])
      "c2" "b" "a" "bob" .null .null .null (by decide)).1,
   (other_rooms_unchanged (runEvents Server.empty [.connect "c1", .join "c1" "a" "alice"])
      "c1" "b" "a" "bob" .null .null .null (by decide)).2.2.1⟩

/-! ## Resolver without placeholders, sizes and overlapping executions -/

/-- C21, at the failing input: the template has no placeholder, and the variable
with the key `1` replaces the text `{}` in it, because the pattern built from
that key is one opening brace and one closing brace. -/
theorem resolve_digit_key_replaces_braces :
    resolve "http://api.test/items?filter=\x7b\x7d" [⟨"1", "none", true⟩]
      = some "http://api.test/items?filter=none" := by
  decide

/-- With plain keys a template without an opening brace is returned as it is,
whatever the values. -/
theorem resolve_without_placeholder (t : List Char) (ht : ∀ c ∈ t, c ≠ lbrace)
    (vars : List Variable) (hvars : ∀ v ∈ vars, v.enabled = true → plainKey v.key.data = true) :
    resolve (String.mk t) vars = some (String.mk t) := by
  induction vars with
  | nil => rfl
  | cons v vars ih =>
    have ih := ih (fun w hw => hvars w (by simp [hw]))
    cases he : v.enabled with
    | false => simpa [resolve, applyVariables, he] using ih
    | true =>
      have hk := hvars v (by simp) he
      have hwf : ∀ seg ∈ [Seg.text t], seg.wellFormed = true := by
        intro seg hseg
        simp only [List.mem_singleton] at hseg
        rw [hseg]
        simp only [Seg.wellFormed, List.all_eq_true]
        intro c hc
        simpa using ht c hc
      have hstep : regexReplace v.key v.value (String.mk t) = some (String.mk t) := by
        have h1 := regexReplace_plain v.key.data v.value.data t hk
        have h2 := replaceScan_render_absent v.key.data
          (fun c hc => (plainKey_braces v.key.data hk c hc).2) v.value.data [Seg.text t] hwf
          (by simp) []
        simp only [render, List.append_nil] at h2
        rw [replaceAll, h2] at h1
        exact h1
      simpa [resolve, applyVariables, he, hstep] using ih

/-- C26, at the failing input: the body is the text `é`; its serialisation has
three characters and four bytes, and the size of the response is 3. -/
theorem size_counts_code_units :
    (executeRequest examplePlatform (answeringWorld (.str "é"))
        (exampleStore (exampleRequest "GET" "http://api.test/name" ""))).shown
      = some { status := 200, statusText := "OK", headers := some [], data := .str "é",
               time := 42, size := 3 }
    ∧ jsonStringify (.str "é") = some "\"é\""
    ∧ byteLength "\"é\"" = 4 := by
  refine ⟨rfl, rfl, ?_⟩
  decide

/-- C25, amended: the Send button starts nothing while `loading` is set and
starts `executeRequest` otherwise; `executeRequest` itself does not read
`loading`: invoked while the flag is set it issues its outbound call and,
when the call is answered and the body serialises, posts its summary.  While
that post is awaited `loading` is cleared already, so the button is enabled
and a click starts another execution, which issues its outbound call. -/
theorem send_disabled_while_loading (P : Platform) (W : World) (s : Store) (req : Request)
    (config : AxiosConfig)
    (hreq : s.selectedRequest = some req)
    (hconfig : buildConfig P s req = .ok config) :
    (s.loading = true → sendButton P W s = none)
    ∧ (s.loading = false → sendButton P W s = some (executeRequest P W s))
    ∧ (executeRequest P W { s with loading := true }).sent = some config
    ∧ (∀ (reply : AxiosReply) (text : String), W.outbound config = .ok reply →
        jsonStringify reply.data = some text →
        (executeRequest P W { s with loading := true }).recorded
            = some (historyEntry W req config reply)
        ∧ ∃ st, storeDuringHistoryPost P W s = some st
            ∧ st.loading = false ∧ st.selectedRequest = some req
            ∧ ∀ W2 : World, sendButton P W2 st = some (executeRequest P W2 st)
                ∧ (executeRequest P W2 st).sent = some config) := by
  obtain ⟨sel, env, envs, resp, load⟩ := s
  simp only at hreq
  subst hreq
  have hb : ∀ (r2 : Option Response) (l2 : Bool),
      buildConfig P ⟨some req, env, envs, r2, l2⟩ req = .ok config := fun _ _ => hconfig
  have hsent : ∀ (W2 : World) (r2 : Option Response) (l2 : Bool),
      (executeRequest P W2 ⟨some req, env, envs, r2, l2⟩).sent = some config := by
    intro W2 r2 l2
    simp only [executeRequest, hb]
    cases W2.outbound config with
    | error msg => rfl
    | ok reply =>
      simp only
      cases responseData W2 reply with
      | error msg => rfl
      | ok response =>
        simp only
        cases W2.history _ <;> rfl
  refine ⟨?_, ?_, hsent W resp true, ?_⟩
  · intro h
    have h2 : load = true := h
    simp [sendButton, h2]
  · intro h
    have h2 : load = false := h
    simp [sendButton, h2]
  · intro reply text hreply htext
    have hrec : ∀ l2 : Bool, (executeRequest P W ⟨some req, env, envs, resp, l2⟩).recorded
        = some (historyEntry W req config reply) := by
      intro l2
      simp only [executeRequest, hb, hreply, responseData, htext]
      cases W.history _ <;> rfl
    have hshown : (executeRequest P W ⟨some req, env, envs, resp, load⟩).shown
        = some { status := reply.status, statusText := reply.statusText,
                 headers := some reply.headers, data := reply.data,
                 time := W.endTime - W.startTime, size := utf16Length text } := by
      simp only [executeRequest, hb, hreply, responseData, htext]
      cases W.history _ <;> rfl
    refine ⟨hrec true, ⟨some req, env, envs,
      some { status := reply.status, statusText := reply.statusText,
             headers := some reply.headers, data := reply.data,
             time := W.endTime - W.startTime, size := utf16Length text }, false⟩, ?_, rfl, rfl, ?_⟩
    · simp only [storeDuringHistoryPost, hrec load, hshown]
    · intro W2
      exact ⟨by simp [sendButton], hsent W2 _ false⟩

/-- C25 at a `GET` that is answered: invoked with `loading` set,
`executeRequest` issues the call and posts its summary; while the post is
awaited `loading` is cleared, and a click on the Send button issues the call
once more. -/
theorem send_disabled_while_loading_witness :
    (executeRequest examplePlatform (answeringWorld (.obj []))
        { exampleStore (exampleRequest "GET" "http://api.test/users" "") with
          loading := true }).sent
      = some { method := "get", url := "http://api.test/users", headers := [], data := none }
    ∧ (executeRequest examplePlatform (answeringWorld (.obj []))
        { exampleStore (exampleRequest "GET" "http://api.test/users" "") with
          loading := true }).recorded
      = some { request_id := "r1", method := "GET", url := "http://api.test/users",
               status := 200, response_time := 42, response_body := some "\x7b\x7d",
               response_headers := [] }
    ∧ ∃ st, storeDuringHistoryPost examplePlatform (answeringWorld (.obj []))
          (exampleStore (exampleRequest "GET" "http://api.test/users" "")) = some st
        ∧ st.loading = false
        ∧ ((sendButton examplePlatform (answeringWorld (.obj [])) st).bind (fun run => run.sent))
          = some { method := "get", url := "http://api.test/users", headers := [], data := none } :=
  ⟨(send_disabled_while_loading examplePlatform (answeringWorld (.obj []))
      (exampleStore (exampleRequest "GET" "http://api.test/users" ""))
      (exampleRequest "GET" "http://api.test/users" "")
      { method := "get", url := "http://api.test/users", headers := [], data := none }
      rfl rfl).2.2.1,
   ((send_disabled_while_loading examplePlatform (answeringWorld (.obj []))
      (exampleStore (exampleRequest "GET" "http://api.test/users" ""))
      (exampleRequest "GET" "http://api.test/users" "")
      { method := "get", url := "http://api.test/users", headers := [], data := none }
      rfl rfl).2.2.2
      { status := 200, statusText := "OK", headers := [], data := .obj [] } "\x7b\x7d"
      rfl rfl).1,
   ⟨{ exampleStore (exampleRequest "GET" "http://api.test/users" "") with
        response := some { status := 200, statusText := "OK", headers := some [],
                           data := .obj [], time := 42, size := 2 },
        loading := false }, rfl, rfl, rfl⟩⟩

/-- C25 as first stated fails: `executeRequest` invoked while `loading` is set
issues its outbound call and posts its summary. -/
theorem overlapping_execution_counterexample :
    ((executeRequest examplePlatform (answeringWorld (.obj []))
        { exampleStore (exampleRequest "GET" "http://api.test/users" "") with
          loading := true }).sent.map (fun c => c.url))
      = some "http://api.test/users"
    ∧ ((executeRequest examplePlatform (answeringWorld (.obj []))
        { exampleStore (exampleRequest "GET" "http://api.test/users" "") with
          loading := true }).recorded.map (fun h => h.request_id))
      = some "r1" := by
  exact ⟨rfl, rfl⟩

/-! ## Array indices in paths and the history summary -/

theorem splitDot_ne_nil (b : List Char) : splitDot b ≠ [] := by
  cases b with
  | nil => simp [splitDot]
  | cons c b =>
    rw [splitDot]
    cases splitDot b with
    | nil => by_cases h : c = '.' <;> simp [h]
    | cons p ps => by_cases h : c = '.' <;> simp [h]

theorem splitDot_no_dot (b : List Char) (hb : ∀ c ∈ b, c ≠ '.') : splitDot b = [b] := by
  induction b with
  | nil => rfl
  | cons c b ih =>
    have hc : c ≠ '.' := hb c (by simp)
    rw [splitDot, ih (fun d hd => hb d (by simp [hd]))]
    simp [hc]

theorem splitDot_append_dot (a b : List Char) (ha : ∀ c ∈ a, c ≠ '.') :
    splitDot (a ++ '.' :: b) = a :: splitDot b := by
  induction a with
  | nil =>
    show splitDot ('.' :: b) = _
    rw [splitDot]
    cases h : splitDot b with
    | nil => exact absurd h (splitDot_ne_nil b)
    | cons p ps => simp
  | cons c a ih =>
    have hc : c ≠ '.' := ha c (by simp)
    show splitDot (c :: (a ++ '.' :: b)) = _
    rw [splitDot, ih (fun d hd => ha d (by simp [hd]))]
    simp [hc]

/-- C27, amended: a path `k.i` whose first key leads to an array and whose second
key is the canonical decimal form of the index `i` reads the element of the
array at `i` (`undefined` past its end). -/
theorem json_path_reads_array_index (ps : List (String × JsVal)) (k key : String)
    (xs : List JsVal) (i : Nat)
    (hk : ∀ c ∈ k.data, c ≠ '.') (hkey : ∀ c ∈ key.data, c ≠ '.')
    (hlookup : lookupProp k ps = some (.arr xs))
    (hindex : arrayIndex key = some i) :
    getNestedValue (.obj ps) (String.mk (k.data ++ '.' :: key.data))
      = (xs.get? i).getD .undefined := by
  have hlen : key ≠ "length" := by
    intro e
    rw [e] at hindex
    have hnone : arrayIndex "length" = none := by decide
    rw [hnone] at hindex
    cases hindex
  have hsplit : split (String.mk (k.data ++ '.' :: key.data)) = [k, key] := by
    simp only [split]
    rw [splitDot_append_dot k.data key.data hk, splitDot_no_dot key.data hkey]
    rfl
  rw [getNestedValue, hsplit]
  simp only [List.foldl_cons, List.foldl_nil, getProp_obj, hlookup, Option.getD_some]
  simp only [getProp, hlen, if_false, hindex]

/-- C27 at the path `k.1` into a list of two numbers. -/
theorem json_path_reads_array_index_witness :
    getNestedValue (.obj [("k", .arr [.num "7", .num "8"])]) "k.1" = .num "8" :=
  json_path_reads_array_index [("k", .arr [.num "7", .num "8"])] "k" "1" [.num "7", .num "8"] 1
    (by decide) (by decide) rfl (by decide)

/-- C27 as first stated fails: the path `k.0` reads the first element of the
array, and the test expecting it passes. -/
theorem json_path_array_counterexample :
    (runTest { status := 200, statusText := "OK", headers := some [],
               data := .obj [("k", .arr [.num "7", .num "8"])], time := 5, size := 11 }
        { id := "1", type := "json", field := "k.0", operator := "equals",
          value := "7", enabled := true }).passed = true
    ∧ getNestedValue (.obj [("k", .arr [.num "7", .num "8"])]) "k.0" = .num "7" := by
  exact ⟨rfl, rfl⟩

/-- Companion to C28: when the outbound call is answered and the body of the
reply serialises, `executeRequest` posts one summary with the id and the method of
the request, the URL of the call (the resolved URL with the query string),
the status of the reply and the elapsed time, which are those of the response
set in the store; when the call is rejected no summary is posted. -/
theorem history_summary_recorded (P : Platform) (W : World) (s : Store) (req : Request)
    (config : AxiosConfig)
    (hreq : s.selectedRequest = some req)
    (hconfig : buildConfig P s req = .ok config) :
    (∀ (reply : AxiosReply) (text : String), W.outbound config = .ok reply →
        jsonStringify reply.data = some text →
        (executeRequest P W s).recorded
            = some { request_id := req.id, method := req.method, url := config.url,
                     status := reply.status, response_time := W.endTime - W.startTime,
                     response_body := some text, response_headers := reply.headers }
          ∧ (executeRequest P W s).shown
            = some { status := reply.status, statusText := reply.statusText,
                     headers := some reply.headers, data := reply.data,
                     time := W.endTime - W.startTime, size := utf16Length text })
    ∧ (∀ msg : String, W.outbound config = .error msg → (executeRequest P W s).recorded = none)
    ∧ (∃ url, resolveUrl P s req.url = .ok url
        ∧ config.url = appendQuery url (buildParams req.params)) := by
  refine ⟨?_, ?_, ?_⟩
  · intro reply text hreply htext
    unfold executeRequest
    rw [hreq]
    simp only [hconfig, hreply, responseData, htext, historyEntry]
    cases W.history _ <;> exact ⟨rfl, rfl⟩
  · intro msg hfail
    unfold executeRequest
    rw [hreq]
    simp only [hconfig, hfail]
  · unfold buildConfig at hconfig
    cases hu : resolveUrl P s req.url with
    | error msg => rw [hu] at hconfig; simp at hconfig
    | ok url =>
      rw [hu] at hconfig
      simp only [Except.ok.injEq] at hconfig
      exact ⟨url, rfl, by rw [← hconfig]⟩

/-- The summary of a `GET` with one enabled and one disabled parameter. -/
theorem history_summary_recorded_witness :
    (executeRequest examplePlatform (answeringWorld (.obj [("id", .num "7")]))
        (exampleStore
          { id := "r1", collection_id := "c1", name := "example", method := "GET",
            url := "http://api.test/users",
            headers := [], params := [⟨"page", "2", true⟩, ⟨"debug", "1", false⟩],
            body := "", body_type := "json", tests := [] })).recorded
      = some { request_id := "r1", method := "GET", url := "http://api.test/users?page=2",
               status := 200, response_time := 42, response_body := some "\x7b\"id\":7\x7d",
               response_headers := [] } :=
  ((history_summary_recorded examplePlatform (answeringWorld (.obj [("id", .num "7")]))
      (exampleStore
        { id := "r1", collection_id := "c1", name := "example", method := "GET",
          url := "http://api.test/users",
          headers := [], params := [⟨"page", "2", true⟩, ⟨"debug", "1", false⟩],
          body := "", body_type := "json", tests := [] })
      _ { method := "get", url := "http://api.test/users?page=2", headers := [], data := none }
      rfl rfl).1
    { status := 200, statusText := "OK", headers := [], data := .obj [("id", .num "7")] }
    "\x7b\"id\":7\x7d" rfl rfl).1

/-- C28, at the failing input: the outbound call is answered with status 404
after 42 ms and the history post is rejected.  The summary handed to the
history recorder has status 404 and response time 42; the response the store
is left with, the one shown to the user, has status 0 and time 0. -/
theorem history_summary_differs_from_shown :
    (executeRequest examplePlatform historyDownWorld
        (exampleStore (exampleRequest "GET" "http://api.test/users/7" ""))).recorded
      = some { request_id := "r1", method := "GET", url := "http://api.test/users/7",
               status := 404, response_time := 42,
               response_body := some "\x7b\"message\":\"no such user\"\x7d",
               response_headers := [] }
    ∧ ((executeRequest examplePlatform historyDownWorld
        (exampleStore (exampleRequest "GET" "http://api.test/users/7" ""))).store.response.map
          (fun r => (r.status, r.time))) = some (0, 0) := by
  exact ⟨rfl, rfl⟩

/-! ## The request panel and the `PUT` routes -/
/-- C30, at the failing input: typing `2` in the Value input of the first
parameter changes its key to `2` and leaves its value `1`; the Value input of
a header changes the value. -/
theorem param_value_input_sets_key :
    paramValueInput [{ key := "page", value := "1", enabled := true },
                     { key := "size", value := "10", enabled := true }] 0 "2"
      = [{ key := "2", value := "1", enabled := true },
         { key := "size", value := "10", enabled := true }]
    ∧ headerValueInput [{ key := "Accept", value := "text/plain", enabled := true }] 0 "text/html"
      = [{ key := "Accept", value := "text/html", enabled := true }] := by
  decide

/-- C24, amended: a `PUT` for an id that no stored record has leaves the store
as it is and replies with status 200 and no body; the status is 200 for
every `PUT`, and for an id that is stored the body is the updated record. -/
theorem put_unknown_id_unchanged (db : Database) (id name now : String) (u : RequestUpdate)
    (vars : Option (List Variable)) :
    ((∀ c ∈ db.collections, c.id ≠ id) →
        putCollection db id name now = (db, { status := 200, body := none }))
    ∧ ((∀ r ∈ db.requests, r.request.id ≠ id) →
        putRequest db id u now = (db, { status := 200, body := none }))
    ∧ ((∀ e ∈ db.environments, e.environment.id ≠ id) →
        putEnvironment db id name vars now = (db, { status := 200, body := none }))
    ∧ (putCollection db id name now).2.status = 200
    ∧ (putRequest db id u now).2.status = 200
    ∧ (putEnvironment db id name vars now).2.status = 200
    ∧ ((∃ c ∈ db.collections, c.id = id) →
        ∃ c, (putCollection db id name now).2.body = some c ∧ c.id = id ∧ c.name = name)
    ∧ ((∃ r ∈ db.requests, r.request.id = id) →
        ∃ r, (putRequest db id u now).2.body = some r ∧ r.request.id = id)
    ∧ ((∃ e ∈ db.environments, e.environment.id = id) →
        ∃ e, (putEnvironment db id name vars now).2.body = some e ∧ e.environment.id = id) := by
  refine ⟨?_, ?_, ?_, ?_, ?_, ?_, ?_, ?_, ?_⟩
  · intro h
    have hf : db.collections.find? (fun c => decide (c.id = id)) = none := by
      simp only [List.find?_eq_none, decide_eq_true_eq]; exact h
    simp only [putCollection, hf]
  · intro h
    have hf : db.requests.find? (fun r => decide (r.request.id = id)) = none := by
      simp only [List.find?_eq_none, decide_eq_true_eq]; exact h
    simp only [putRequest, hf]
  · intro h
    have hf : db.environments.find? (fun e => decide (e.environment.id = id)) = none := by
      simp only [List.find?_eq_none, decide_eq_true_eq]; exact h
    simp only [putEnvironment, hf]
  · unfold putCollection
    cases db.collections.find? (fun c => decide (c.id = id)) <;> rfl
  · unfold putRequest
    cases db.requests.find? (fun r => decide (r.request.id = id)) <;> rfl
  · unfold putEnvironment
    cases db.environments.find? (fun e => decide (e.environment.id = id)) <;> rfl
  · rintro ⟨c, hc, hid⟩
    cases hf : db.collections.find? (fun c => decide (c.id = id)) with
    | none =>
      simp only [List.find?_eq_none, decide_eq_true_eq] at hf
      exact absurd hid (hf c hc)
    | some found =>
      have hfid : found.id = id := by simpa using List.find?_some hf
      refine ⟨{ found with name := name, updated_at := now }, ?_, hfid, rfl⟩
      simp only [putCollection, hf]
  · rintro ⟨r, hr, hid⟩
    cases hf : db.requests.find? (fun r => decide (r.request.id = id)) with
    | none =>
      simp only [List.find?_eq_none, decide_eq_true_eq] at hf
      exact absurd hid (hf r hr)
    | some found =>
      have hfid : found.request.id = id := by simpa using List.find?_some hf
      simp only [putRequest, hf]
      exact ⟨_, rfl, hfid⟩
  · rintro ⟨e, he, hid⟩
    cases hf : db.environments.find? (fun e => decide (e.environment.id = id)) with
    | none =>
      simp only [List.find?_eq_none, decide_eq_true_eq] at hf
      exact absurd hid (hf e he)
    | some found =>
      have hfid : found.environment.id = id := by simpa using List.find?_some hf
      simp only [putEnvironment, hf]
      exact ⟨_, rfl, hfid⟩

/-- C24 as first stated fails: the reply for an unknown id has the status of a
successful update, 200, and no error is signalled. -/
theorem put_unknown_id_counterexample :
    (putCollection exampleDatabase "nope" "Renamed" "t1").2.status
      = (putCollection exampleDatabase "c1" "Renamed" "t1").2.status
    ∧ (putCollection exampleDatabase "nope" "Renamed" "t1").2.status = 200
    ∧ (putCollection exampleDatabase "nope" "Renamed" "t1").2.body = none
    ∧ (putCollection exampleDatabase "nope" "Renamed" "t1").1 = exampleDatabase := by
  decide

end Playground
